import Mathlib

/-! bajo: a shallow embedding of the bytecode interpreter `src/c/bajo.c`

The C functions `decode_varint_size`, `read_src`, `read_dst`, `dispatch`,
`bajo_init`, `bajo_step` and `bajo_run` are transcribed as Lean functions that
pass the VM state explicitly.

Conventions of the embedding

* `uint32_t` / `unsigned int` values are `Nat`, reduced `% 2^32` wherever the C
  arithmetic can wrap; `int` / `int32_t` values are `Int` in the signed 32-bit
  range (`toS32` / `toU32` are the two casts, `int` is taken to be 32 bits wide
  and two's complement).
* The host's `read` and `write` callbacks are a plain little-endian byte memory
  (`bajo_t.mem`); every callback invocation is appended to `bajo_t.trace`.
* `read_src` is recursive without a bound in C (an indirect operand decodes a
  further operand), so the Lean functions carry a recursion budget and return
  `none` when it runs out.
* The operators `/` and `%` of `dispatch` are undefined in C for a zero divisor
  and for `INT_MIN / -1`; where the executor reaches one of them on such
  operands `dispatch`, and with it `bajo_step`, has no result (`none`).
* `opcodes.h` is not part of the sources at hand: the numbering of the opcodes
  is a parameter (`Config.opcodes`).
-/

namespace Bajo

/-! ## Error codes (`enum bajo_err_e`, bajo.h) -/

abbrev BAJO_OK : Int := 0
abbrev BAJO_EXIT : Int := 1
abbrev BAJO_BAD_VARINT : Int := 2
abbrev BAJO_UNKNOWN_OPCODE : Int := 3
abbrev BAJO_BAD_OPERAND : Int := 4
abbrev BAJO_BUG : Int := 5
abbrev BAJO_ZERO_DIVISION : Int := 6
abbrev BAJO_INTEGER_OVERFLOW : Int := 7

/-! ## Constants of bajo.c -/

abbrev SPEC_UNDEF : Nat := 0xFF
abbrev OPD_VAR : Nat := 9
abbrev OPD_1B : Nat := 10
abbrev OPD_1H : Nat := 11
abbrev MAX_TGTS : Nat := 8
abbrev MAX_SRCS : Nat := 8
abbrev INT_MIN_ : Int := -2147483648

/-- The macro `SPEC(_tspec, _sspec)`: `(_tspec) << 4 | (_sspec)`. -/
def SPEC (tspec sspec : Nat) : Nat := tspec <<< 4 ||| sspec

/-! ## Machine integers -/

/-- The cast `(uint32_t)x` of a signed value. -/
def toU32 (x : Int) : Nat := (x % 4294967296).toNat

/-- The cast `(int32_t)n` (also `(int)n`) of an unsigned value: two's complement. -/
def toS32 (n : Nat) : Int :=
  if n % 4294967296 < 2147483648 then ((n % 4294967296 : Nat) : Int)
  else ((n % 4294967296 : Nat) : Int) - 4294967296

/-- Signed 32-bit wrap-around of an exact integer result. -/
def wrap32 (x : Int) : Int := toS32 (toU32 x)

/-- The operator `~` on a 32-bit pattern. -/
def bnot32 (v : Nat) : Nat := 4294967295 - v % 4294967296

/-- The cast `(int8_t)x`. -/
def toS8 (x : Int) : Int :=
  if toU32 x % 256 < 128 then ((toU32 x % 256 : Nat) : Int) else ((toU32 x % 256 : Nat) : Int) - 256

/-- The cast `(int16_t)x`. -/
def toS16 (x : Int) : Int :=
  if toU32 x % 65536 < 32768 then ((toU32 x % 65536 : Nat) : Int)
  else ((toU32 x % 65536 : Nat) : Int) - 65536

/-! ## Opcodes

The names are those of the `opspecs` table and of the `switch` in `dispatch`
(the two lists coincide). Their numeric values live in `opcodes.h`. -/

inductive opcode_t where
  | ADD | SUB | MUL | DIV | DIV_U | REM | REM_U | LONG_MUL | LONG_MUL_U
  | AND2 | OR2 | AND | OR | BIT_AND | BIT_OR | BIT_XOR | INV
  | L_SHIFT | R_SHIFT | R_SHIFT_U
  | TST_EQ | TST_NE | TST_GT | TST_GE | TST_GT_U | TST_GE_U
  | JMP | JMP_LNK | BR | BR_LNK
  | BR_EQ | BR_NE | BR_GT | BR_GE | BR_GT_U | BR_GE_U
  | MOV_EQ | MOV_GT | MOV_GE | MOV_GT_U | MOV_GE_U
  | LD_B | LD_H | LD_B_U | LD_H_U | ST_B | ST_H
  | SYS | SYS00 | SYS01 | SYS02 | SYS03 | SYS04
  | SYS10 | SYS11 | SYS12 | SYS13 | SYS14
  | SYS20 | SYS21 | SYS22 | SYS23 | SYS24
  | MOV | NEG | EXIT | ABS | MAX | MIN | NOT | BOOL | NOP
  deriving DecidableEq, Repr

/-! ## Host and VM state -/

/-- One invocation of a host callback. -/
inductive Event where
  | read (addr len : Nat)
  | write (addr val len : Nat)
  | call (fn : Int) (args : List Int)
  deriving DecidableEq, Repr

/-- Whether the event is an invocation of the `write` callback. -/
def Event.isWrite : Event → Bool
  | .write _ _ _ => true
  | _ => false

/-- What an invocation of the host's `call` callback leaves behind.
Modelled from the spec: the callback writes result slots (`res[i]` is slot `i`)
and may set `err`. -/
structure CallOut where
  res : List Int
  err : Option Int

/-- The state `struct bajo_t` together with the host it points to: `pc`, `err`
and `exit_rc` are the C fields; `mem` and `trace` stand for the `read` and
`write` callbacks (a byte memory and the record of invocations); `call` is the
host function callback, which sees the memory, the function number and the
arguments. -/
structure bajo_t where
  pc : Nat
  err : Int
  exit_rc : Int
  mem : Nat → Nat
  trace : List Event
  call : (Nat → Nat) → Int → List Int → CallOut

/-- Modelled from the spec: the value returned by the host callback
`read(addr, len)`, little-endian and zero-extended; addresses are 32 bits wide
and wrap. -/
def load (mem : Nat → Nat) (addr : Nat) : Nat → Nat
  | 0 => 0
  | len + 1 => mem (addr % 4294967296) % 256 + 256 * load mem (addr + 1) len

/-- Modelled from the spec: the memory left by the host callback
`write(addr, val, len)`, little-endian, narrow writes truncate. -/
def store (mem : Nat → Nat) (addr val : Nat) : Nat → (Nat → Nat)
  | 0 => mem
  | len + 1 =>
    store (fun a => if a = addr % 4294967296 then val % 256 else mem a) (addr + 1) (val / 256) len

/-- State after the call `me->read(me, addr, len)`; its value is
`load me.mem addr len`. -/
def bajo_t.read (me : bajo_t) (addr len : Nat) : bajo_t :=
  { me with trace := me.trace ++ [Event.read addr len] }

/-- State after the call `me->write(me, addr, val, len)`. -/
def bajo_t.write (me : bajo_t) (addr val len : Nat) : bajo_t :=
  { me with mem := store me.mem addr val len, trace := me.trace ++ [Event.write addr val len] }

/-! ## Operand decoding -/

/-- The function `decode_varint_size`, portable branch (the `__builtin_ctz`
branch computes the same number for every head whose result is at most 5, and a
number above 5 exactly when this one is 6, C leaving `__builtin_ctz(0)`
undefined). -/
def decode_varint_size (head : Nat) : Nat :=
  if head &&& 0b1 ≠ 0 then 1
  else if head &&& 0b10 ≠ 0 then 2
  else if head &&& 0b100 ≠ 0 then 3
  else if head &&& 0b1000 ≠ 0 then 4
  else if head &&& 0b10000 ≠ 0 then 5
  else 6

/-- Count of trailing zero bits of a 32-bit word, as `__builtin_ctz`; the value
at 0, which C leaves undefined, is taken to be 32. -/
def ctz (head : Nat) : Nat :=
  ((List.range 32).find? (fun i => head.testBit i)).getD 32

/-- The function `read_src`. The stream pointer `addr` is always `&me->pc`, so
the position is the field `pc`. In `me->read(me, val, 4) + read_src(me, addr, 4)`
the left operand is evaluated first. The first argument bounds the depth of the
recursion. -/
def read_src : Nat → bajo_t → Nat → Option (Int × bajo_t)
  | 0, _, _ => none
  | fuel + 1, me, size =>
    -- uint32_t head = me->read(me, *addr, 1); *addr += 1;
    let head := load me.mem me.pc 1
    let me := { me.read me.pc 1 with pc := (me.pc + 1) % 4294967296 }
    let nbytes := decode_varint_size head
    if nbytes > 5 then
      some (0, { me with err := BAJO_BAD_VARINT })
    else
      -- tail = me->read(me, *addr, nbytes - 1); *addr += nbytes - 1;   or   tail = 0;
      let tail := if nbytes > 1 then load me.mem me.pc (nbytes - 1) else 0
      let me := if nbytes > 1 then
          { me.read me.pc (nbytes - 1) with pc := (me.pc + (nbytes - 1)) % 4294967296 }
        else me
      -- head >>= nbytes;
      let head := head >>> nbytes
      if head &&& 0b1 = 0 then
        -- val = (tail << (8 - 2 - nbytes)) | (head >> 2);
        let val := (tail <<< (8 - 2 - nbytes) ||| head >>> 2) % 4294967296
        -- if (head & 0b10) val = ~val;
        let val := if head &&& 0b10 ≠ 0 then bnot32 val else val
        let val := if size < 4 then
            (if size = 1 then val &&& 0xFF else if size = 2 then val &&& 0xFFFF else val)
          else val
        some (toS32 val, me)
      else
        -- val = (tail << (8 - 3 - nbytes)) | (head >> 3);
        let val := (tail <<< (8 - 3 - nbytes) ||| head >>> 3) % 4294967296
        -- if (!(head & 0b100)) val *= 4;
        let val := if head &&& 0b100 = 0 then val * 4 % 4294967296 else val
        if head &&& 0b010 ≠ 0 then
          -- val = me->read(me, val, 4) + read_src(me, addr, 4);
          let word := load me.mem val 4
          match read_src fuel (me.read val 4) 4 with
          | none => none
          | some (off, me) =>
            let val := (word + toU32 off) % 4294967296
            -- val = me->read(me, val, size);
            some (toS32 (load me.mem val size), me.read val size)
        else
          some (toS32 (load me.mem val size), me.read val size)

/-- The function `read_dst`; same conventions as `read_src`. -/
def read_dst (fuel : Nat) (me : bajo_t) : Option (Int × bajo_t) :=
  let head := load me.mem me.pc 1
  let me := { me.read me.pc 1 with pc := (me.pc + 1) % 4294967296 }
  let nbytes := decode_varint_size head
  if nbytes > 5 then
    some (0, { me with err := BAJO_BAD_VARINT })
  else
    let tail := if nbytes > 1 then load me.mem me.pc (nbytes - 1) else 0
    let me := if nbytes > 1 then
        { me.read me.pc (nbytes - 1) with pc := (me.pc + (nbytes - 1)) % 4294967296 }
      else me
    let head := head >>> nbytes
    -- int val = (tail << (8 - 2 - nbytes)) | (head >> 2);
    let val := (tail <<< (8 - 2 - nbytes) ||| head >>> 2) % 4294967296
    -- if (!(head & 0b10)) val *= 4;
    let val := if head &&& 0b10 = 0 then val * 4 % 4294967296 else val
    if head &&& 0b01 ≠ 0 then
      -- val = me->read(me, val, 4) + read_src(me, addr, 4);
      let word := load me.mem val 4
      match read_src fuel (me.read val 4) 4 with
      | none => none
      | some (off, me) => some (toS32 ((word + toU32 off) % 4294967296), me)
    else
      some (toS32 val, me)

/-! ## The opspec table -/

/-- Build-time parameters of bajo.c that the sources at hand leave open.
`MAX_OPCODE` and `opcodes` stand for `opcodes.h`: `_MAX_OPCODE` and, for a
number, the `opcode_t` constant with that value. The two booleans are the
macros of the same name. `srcs0` and `results0` are the indeterminate initial
contents of the local arrays `srcs` and `results` of `bajo_step`. -/
structure Config where
  MAX_OPCODE : Nat
  opcodes : Nat → Option opcode_t
  ERR_ON_ZERO_DIVISION : Bool
  ERR_ON_INT_OVERFLOW : Bool
  srcs0 : Nat → Int
  results0 : Nat → Int

/-- The designated initialisers of `opspecs`, by opcode name. -/
def opspec : opcode_t → Nat
  | .ADD => SPEC 1 2
  | .SUB => SPEC 1 2
  | .MUL => SPEC 1 2
  | .DIV => SPEC 1 2
  | .DIV_U => SPEC 1 2
  | .REM => SPEC 1 2
  | .REM_U => SPEC 1 2
  | .LONG_MUL => SPEC 2 2
  | .LONG_MUL_U => SPEC 2 2
  | .AND2 => SPEC 1 2
  | .OR2 => SPEC 1 2
  | .AND => SPEC 1 OPD_VAR
  | .OR => SPEC 1 OPD_VAR
  | .BIT_AND => SPEC 1 2
  | .BIT_OR => SPEC 1 2
  | .BIT_XOR => SPEC 1 2
  | .INV => SPEC 1 1
  | .L_SHIFT => SPEC 1 2
  | .R_SHIFT => SPEC 1 2
  | .R_SHIFT_U => SPEC 1 2
  | .TST_EQ => SPEC 1 2
  | .TST_NE => SPEC 1 2
  | .TST_GT => SPEC 1 2
  | .TST_GE => SPEC 1 2
  | .TST_GT_U => SPEC 1 2
  | .TST_GE_U => SPEC 1 2
  | .JMP => SPEC 0 1
  | .JMP_LNK => SPEC 1 1
  | .BR => SPEC 0 1
  | .BR_LNK => SPEC 1 1
  | .BR_EQ => SPEC 0 3
  | .BR_NE => SPEC 0 3
  | .BR_GT => SPEC 0 3
  | .BR_GE => SPEC 0 3
  | .BR_GT_U => SPEC 0 3
  | .BR_GE_U => SPEC 0 3
  | .MOV_EQ => SPEC 1 4
  | .MOV_GT => SPEC 1 4
  | .MOV_GE => SPEC 1 4
  | .MOV_GT_U => SPEC 1 4
  | .MOV_GE_U => SPEC 1 4
  | .LD_B => SPEC 1 OPD_1B
  | .LD_H => SPEC 1 OPD_1H
  | .LD_B_U => SPEC 1 OPD_1B
  | .LD_H_U => SPEC 1 OPD_1H
  | .ST_B => SPEC OPD_1B 1
  | .ST_H => SPEC OPD_1H 1
  | .SYS => SPEC OPD_VAR OPD_VAR
  | .SYS00 => SPEC 0 1
  | .SYS01 => SPEC 0 2
  | .SYS02 => SPEC 0 3
  | .SYS03 => SPEC 0 4
  | .SYS04 => SPEC 0 5
  | .SYS10 => SPEC 1 1
  | .SYS11 => SPEC 1 2
  | .SYS12 => SPEC 1 3
  | .SYS13 => SPEC 1 4
  | .SYS14 => SPEC 1 5
  | .SYS20 => SPEC 2 1
  | .SYS21 => SPEC 2 2
  | .SYS22 => SPEC 2 3
  | .SYS23 => SPEC 2 4
  | .SYS24 => SPEC 2 5
  | .MOV => SPEC 1 1
  | .NEG => SPEC 1 1
  | .EXIT => SPEC 0 1
  | .ABS => SPEC 1 1
  | .MAX => SPEC 1 OPD_VAR
  | .MIN => SPEC 1 OPD_VAR
  | .NOT => SPEC 1 1
  | .BOOL => SPEC 1 1
  | .NOP => SPEC 0 0

/-- The array `opspecs`: `SPEC_UNDEF` wherever no opcode is designated. -/
def opspecs (cfg : Config) (opcode : Nat) : Nat :=
  match cfg.opcodes opcode with
  | some op => opspec op
  | none => SPEC_UNDEF

/-! ## The executor -/

/-- Assignment `a[i] = v` to a local array. -/
def aset (a : Nat → Int) (i : Nat) (v : Int) : Nat → Int :=
  fun j => if j = i then v else a j

/-- The loop of `case AND`: `for (i = 0; i < ns; i += 1) { ret = s[i]; if (!ret) break; }`;
arguments: iterations left, `i`, `ret`. -/
def and_loop (s : Nat → Int) : Nat → Nat → Int → Int
  | 0, _, ret => ret
  | k + 1, i, _ => if s i = 0 then s i else and_loop s k (i + 1) (s i)

/-- The loop of `case OR`: `for (i = 0; i < ns; i += 1) { ret = s[i]; if (ret) break; }`. -/
def or_loop (s : Nat → Int) : Nat → Nat → Int → Int
  | 0, _, ret => ret
  | k + 1, i, _ => if s i ≠ 0 then s i else or_loop s k (i + 1) (s i)

/-- The loop of `case MAX`: `for (i = 1; i < ns; i += 1) if (s[i] > v) v = s[i];`. -/
def max_loop (s : Nat → Int) : Nat → Nat → Int → Int
  | 0, _, v => v
  | k + 1, i, v => max_loop s k (i + 1) (if s i > v then s i else v)

/-- The loop of `case MIN`: `for (i = 1; i < ns; i += 1) if (s[i] < v) v = s[i];`. -/
def min_loop (s : Nat → Int) : Nat → Nat → Int → Int
  | 0, _, v => v
  | k + 1, i, v => min_loop s k (i + 1) (if s i < v then s i else v)

/-- The statement `me->call(me, s[0], t, s + 1, ns - 1);` of the `SYS` cases. -/
def sys_call (me : bajo_t) (t s : Nat → Int) (ns : Nat) : bajo_t × (Nat → Int) :=
  let args := (List.range (ns - 1)).map (fun i => s (i + 1))
  let out := me.call me.mem (s 0) args
  let me := { me with trace := me.trace ++ [Event.call (s 0) args] }
  let me := match out.err with
    | some e => { me with err := e }
    | none => me
  (me, fun i => if i < out.res.length then out.res.getD i 0 else t i)

/-- The function `dispatch`: the state and the array `t` it leaves. Signed
arithmetic wraps. The value is `none` where the case evaluates `/` or `%` on
operands for which C leaves the operator undefined (a zero divisor, or
`INT_MIN / -1`): the compiled code may raise a signal there and not return, so
no state is attributed to it. -/
def dispatch (cfg : Config) (me : bajo_t) (opcode : Nat) (t s : Nat → Int) (ns : Nat) :
    Option (bajo_t × (Nat → Int)) :=
  match cfg.opcodes opcode with
  | some .ADD => some (me, aset t 0 (wrap32 (s 0 + s 1)))
  | some .SUB => some (me, aset t 0 (wrap32 (s 0 - s 1)))
  | some .MUL => some (me, aset t 0 (wrap32 (s 0 * s 1)))
  | some .DIV =>
    if cfg.ERR_ON_ZERO_DIVISION ∧ s 1 = 0 then some ({ me with err := BAJO_ZERO_DIVISION }, t)
    else if cfg.ERR_ON_INT_OVERFLOW ∧ s 0 = INT_MIN_ ∧ s 1 = -1 then
      some ({ me with err := BAJO_INTEGER_OVERFLOW }, t)
    -- t[0] = s[0] / s[1];
    else if s 1 = 0 ∨ (s 0 = INT_MIN_ ∧ s 1 = -1) then none
    else some (me, aset t 0 (wrap32 (Int.tdiv (s 0) (s 1))))
  | some .DIV_U =>
    if cfg.ERR_ON_ZERO_DIVISION ∧ s 1 = 0 then some ({ me with err := BAJO_ZERO_DIVISION }, t)
    -- t[0] = (uint32_t)s[0] / (uint32_t)s[1];
    else if toU32 (s 1) = 0 then none
    else some (me, aset t 0 (toS32 (toU32 (s 0) / toU32 (s 1))))
  | some .REM =>
    if cfg.ERR_ON_ZERO_DIVISION ∧ s 1 = 0 then some ({ me with err := BAJO_ZERO_DIVISION }, t)
    else if s 0 = INT_MIN_ ∧ s 1 = -1 then some (me, aset t 0 0)
    -- t[0] = s[0] % s[1];
    else if s 1 = 0 then none
    else some (me, aset t 0 (wrap32 (Int.tmod (s 0) (s 1))))
  | some .REM_U =>
    if cfg.ERR_ON_ZERO_DIVISION ∧ s 1 = 0 then some ({ me with err := BAJO_ZERO_DIVISION }, t)
    -- t[0] = (uint32_t)s[0] % (uint32_t)s[1];
    else if toU32 (s 1) = 0 then none
    else some (me, aset t 0 (toS32 (toU32 (s 0) % toU32 (s 1))))
  | some .LONG_MUL =>
    -- int64_t res = (int64_t)s[0] * (int64_t)s[1]; t[0] = res; t[1] = res >> 32;
    let res := s 0 * s 1
    some (me, aset (aset t 0 (wrap32 res)) 1 (wrap32 (res / 4294967296)))
  | some .LONG_MUL_U =>
    -- uint64_t res = (uint64_t)(uint32_t)s[0] * (uint32_t)s[1];
    let res := toU32 (s 0) * toU32 (s 1)
    some (me, aset (aset t 0 (toS32 res)) 1 (toS32 (res / 4294967296)))
  | some .AND2 => some (me, aset t 0 (if s 0 = 0 then s 0 else s 1))
  | some .OR2 => some (me, aset t 0 (if s 0 ≠ 0 then s 0 else s 1))
  | some .AND =>
    if ns = 0 then some ({ me with err := BAJO_BAD_OPERAND }, t)
    else some (me, aset t 0 (and_loop s ns 0 0))
  | some .OR =>
    if ns < 1 then some ({ me with err := BAJO_BAD_OPERAND }, t)
    else some (me, aset t 0 (or_loop s ns 0 0))
  | some .BIT_AND => some (me, aset t 0 (toS32 (toU32 (s 0) &&& toU32 (s 1))))
  | some .BIT_OR => some (me, aset t 0 (toS32 (toU32 (s 0) ||| toU32 (s 1))))
  | some .BIT_XOR => some (me, aset t 0 (toS32 (toU32 (s 0) ^^^ toU32 (s 1))))
  | some .INV => some (me, aset t 0 (toS32 (bnot32 (toU32 (s 0)))))
  | some .L_SHIFT =>
    if toU32 (s 1) ≥ 32 then some (me, aset t 0 0)
    else some (me, aset t 0 (toS32 (toU32 (s 0) <<< toU32 (s 1))))
  | some .R_SHIFT_U =>
    if toU32 (s 1) ≥ 32 then some (me, aset t 0 0)
    else some (me, aset t 0 (toS32 (toU32 (s 0) >>> toU32 (s 1))))
  | some .R_SHIFT =>
    if toU32 (s 1) ≥ 32 then some (me, aset t 0 (s 0 >>> 31))
    else some (me, aset t 0 (s 0 >>> toU32 (s 1)))
  | some .TST_EQ => some (me, aset t 0 (if s 0 = s 1 then 1 else 0))
  | some .TST_NE => some (me, aset t 0 (if s 0 ≠ s 1 then 1 else 0))
  | some .TST_GT => some (me, aset t 0 (if s 0 > s 1 then 1 else 0))
  | some .TST_GE => some (me, aset t 0 (if s 0 ≥ s 1 then 1 else 0))
  | some .TST_GT_U => some (me, aset t 0 (if toU32 (s 0) > toU32 (s 1) then 1 else 0))
  | some .TST_GE_U => some (me, aset t 0 (if toU32 (s 0) ≥ toU32 (s 1) then 1 else 0))
  | some .BR => some ({ me with pc := (me.pc + toU32 (s 0)) % 4294967296 }, t)
  | some .BR_LNK =>
    some ({ me with pc := (me.pc + toU32 (s 0)) % 4294967296 }, aset t 0 (toS32 me.pc))
  | some .BR_EQ =>
    if s 0 = s 1 then some ({ me with pc := (me.pc + toU32 (s 2)) % 4294967296 }, t) else some (me, t)
  | some .BR_NE =>
    if s 0 ≠ s 1 then some ({ me with pc := (me.pc + toU32 (s 2)) % 4294967296 }, t) else some (me, t)
  | some .BR_GT =>
    if s 0 > s 1 then some ({ me with pc := (me.pc + toU32 (s 2)) % 4294967296 }, t) else some (me, t)
  | some .BR_GE =>
    if s 0 ≥ s 1 then some ({ me with pc := (me.pc + toU32 (s 2)) % 4294967296 }, t) else some (me, t)
  | some .BR_GT_U =>
    if toU32 (s 0) > toU32 (s 1) then
      some ({ me with pc := (me.pc + toU32 (s 2)) % 4294967296 }, t)
    else some (me, t)
  | some .BR_GE_U =>
    if toU32 (s 0) ≥ toU32 (s 1) then
      some ({ me with pc := (me.pc + toU32 (s 2)) % 4294967296 }, t)
    else some (me, t)
  | some .JMP => some ({ me with pc := toU32 (s 0) }, t)
  | some .JMP_LNK => some ({ me with pc := toU32 (s 0) }, aset t 0 (toS32 me.pc))
  | some .MOV_EQ => some (me, aset t 0 (if s 0 = s 1 then s 2 else s 3))
  | some .MOV_GT => some (me, aset t 0 (if s 0 > s 1 then s 2 else s 3))
  | some .MOV_GE => some (me, aset t 0 (if s 0 ≥ s 1 then s 2 else s 3))
  | some .MOV_GT_U => some (me, aset t 0 (if toU32 (s 0) > toU32 (s 1) then s 2 else s 3))
  | some .MOV_GE_U => some (me, aset t 0 (if toU32 (s 0) ≥ toU32 (s 1) then s 2 else s 3))
  | some .SYS =>
    if ns < 1 then some ({ me with err := BAJO_BAD_OPERAND }, t)
    else some (sys_call me t s ns)
  | some .SYS00 => some (sys_call me t s ns)
  | some .SYS01 => some (sys_call me t s ns)
  | some .SYS02 => some (sys_call me t s ns)
  | some .SYS03 => some (sys_call me t s ns)
  | some .SYS04 => some (sys_call me t s ns)
  | some .SYS10 => some (sys_call me t s ns)
  | some .SYS11 => some (sys_call me t s ns)
  | some .SYS12 => some (sys_call me t s ns)
  | some .SYS13 => some (sys_call me t s ns)
  | some .SYS14 => some (sys_call me t s ns)
  | some .SYS20 => some (sys_call me t s ns)
  | some .SYS21 => some (sys_call me t s ns)
  | some .SYS22 => some (sys_call me t s ns)
  | some .SYS23 => some (sys_call me t s ns)
  | some .SYS24 => some (sys_call me t s ns)
  | some .MOV => some (me, aset t 0 (s 0))
  | some .LD_B_U => some (me, aset t 0 (s 0))
  | some .LD_H_U => some (me, aset t 0 (s 0))
  | some .ST_B => some (me, aset t 0 (s 0))
  | some .ST_H => some (me, aset t 0 (s 0))
  | some .LD_B => some (me, aset t 0 (toS8 (s 0)))
  | some .LD_H => some (me, aset t 0 (toS16 (s 0)))
  | some .NEG => some (me, aset t 0 (wrap32 (-(s 0))))
  | some .EXIT => some ({ me with err := BAJO_EXIT, exit_rc := s 0 }, t)
  | some .ABS => some (me, aset t 0 (if s 0 < 0 then wrap32 (-(s 0)) else s 0))
  | some .MAX =>
    if ns < 1 then some ({ me with err := BAJO_BAD_OPERAND }, t)
    else some (me, aset t 0 (max_loop s (ns - 1) 1 (s 0)))
  | some .MIN =>
    if ns < 1 then some ({ me with err := BAJO_BAD_OPERAND }, t)
    else some (me, aset t 0 (min_loop s (ns - 1) 1 (s 0)))
  | some .NOT => some (me, aset t 0 (if s 0 = 0 then 1 else 0))
  | some .BOOL => some (me, aset t 0 (if s 0 ≠ 0 then 1 else 0))
  | some .NOP => some (me, t)
  -- no case of the switch matches
  | none => some ({ me with err := BAJO_BUG }, t)

/-! ## The public surface -/

/-- The function `bajo_init`. -/
def bajo_init (me : bajo_t) (pc : Nat) : bajo_t :=
  { me with err := BAJO_OK, pc := pc, exit_rc := 0 }

/-- The ladder of `bajo_step` that turns a specifier into a count and an access
size (it occurs twice, for `tspec` and for `sspec`): `some (me, none)` is the
exit `return (me->err = BAJO_BAD_OPERAND)`, `some (me, some (n, size))` the
normal way out. -/
def read_count (fuel : Nat) (me : bajo_t) (spec maxn : Nat) :
    Option (bajo_t × Option (Nat × Nat)) :=
  if spec = OPD_VAR then
    match read_src fuel me 4 with
    | none => none
    | some (v, me) =>
      if toU32 v > maxn then some ({ me with err := BAJO_BAD_OPERAND }, none)
      else some (me, some (toU32 v, 4))
  else if spec = OPD_1B then some (me, some (1, 1))
  else if spec = OPD_1H then some (me, some (1, 2))
  else some (me, some (spec, 4))

/-- The loop `for (i = 0; i < ntgts; i += 1) tgts[i] = read_dst(me, &me->pc);`;
arguments: recursion budget, iterations left, `i`. -/
def read_tgts (fuel : Nat) : Nat → Nat → bajo_t → (Nat → Nat) → Option (bajo_t × (Nat → Nat))
  | 0, _, me, tgts => some (me, tgts)
  | k + 1, i, me, tgts =>
    match read_dst fuel me with
    | none => none
    | some (v, me) => read_tgts fuel k (i + 1) me (fun j => if j = i then toU32 v else tgts j)

/-- The loop `for (i = rmw0 ? 1 : 0; i < nsrcs; i += 1) srcs[i] = read_src(me, &me->pc, ssize);`;
arguments: recursion budget, iterations left, `i`. -/
def read_srcs (fuel : Nat) (ssize : Nat) :
    Nat → Nat → bajo_t → (Nat → Int) → Option (bajo_t × (Nat → Int))
  | 0, _, me, srcs => some (me, srcs)
  | k + 1, i, me, srcs =>
    match read_src fuel me ssize with
    | none => none
    | some (v, me) => read_srcs fuel ssize k (i + 1) me (aset srcs i v)

/-- The loop `for (i = 0; i < ntgts; i += 1) me->write(me, tgts[i], results[i], tsize);`;
arguments: iterations left, `i`. -/
def write_tgts (tgts : Nat → Nat) (results : Nat → Int) (tsize : Nat) : Nat → Nat → bajo_t → bajo_t
  | 0, _, me => me
  | k + 1, i, me => write_tgts tgts results tsize k (i + 1) (me.write (tgts i) (toU32 (results i)) tsize)

/-- The function `bajo_step`: the returned code and the state left, `none` when
operand decoding exceeds the recursion budget `fuel` or `dispatch` evaluates an
undefined division. -/
def bajo_step (cfg : Config) (fuel : Nat) (me : bajo_t) : Option (Int × bajo_t) :=
  -- me->err = BAJO_OK;
  let me := { me with err := BAJO_OK }
  -- unsigned int opcode = me->read(me, me->pc, 1); me->pc += 1;
  let byte := load me.mem me.pc 1
  let me := { me.read me.pc 1 with pc := (me.pc + 1) % 4294967296 }
  -- const bool rmw0 = opcode & 0x80; opcode &= ~0x80;
  let rmw0 : Bool := decide (byte &&& 0x80 ≠ 0)
  let opcode := byte &&& 0xFFFFFF7F
  if opcode > cfg.MAX_OPCODE then
    some (BAJO_UNKNOWN_OPCODE, { me with err := BAJO_UNKNOWN_OPCODE })
  else
    let spec := opspecs cfg opcode
    if spec = SPEC_UNDEF then
      some (BAJO_UNKNOWN_OPCODE, { me with err := BAJO_UNKNOWN_OPCODE })
    else
      match read_count fuel me (spec >>> 4) MAX_TGTS with
      | none => none
      | some (me, none) => some (BAJO_BAD_OPERAND, me)
      | some (me, some (ntgts, tsize)) =>
        match read_tgts fuel ntgts 0 me (fun _ => 0) with
        | none => none
        | some (me, tgts) =>
          match read_count fuel me (spec &&& 0x0F) MAX_SRCS with
          | none => none
          | some (me, none) => some (BAJO_BAD_OPERAND, me)
          | some (me, some (nsrcs, ssize)) =>
            if rmw0 = true ∧ (nsrcs = 0 ∨ ntgts = 0) then
              -- return (me->err == BAJO_BAD_OPERAND);
              some (if me.err = BAJO_BAD_OPERAND then 1 else 0, me)
            else
              -- if (rmw0) srcs[0] = me->read(me, tgts[0], ssize);
              let srcs := if rmw0 then aset cfg.srcs0 0 (toS32 (load me.mem (tgts 0) ssize))
                else cfg.srcs0
              let me := if rmw0 then me.read (tgts 0) ssize else me
              let first := if rmw0 then 1 else 0
              match read_srcs fuel ssize (nsrcs - first) first me srcs with
              | none => none
              | some (me, srcs) =>
                if me.err ≠ 0 then some (me.err, me)
                else
                  match dispatch cfg me opcode cfg.results0 srcs nsrcs with
                  | none => none
                  | some r =>
                    if r.1.err ≠ 0 then some (r.1.err, r.1)
                    else
                      let me := write_tgts tgts r.2 tsize ntgts 0 r.1
                      some (me.err, me)

/-- The function `bajo_run`: `while ((rc = bajo_step(me)) == BAJO_OK);`, with a
bound on the number of steps (first numeric argument) besides the recursion
budget of operand decoding; `none` when either runs out or a step has no
result. -/
def bajo_run (cfg : Config) (fuel : Nat) : Nat → bajo_t → Option (Int × bajo_t)
  | 0, _ => none
  | n + 1, me =>
    match bajo_step cfg fuel me with
    | none => none
    | some (rc, me) => if rc = BAJO_OK then bajo_run cfg fuel n me else some (rc, me)

/-! ## A concrete build and host, for evaluating the definitions -/

/-- The opcode names in the order of the `opspecs` table, `NOP` left out. -/
def table_order : List opcode_t :=
  [.ADD, .SUB, .MUL, .DIV, .DIV_U, .REM, .REM_U, .LONG_MUL, .LONG_MUL_U, .AND2, .OR2, .AND, .OR, .BIT_AND, .BIT_OR, .BIT_XOR, .INV, .L_SHIFT, .R_SHIFT, .R_SHIFT_U, .TST_EQ, .TST_NE, .TST_GT, .TST_GE, .TST_GT_U, .TST_GE_U, .JMP, .JMP_LNK, .BR, .BR_LNK, .BR_EQ, .BR_NE, .BR_GT, .BR_GE, .BR_GT_U, .BR_GE_U, .MOV_EQ, .MOV_GT, .MOV_GE, .MOV_GT_U, .MOV_GE_U, .LD_B, .LD_H, .LD_B_U, .LD_H_U, .ST_B, .ST_H, .SYS, .SYS00, .SYS01, .SYS02, .SYS03, .SYS04, .SYS10, .SYS11, .SYS12, .SYS13, .SYS14, .SYS20, .SYS21, .SYS22, .SYS23, .SYS24, .MOV, .NEG, .EXIT, .ABS, .MAX, .MIN, .NOT, .BOOL]

/-- One admissible numbering of the opcodes: `NOP` is 0x4E, the value the
specification gives; the other opcodes are numbered from 0 in table order. -/
def sample_opcodes (k : Nat) : Option opcode_t :=
  if k = 0x4E then some .NOP else table_order[k]?

/-- A build with the default knobs and the sample numbering. -/
def sample_cfg : Config :=
  { MAX_OPCODE := 0x4E, opcodes := sample_opcodes,
    ERR_ON_ZERO_DIVISION := false, ERR_ON_INT_OVERFLOW := false,
    srcs0 := fun _ => 0, results0 := fun _ => 0 }

/-- A VM at `pc` with the given error field, over a memory that holds the bytes
`bs` from address 0 on and zero elsewhere, and a host whose functions return
nothing. -/
def sample_vm (bs : List Nat) (pc : Nat) (err : Int) : bajo_t :=
  { pc := pc, err := err, exit_rc := 0, mem := fun a => bs.getD a 0, trace := [],
    call := fun _ _ _ => { res := [], err := none } }

/-! ## Vocabulary of the statements -/

/-- No write happened between two states: the memory is the same and the trace
only grew, by events that are not invocations of `write`. -/
def Quiet (me me' : bajo_t) : Prop :=
  me'.mem = me.mem ∧ ∃ evs, me'.trace = me.trace ++ evs ∧ ∀ e ∈ evs, Event.isWrite e = false

/-- The memory holds the bytes `bs` from address `a` on (addresses wrap at 32 bits). -/
def Holds (mem : Nat → Nat) (a : Nat) (bs : List Nat) : Prop :=
  ∀ i, i < bs.length → mem ((a + i) % 4294967296) = bs.getD i 0

/-- Little-endian value of a list of bytes. -/
def le_value : List Nat → Nat
  | [] => 0
  | b :: bs => b + 256 * le_value bs

/-- The state once the `n` bytes of an operand have been fetched from the
stream: the position has advanced by `n`, and the trace holds the read of the
first byte and, when `n > 1`, the read of the `n - 1` bytes that follow it. -/
def fetched (me : bajo_t) (n : Nat) : bajo_t :=
  { me with
    pc := (me.pc + n) % 4294967296,
    trace := me.trace ++ Event.read me.pc 1 ::
      (if n > 1 then [Event.read ((me.pc + 1) % 4294967296) (n - 1)] else []) }

/-- The state of `read_src` and `read_dst` at the statement `head >>= nbytes`,
in terms of the state at entry (a sub-term of the two functions, named for the
proofs). -/
def fetch_raw (me : bajo_t) (nbytes : Nat) : bajo_t :=
  let me := { me.read me.pc 1 with pc := (me.pc + 1) % 4294967296 }
  if nbytes > 1 then
    { me.read me.pc (nbytes - 1) with pc := (me.pc + (nbytes - 1)) % 4294967296 }
  else me

/-- The variable `tail` of `read_src` and `read_dst` at the statement
`head >>= nbytes`, in terms of the state at entry. -/
def tail_raw (me : bajo_t) (nbytes : Nat) : Nat :=
  let me := { me.read me.pc 1 with pc := (me.pc + 1) % 4294967296 }
  if nbytes > 1 then load me.mem me.pc (nbytes - 1) else 0

/-- The 32-bit payload of an operand with first byte `b` and trailing bytes `tl`
(so `tl.length + 1` bytes and as many length-tag bits): the bits of `b` that
remain above the tag and `flags` flag bits, with the trailing bytes placed
little-endian directly above them. -/
def payload_above (flags b : Nat) (tl : List Nat) : Nat :=
  (b / 2 ^ (tl.length + 1 + flags) + 2 ^ (8 - (tl.length + 1) - flags) * le_value tl) % 4294967296

/-- The address a destination operand names before indirection: the payload
above the two flag bits, multiplied by 4 when the byte-aligned flag (bit 1
above the length tag) is clear. -/
def dst_base (b : Nat) (tl : List Nat) : Nat :=
  if b / 2 ^ (tl.length + 2) % 2 = 0 then payload_above 2 b tl * 4 % 4294967296
  else payload_above 2 b tl

/-- The address a source operand in memory-reference mode names before
indirection, as `read_src` computes it: the payload above the three flag bits,
multiplied by 4 when bit 2 above the length tag is clear. -/
def src_base (b : Nat) (tl : List Nat) : Nat :=
  if b / 2 ^ (tl.length + 3) % 2 = 0 then payload_above 3 b tl * 4 % 4294967296
  else payload_above 3 b tl

/-- The memory-reference mode of the source decoder as claim C8 words it: bit 1
above the length tag is the byte-aligned flag (clear: the payload is multiplied
by 4) and bit 2 is the indirection flag. -/
def claimed_read_src_ref (fuel : Nat) (me : bajo_t) (b : Nat) (tl : List Nat) (w : Nat) :
    Option (Int × bajo_t) :=
  let base := if b / 2 ^ (tl.length + 2) % 2 = 0 then payload_above 3 b tl * 4 % 4294967296
    else payload_above 3 b tl
  let me1 := fetched me (tl.length + 1)
  if b / 2 ^ (tl.length + 3) % 2 = 0 then
    some (toS32 (load me.mem base w), me1.read base w)
  else
    match read_src fuel (me1.read base 4) 4 with
    | none => none
    | some (off, me2) =>
      some (toS32 (load me.mem ((load me.mem base 4 + toU32 off) % 4294967296) w),
        me2.read ((load me.mem base 4 + toU32 off) % 4294967296) w)

/-- A literal source operand for the 32-bit value `v`, in the 5-byte form: the
first byte carries the length tag `10000`, mode 0, negate 0 and bit 0 of `v`;
the four bytes that follow carry `v / 2`, little-endian. -/
def encode_lit (v : Nat) : List Nat :=
  [0x10 + 128 * (v % 2), v / 2 % 256, v / 2 / 256 % 256, v / 2 / 65536 % 256,
    v / 2 / 16777216 % 256]

/-- The value of a literal source operand with first byte `b` and trailing bytes
`tl` at access width 4, as a signed number: the payload above the two flag
bits, complemented when the negate flag (bit 1 above the length tag) is set. -/
def lit_value (b : Nat) (tl : List Nat) : Int :=
  toS32 (if b / 2 ^ (tl.length + 2) % 2 = 0 then payload_above 2 b tl
         else bnot32 (payload_above 2 b tl))

/-! ## The decoding half of a step -/

/-- What `bajo_step` holds when it reaches the test `if (me->err)` that follows
the decoding of the operands: the state, the opcode (RMW bit stripped), and
the local variables `ntgts`, `tsize`, `tgts`, `nsrcs`, `ssize`, `srcs`. -/
structure Decoded where
  me : bajo_t
  opcode : Nat
  ntgts : Nat
  tsize : Nat
  tgts : Nat → Nat
  nsrcs : Nat
  ssize : Nat
  srcs : Nat → Int

/-- The part of `bajo_step` from its first statement to the end of the loop
that reads the sources: `Except.error (rc, me)` is a `return` taken on the way
(unknown opcode, count above the bound, the RMW operand check),
`Except.ok d` the arrival at `if (me->err)`. The text is that of `bajo_step`. -/
def bajo_decode (cfg : Config) (fuel : Nat) (me : bajo_t) :
    Option (Except (Int × bajo_t) Decoded) :=
  let me := { me with err := BAJO_OK }
  let byte := load me.mem me.pc 1
  let me := { me.read me.pc 1 with pc := (me.pc + 1) % 4294967296 }
  let rmw0 : Bool := decide (byte &&& 0x80 ≠ 0)
  let opcode := byte &&& 0xFFFFFF7F
  if opcode > cfg.MAX_OPCODE then
    some (.error (BAJO_UNKNOWN_OPCODE, { me with err := BAJO_UNKNOWN_OPCODE }))
  else
    let spec := opspecs cfg opcode
    if spec = SPEC_UNDEF then
      some (.error (BAJO_UNKNOWN_OPCODE, { me with err := BAJO_UNKNOWN_OPCODE }))
    else
      match read_count fuel me (spec >>> 4) MAX_TGTS with
      | none => none
      | some (me, none) => some (.error (BAJO_BAD_OPERAND, me))
      | some (me, some (ntgts, tsize)) =>
        match read_tgts fuel ntgts 0 me (fun _ => 0) with
        | none => none
        | some (me, tgts) =>
          match read_count fuel me (spec &&& 0x0F) MAX_SRCS with
          | none => none
          | some (me, none) => some (.error (BAJO_BAD_OPERAND, me))
          | some (me, some (nsrcs, ssize)) =>
            if rmw0 = true ∧ (nsrcs = 0 ∨ ntgts = 0) then
              some (.error (if me.err = BAJO_BAD_OPERAND then 1 else 0, me))
            else
              let srcs := if rmw0 then aset cfg.srcs0 0 (toS32 (load me.mem (tgts 0) ssize))
                else cfg.srcs0
              let me := if rmw0 then me.read (tgts 0) ssize else me
              let first := if rmw0 then 1 else 0
              match read_srcs fuel ssize (nsrcs - first) first me srcs with
              | none => none
              | some (me, srcs) =>
                some (.ok { me := me, opcode := opcode, ntgts := ntgts, tsize := tsize,
                            tgts := tgts, nsrcs := nsrcs, ssize := ssize, srcs := srcs })

/-- The part of `bajo_step` from the test `if (me->err)` that follows the
decoding to the final `return me->err`. -/
def bajo_finish (cfg : Config) (d : Decoded) : Option (Int × bajo_t) :=
  if d.me.err ≠ 0 then some (d.me.err, d.me)
  else
    match dispatch cfg d.me d.opcode cfg.results0 d.srcs d.nsrcs with
    | none => none
    | some r =>
      if r.1.err ≠ 0 then some (r.1.err, r.1)
      else
        let me := write_tgts d.tgts r.2 d.tsize d.ntgts 0 r.1
        some (me.err, me)

/-! ## Vocabulary of the statements about the executor and the order of events -/

/-- The opcodes whose executor case is the host call
`me->call(me, s[0], t, s + 1, ns - 1)`. -/
def is_sys : opcode_t → Bool
  | .SYS | .SYS00 | .SYS01 | .SYS02 | .SYS03 | .SYS04
  | .SYS10 | .SYS11 | .SYS12 | .SYS13 | .SYS14
  | .SYS20 | .SYS21 | .SYS22 | .SYS23 | .SYS24 => true
  | _ => false

/-- The operand count that the ladder of `bajo_step` derives from a specifier
other than `OPD_VAR`: 1 for the byte and halfword specifiers, the specifier
itself otherwise. -/
def spec_count (spec : Nat) : Nat :=
  if spec = OPD_1B ∨ spec = OPD_1H then 1 else spec

/-- The targets `i, i + 1, ...` are decoded one after the other by `read_dst`,
starting in state `me` and ending in `me'`; the `j`-th list of `groups` is what
the decoding of target `i + j` appended to the trace, and `tgts` holds the
decoded addresses. -/
def DecodesTgts (fuel : Nat) (tgts : Nat → Nat) :
    Nat → bajo_t → List (List Event) → bajo_t → Prop
  | _, me, [], me' => me' = me
  | i, me, g :: gs, me' =>
    ∃ v m1, read_dst fuel me = some (v, m1) ∧ m1.trace = me.trace ++ g ∧ tgts i = toU32 v ∧
      DecodesTgts fuel tgts (i + 1) m1 gs me'

/-- The sources `i, i + 1, ...` are decoded one after the other by `read_src`
at access width `ssize`, starting in state `me` and ending in `me'`; the `j`-th
list of `groups` is what the decoding of source `i + j` appended to the trace,
and `srcs` holds the decoded values. -/
def DecodesSrcs (fuel ssize : Nat) (srcs : Nat → Int) :
    Nat → bajo_t → List (List Event) → bajo_t → Prop
  | _, me, [], me' => me' = me
  | i, me, g :: gs, me' =>
    ∃ v m1, read_src fuel me ssize = some (v, m1) ∧ m1.trace = me.trace ++ g ∧ srcs i = v ∧
      DecodesSrcs fuel ssize srcs (i + 1) m1 gs me'

/-- Every event of the list is an invocation of the `read` callback. -/
def AllReads (evs : List Event) : Prop :=
  ∀ e ∈ evs, ∃ a l, e = Event.read a l

/-- The bytes `b :: tl` are a well-formed literal source operand: bytes below
256, at most 5 of them, as many as the first byte announces (`ctz b + 1`), and
the mode bit (bit 0 above the length tag) clear. -/
def IsLit (b : Nat) (tl : List Nat) : Prop :=
  b < 256 ∧ (∀ x ∈ tl, x < 256) ∧ tl.length ≤ 4 ∧ ctz b = tl.length ∧
    b / 2 ^ (tl.length + 1) % 2 = 0

/-- The bytes `b :: tl` are a well-formed direct destination operand: bytes
below 256, at most 5 of them, as many as the first byte announces, and the
indirection flag (bit 0 above the length tag) clear. -/
def IsDirect (b : Nat) (tl : List Nat) : Prop :=
  b < 256 ∧ (∀ x ∈ tl, x < 256) ∧ tl.length ≤ 4 ∧ ctz b = tl.length ∧
    b / 2 ^ (tl.length + 1) % 2 = 0

/-- The condition of the conditional branch opcodes on the sources `s0`, `s1`. -/
def br_cond : opcode_t → Int → Int → Bool
  | .BR_EQ, a, b => decide (a = b)
  | .BR_NE, a, b => decide (a ≠ b)
  | .BR_GT, a, b => decide (a > b)
  | .BR_GE, a, b => decide (a ≥ b)
  | .BR_GT_U, a, b => decide (toU32 a > toU32 b)
  | .BR_GE_U, a, b => decide (toU32 a ≥ toU32 b)
  | _, _, _ => false

/-- The state of `bajo_step` once the opcode byte has been fetched: `err`
cleared, the position advanced by one, the read of the byte in the trace. -/
def opcode_fetched (me : bajo_t) : bajo_t :=
  { me with err := BAJO_OK, pc := (me.pc + 1) % 4294967296,
            trace := me.trace ++ [Event.read me.pc 1] }

/-- Between two states the trace only grew, by invocations of `read`. -/
def Reads (me me' : bajo_t) : Prop :=
  ∃ evs, me'.trace = me.trace ++ evs ∧ AllReads evs

/-! ## Theorems -/

/-! ### Reads leave the memory alone -/

theorem Quiet.refl (me : bajo_t) : Quiet me me := ⟨rfl, [], by simp, by simp⟩

theorem Quiet.trans {a b c : bajo_t} (h1 : Quiet a b) (h2 : Quiet b c) : Quiet a c := by
  obtain ⟨m1, e1, t1, w1⟩ := h1
  obtain ⟨m2, e2, t2, w2⟩ := h2
  refine ⟨m2.trans m1, e1 ++ e2, by rw [t2, t1, List.append_assoc], ?_⟩
  intro e he
  rcases List.mem_append.1 he with h | h
  · exact w1 e h
  · exact w2 e h

theorem quiet_read (me : bajo_t) (a l : Nat) : Quiet me (me.read a l) :=
  ⟨rfl, [Event.read a l], rfl, by simp [Event.isWrite]⟩

theorem quiet_fields {me me' : bajo_t} (hm : me'.mem = me.mem) (ht : me'.trace = me.trace) :
    Quiet me me' := ⟨hm, [], by simp [ht], by simp⟩

/-- The two reads that fetch the bytes of one operand. -/
theorem quiet_fetch (me : bajo_t) (k p q : Nat) :
    Quiet me (if k > 1 then
      { ({ me.read me.pc 1 with pc := p } : bajo_t).read p (k - 1) with pc := q }
      else { me.read me.pc 1 with pc := p }) := by
  split
  · exact ((quiet_read me me.pc 1).trans (quiet_fields rfl rfl)).trans
      ((quiet_read _ p (k - 1)).trans (quiet_fields rfl rfl))
  · exact (quiet_read me me.pc 1).trans (quiet_fields rfl rfl)

theorem read_src_quiet : ∀ (fuel : Nat) (me : bajo_t) (size : Nat) (v : Int) (me' : bajo_t),
    read_src fuel me size = some (v, me') → Quiet me me' := by
  intro fuel
  induction fuel with
  | zero => intro me size v me' h; simp [read_src] at h
  | succ n ih =>
    intro me size v me' h
    simp only [read_src] at h
    split at h
    · simp only [Option.some.injEq, Prod.mk.injEq] at h
      obtain ⟨-, rfl⟩ := h
      exact (quiet_read me me.pc 1).trans (quiet_fields rfl rfl)
    · have hf := quiet_fetch me (decode_varint_size (load me.mem me.pc 1))
        ((me.pc + 1) % 4294967296)
        (((me.pc + 1) % 4294967296 + (decode_varint_size (load me.mem me.pc 1) - 1)) % 4294967296)
      split at h
      · simp only [Option.some.injEq, Prod.mk.injEq] at h
        obtain ⟨-, rfl⟩ := h
        exact hf
      · split at h
        · split at h
          · exact absurd h (by simp)
          · rename_i off me2 heq
            simp only [Option.some.injEq, Prod.mk.injEq] at h
            obtain ⟨-, rfl⟩ := h
            exact ((hf.trans (quiet_read _ _ _)).trans (ih _ _ _ _ heq)).trans (quiet_read _ _ _)
        · simp only [Option.some.injEq, Prod.mk.injEq] at h
          obtain ⟨-, rfl⟩ := h
          exact hf.trans (quiet_read _ _ _)

theorem read_dst_quiet (fuel : Nat) (me : bajo_t) (v : Int) (me' : bajo_t)
    (h : read_dst fuel me = some (v, me')) : Quiet me me' := by
  simp only [read_dst] at h
  split at h
  · simp only [Option.some.injEq, Prod.mk.injEq] at h
    obtain ⟨-, rfl⟩ := h
    exact (quiet_read me me.pc 1).trans (quiet_fields rfl rfl)
  · have hf := quiet_fetch me (decode_varint_size (load me.mem me.pc 1))
      ((me.pc + 1) % 4294967296)
      (((me.pc + 1) % 4294967296 + (decode_varint_size (load me.mem me.pc 1) - 1)) % 4294967296)
    split at h
    · split at h
      · exact absurd h (by simp)
      · rename_i off me2 heq
        simp only [Option.some.injEq, Prod.mk.injEq] at h
        obtain ⟨-, rfl⟩ := h
        exact (hf.trans (quiet_read _ _ _)).trans (read_src_quiet _ _ _ _ _ heq)
    · simp only [Option.some.injEq, Prod.mk.injEq] at h
      obtain ⟨-, rfl⟩ := h
      exact hf

theorem sys_call_quiet (me : bajo_t) (t s : Nat → Int) (ns : Nat) :
    Quiet me (sys_call me t s ns).1 := by
  simp only [sys_call]
  split
  · exact ⟨rfl, [_], rfl, by simp [Event.isWrite]⟩
  · exact ⟨rfl, [_], rfl, by simp [Event.isWrite]⟩

theorem dispatch_quiet (cfg : Config) (me : bajo_t) (opcode : Nat) (t s : Nat → Int) (ns : Nat)
    (r : bajo_t × (Nat → Int)) (h : dispatch cfg me opcode t s ns = some r) : Quiet me r.1 := by
  unfold dispatch at h
  split at h <;>
    first
    | (obtain rfl := Option.some.inj h
       first
       | exact Quiet.refl _
       | exact quiet_fields rfl rfl
       | exact sys_call_quiet _ _ _ _)
    | ((repeat' split at h) <;>
        first
        | contradiction
        | (obtain rfl := Option.some.inj h
           first
           | exact Quiet.refl _
           | exact quiet_fields rfl rfl
           | exact sys_call_quiet _ _ _ _))

theorem read_count_quiet (fuel : Nat) (me : bajo_t) (spec maxn : Nat) (me' : bajo_t)
    (r : Option (Nat × Nat)) (h : read_count fuel me spec maxn = some (me', r)) : Quiet me me' := by
  simp only [read_count] at h
  split at h
  · split at h
    · exact absurd h (by simp)
    · rename_i v me2 heq
      have hq := read_src_quiet _ _ _ _ _ heq
      split at h
      · simp only [Option.some.injEq, Prod.mk.injEq] at h
        obtain ⟨rfl, -⟩ := h
        exact hq.trans (quiet_fields rfl rfl)
      · simp only [Option.some.injEq, Prod.mk.injEq] at h
        obtain ⟨rfl, -⟩ := h
        exact hq
  · split at h
    · simp only [Option.some.injEq, Prod.mk.injEq] at h
      obtain ⟨rfl, -⟩ := h
      exact Quiet.refl _
    · split at h
      · simp only [Option.some.injEq, Prod.mk.injEq] at h
        obtain ⟨rfl, -⟩ := h
        exact Quiet.refl _
      · simp only [Option.some.injEq, Prod.mk.injEq] at h
        obtain ⟨rfl, -⟩ := h
        exact Quiet.refl _

theorem read_tgts_quiet (fuel : Nat) : ∀ (k i : Nat) (me : bajo_t) (tgts : Nat → Nat)
    (me' : bajo_t) (tgts' : Nat → Nat),
    read_tgts fuel k i me tgts = some (me', tgts') → Quiet me me' := by
  intro k
  induction k with
  | zero =>
    intro i me tgts me' tgts' h
    simp only [read_tgts, Option.some.injEq, Prod.mk.injEq] at h
    obtain ⟨rfl, -⟩ := h
    exact Quiet.refl _
  | succ k ih =>
    intro i me tgts me' tgts' h
    simp only [read_tgts] at h
    split at h
    · exact absurd h (by simp)
    · rename_i v me2 heq
      exact (read_dst_quiet _ _ _ _ heq).trans (ih _ _ _ _ _ h)

theorem read_srcs_quiet (fuel ssize : Nat) : ∀ (k i : Nat) (me : bajo_t) (srcs : Nat → Int)
    (me' : bajo_t) (srcs' : Nat → Int),
    read_srcs fuel ssize k i me srcs = some (me', srcs') → Quiet me me' := by
  intro k
  induction k with
  | zero =>
    intro i me srcs me' srcs' h
    simp only [read_srcs, Option.some.injEq, Prod.mk.injEq] at h
    obtain ⟨rfl, -⟩ := h
    exact Quiet.refl _
  | succ k ih =>
    intro i me srcs me' srcs' h
    simp only [read_srcs] at h
    split at h
    · exact absurd h (by simp)
    · rename_i v me2 heq
      exact (read_src_quiet _ _ _ _ _ heq).trans (ih _ _ _ _ _ h)

theorem write_tgts_err (tgts : Nat → Nat) (results : Nat → Int) (tsize : Nat) :
    ∀ (k i : Nat) (me : bajo_t), (write_tgts tgts results tsize k i me).err = me.err := by
  intro k
  induction k with
  | zero => intro i me; rfl
  | succ k ih => intro i me; simp only [write_tgts]; rw [ih]; rfl

/-- Claim C1. A step that returns a code other than OK has invoked the `write`
callback zero times: the host memory after the step is the memory before it,
and the events the step appended to the trace contain no write. -/
theorem step_error_implies_no_write (cfg : Config) (fuel : Nat) (me me' : bajo_t) (rc : Int)
    (h : bajo_step cfg fuel me = some (rc, me')) (hrc : rc ≠ BAJO_OK) :
    me'.mem = me.mem ∧
      ∃ evs, me'.trace = me.trace ++ evs ∧ ∀ e ∈ evs, Event.isWrite e = false := by
  have h0 : Quiet me ({ ({ me with err := BAJO_OK } : bajo_t).read me.pc 1 with
      pc := (me.pc + 1) % 4294967296 } : bajo_t) :=
    (quiet_fields rfl rfl : Quiet me ({ me with err := BAJO_OK } : bajo_t)).trans
      ((quiet_read _ _ _).trans (quiet_fields rfl rfl))
  show Quiet me me'
  simp only [bajo_step] at h
  split at h
  · simp only [Option.some.injEq, Prod.mk.injEq] at h
    obtain ⟨-, rfl⟩ := h
    exact h0.trans (quiet_fields rfl rfl)
  split at h
  · simp only [Option.some.injEq, Prod.mk.injEq] at h
    obtain ⟨-, rfl⟩ := h
    exact h0.trans (quiet_fields rfl rfl)
  split at h
  · exact absurd h (by simp)
  · rename_i me1 hc1
    simp only [Option.some.injEq, Prod.mk.injEq] at h
    obtain ⟨-, rfl⟩ := h
    exact h0.trans (read_count_quiet _ _ _ _ _ _ hc1)
  rename_i me1 ntgts tsize hc1
  have h1 := h0.trans (read_count_quiet _ _ _ _ _ _ hc1)
  split at h
  · exact absurd h (by simp)
  rename_i me2 tgts ht
  have h2 := h1.trans (read_tgts_quiet _ _ _ _ _ _ _ ht)
  split at h
  · exact absurd h (by simp)
  · rename_i me3 hc2
    simp only [Option.some.injEq, Prod.mk.injEq] at h
    obtain ⟨-, rfl⟩ := h
    exact h2.trans (read_count_quiet _ _ _ _ _ _ hc2)
  rename_i me3 nsrcs ssize hc2
  have h3 := h2.trans (read_count_quiet _ _ _ _ _ _ hc2)
  split at h
  · simp only [Option.some.injEq, Prod.mk.injEq] at h
    obtain ⟨-, rfl⟩ := h
    exact h3
  split at h
  · exact absurd h (by simp)
  rename_i me4 srcs hs
  have h4 : Quiet me me4 := by
    refine (h3.trans ?_).trans (read_srcs_quiet _ _ _ _ _ _ _ _ hs)
    split
    · exact quiet_read _ _ _
    · exact Quiet.refl _
  split at h
  · simp only [Option.some.injEq, Prod.mk.injEq] at h
    obtain ⟨-, rfl⟩ := h
    exact h4
  split at h
  · exact absurd h (by simp)
  rename_i r hdisp
  split at h
  · simp only [Option.some.injEq, Prod.mk.injEq] at h
    obtain ⟨-, rfl⟩ := h
    exact h4.trans (dispatch_quiet _ _ _ _ _ _ _ hdisp)
  · rename_i hd
    simp only [Option.some.injEq, Prod.mk.injEq] at h
    obtain ⟨hr, -⟩ := h
    rw [write_tgts_err] at hr
    exact absurd (hr.symm.trans (not_not.1 hd)) hrc

/-- The witness of claim C1: the step on `EXIT 7` (bytes 65, 0x39 under the
sample numbering) returns EXIT; the memory is untouched and the two events of
the step are reads. -/
theorem step_error_implies_no_write_witness :
    bajo_step sample_cfg 1 (sample_vm [65, 0x39] 0 0) =
      some (BAJO_EXIT, { sample_vm [65, 0x39] 0 0 with
        pc := 2, err := BAJO_EXIT, exit_rc := 7,
        trace := [Event.read 0 1, Event.read 1 1] }) ∧
    BAJO_EXIT ≠ BAJO_OK ∧
    ({ sample_vm [65, 0x39] 0 0 with
        pc := 2, err := BAJO_EXIT, exit_rc := 7,
        trace := [Event.read 0 1, Event.read 1 1] } : bajo_t).mem = (sample_vm [65, 0x39] 0 0).mem ∧
    ∃ evs, ({ sample_vm [65, 0x39] 0 0 with
        pc := 2, err := BAJO_EXIT, exit_rc := 7,
        trace := [Event.read 0 1, Event.read 1 1] } : bajo_t).trace =
          (sample_vm [65, 0x39] 0 0).trace ++ evs ∧
      ∀ e ∈ evs, Event.isWrite e = false :=
  ⟨rfl, by decide,
    step_error_implies_no_write sample_cfg 1 (sample_vm [65, 0x39] 0 0) _ BAJO_EXIT rfl
      (by decide)⟩

/-! ### Bytes, words and the varint head -/

theorem load_congr (mem : Nat → Nat) : ∀ (len a a' : Nat),
    a % 4294967296 = a' % 4294967296 → load mem a len = load mem a' len := by
  intro len
  induction len with
  | zero => intro a a' _; rfl
  | succ l ih =>
    intro a a' h
    simp only [load]
    rw [h, ih (a + 1) (a' + 1) (by omega)]

theorem load_mod (mem : Nat → Nat) (a len : Nat) :
    load mem (a % 4294967296) len = load mem a len :=
  load_congr mem len _ _ (by omega)

theorem load_one (mem : Nat → Nat) (a : Nat) : load mem a 1 = mem (a % 4294967296) % 256 := by
  simp [load]

theorem load_one_lt (mem : Nat → Nat) (a : Nat) : load mem a 1 < 256 := by
  rw [load_one]; omega

theorem load_lt (mem : Nat → Nat) : ∀ (len a : Nat), load mem a len < 256 ^ len := by
  intro len
  induction len with
  | zero => intro a; simp [load]
  | succ l ih =>
    intro a
    simp only [load]
    have := ih (a + 1)
    rw [pow_succ]
    omega

theorem Holds.tail {mem : Nat → Nat} {a b : Nat} {tl : List Nat} (h : Holds mem a (b :: tl)) :
    Holds mem (a + 1) tl := by
  intro i hi
  have := h (i + 1) (by simpa using hi)
  simp only [List.getD_cons_succ] at this
  rw [← this]
  congr 1
  omega

theorem Holds.head {mem : Nat → Nat} {a b : Nat} {tl : List Nat} (h : Holds mem a (b :: tl)) :
    mem (a % 4294967296) = b := by
  simpa using h 0 (by simp)

theorem load_holds (mem : Nat → Nat) : ∀ (bs : List Nat) (a : Nat),
    Holds mem a bs → (∀ x ∈ bs, x < 256) → load mem a bs.length = le_value bs := by
  intro bs
  induction bs with
  | nil => intro a _ _; rfl
  | cons b tl ih =>
    intro a h hb
    simp only [List.length_cons, load, le_value]
    rw [h.head, ih (a + 1) h.tail (fun x hx => hb x (List.mem_cons_of_mem _ hx))]
    have := hb b (List.mem_cons_self _ _)
    omega

theorem le_value_lt : ∀ (bs : List Nat), (∀ x ∈ bs, x < 256) → le_value bs < 256 ^ bs.length := by
  intro bs
  induction bs with
  | nil => intro _; simp [le_value]
  | cons b tl ih =>
    intro hb
    simp only [le_value, List.length_cons]
    have h1 := ih (fun x hx => hb x (List.mem_cons_of_mem _ hx))
    have h2 := hb b (List.mem_cons_self _ _)
    rw [pow_succ]
    omega

set_option maxRecDepth 100000 in
theorem size_byte_cases : ∀ b, b < 256 →
    (decode_varint_size b ≤ 5 ↔ b % 32 ≠ 0) ∧ (b % 32 = 0 ↔ 5 < ctz b + 1) ∧
      (b % 32 ≠ 0 → decode_varint_size b = ctz b + 1) ∧ 1 ≤ decode_varint_size b ∧
      (b % 32 = 0 → decode_varint_size b = 6) := by
  decide

/-! ### One level of `read_src` and `read_dst` -/

theorem fetch_raw_eq (me : bajo_t) (n : Nat) (hn : 1 ≤ n) : fetch_raw me n = fetched me n := by
  simp only [fetch_raw]
  split
  · simp only [fetched, bajo_t.read, bajo_t.mk.injEq, List.append_assoc, List.singleton_append,
      true_and, and_true]
    constructor
    · omega
    · simp [*]
  · have : n = 1 := by omega
    subst this
    simp [fetched, bajo_t.read]

theorem tail_raw_eq (me : bajo_t) (n : Nat) : tail_raw me n = load me.mem (me.pc + 1) (n - 1) := by
  simp only [tail_raw]
  split
  · exact load_mod _ _ _
  · have : n - 1 = 0 := by omega
    rw [this]; rfl

theorem read_src_raw (fuel : Nat) (me : bajo_t) (size : Nat) :
    read_src (fuel + 1) me size =
      (let head0 := load me.mem me.pc 1
       let nbytes := decode_varint_size head0
       if nbytes > 5 then
         some ((0 : Int), { ({ me.read me.pc 1 with pc := (me.pc + 1) % 4294967296 } : bajo_t) with
           err := BAJO_BAD_VARINT })
       else
         let tail := tail_raw me nbytes
         let me1 := fetch_raw me nbytes
         let head := head0 >>> nbytes
         if head &&& 0b1 = 0 then
           let val := (tail <<< (8 - 2 - nbytes) ||| head >>> 2) % 4294967296
           let val := if head &&& 0b10 ≠ 0 then bnot32 val else val
           let val := if size < 4 then
               (if size = 1 then val &&& 0xFF else if size = 2 then val &&& 0xFFFF else val)
             else val
           some (toS32 val, me1)
         else
           let val := (tail <<< (8 - 3 - nbytes) ||| head >>> 3) % 4294967296
           let val := if head &&& 0b100 = 0 then val * 4 % 4294967296 else val
           if head &&& 0b010 ≠ 0 then
             let word := load me1.mem val 4
             match read_src fuel (me1.read val 4) 4 with
             | none => none
             | some (off, me2) =>
               let val := (word + toU32 off) % 4294967296
               some (toS32 (load me2.mem val size), me2.read val size)
           else
             some (toS32 (load me1.mem val size), me1.read val size)) := by
  rfl

theorem read_dst_raw (fuel : Nat) (me : bajo_t) :
    read_dst fuel me =
      (let head0 := load me.mem me.pc 1
       let nbytes := decode_varint_size head0
       if nbytes > 5 then
         some ((0 : Int), { ({ me.read me.pc 1 with pc := (me.pc + 1) % 4294967296 } : bajo_t) with
           err := BAJO_BAD_VARINT })
       else
         let tail := tail_raw me nbytes
         let me1 := fetch_raw me nbytes
         let head := head0 >>> nbytes
         let val := (tail <<< (8 - 2 - nbytes) ||| head >>> 2) % 4294967296
         let val := if head &&& 0b10 = 0 then val * 4 % 4294967296 else val
         if head &&& 0b01 ≠ 0 then
           let word := load me1.mem val 4
           match read_src fuel (me1.read val 4) 4 with
           | none => none
           | some (off, me2) => some (toS32 ((word + toU32 off) % 4294967296), me2)
         else
           some (toS32 val, me1)) := by
  rfl

theorem fetched_mem (me : bajo_t) (n : Nat) : (fetched me n).mem = me.mem := rfl

theorem fetched_err (me : bajo_t) (n : Nat) : (fetched me n).err = me.err := rfl

theorem fetched_pc (me : bajo_t) (n : Nat) : (fetched me n).pc = (me.pc + n) % 4294967296 := rfl

/-- One level of `read_src` on an operand whose head announces `n ≤ 5` bytes. -/
theorem read_src_unfold (fuel : Nat) (me : bajo_t) (size n : Nat)
    (hn : decode_varint_size (load me.mem me.pc 1) = n) (h5 : n ≤ 5) :
    read_src (fuel + 1) me size =
      (let tail := load me.mem (me.pc + 1) (n - 1)
       let head := load me.mem me.pc 1 >>> n
       if head &&& 0b1 = 0 then
         let val := (tail <<< (8 - 2 - n) ||| head >>> 2) % 4294967296
         let val := if head &&& 0b10 ≠ 0 then bnot32 val else val
         let val := if size < 4 then
             (if size = 1 then val &&& 0xFF else if size = 2 then val &&& 0xFFFF else val)
           else val
         some (toS32 val, fetched me n)
       else
         let val := (tail <<< (8 - 3 - n) ||| head >>> 3) % 4294967296
         let val := if head &&& 0b100 = 0 then val * 4 % 4294967296 else val
         if head &&& 0b010 ≠ 0 then
           match read_src fuel ((fetched me n).read val 4) 4 with
           | none => none
           | some (off, me2) =>
             some (toS32 (load me2.mem ((load me.mem val 4 + toU32 off) % 4294967296) size),
               me2.read ((load me.mem val 4 + toU32 off) % 4294967296) size)
         else
           some (toS32 (load me.mem val size), (fetched me n).read val size)) := by
  have h1 : 1 ≤ n := by
    have := (size_byte_cases _ (load_one_lt me.mem me.pc)).2.2.2.1
    omega
  rw [read_src_raw]
  simp only [hn, fetch_raw_eq me n h1, tail_raw_eq, fetched_mem]
  rw [if_neg (by omega)]

/-- One level of `read_dst` on an operand whose head announces `n ≤ 5` bytes. -/
theorem read_dst_unfold (fuel : Nat) (me : bajo_t) (n : Nat)
    (hn : decode_varint_size (load me.mem me.pc 1) = n) (h5 : n ≤ 5) :
    read_dst fuel me =
      (let tail := load me.mem (me.pc + 1) (n - 1)
       let head := load me.mem me.pc 1 >>> n
       let val := (tail <<< (8 - 2 - n) ||| head >>> 2) % 4294967296
       let val := if head &&& 0b10 = 0 then val * 4 % 4294967296 else val
       if head &&& 0b01 ≠ 0 then
         match read_src fuel ((fetched me n).read val 4) 4 with
         | none => none
         | some (off, me2) => some (toS32 ((load me.mem val 4 + toU32 off) % 4294967296), me2)
       else
         some (toS32 val, fetched me n)) := by
  have h1 : 1 ≤ n := by
    have := (size_byte_cases _ (load_one_lt me.mem me.pc)).2.2.2.1
    omega
  rw [read_dst_raw]
  simp only [hn, fetch_raw_eq me n h1, tail_raw_eq, fetched_mem]
  rw [if_neg (by omega)]

/-- The exit of `read_src` on a head that announces more than 5 bytes. -/
theorem read_src_bad (fuel : Nat) (me : bajo_t) (size : Nat)
    (h : load me.mem me.pc 1 % 32 = 0) :
    read_src (fuel + 1) me size =
      some (0, { me with err := BAJO_BAD_VARINT, pc := (me.pc + 1) % 4294967296,
                         trace := me.trace ++ [Event.read me.pc 1] }) := by
  have h6 := (size_byte_cases _ (load_one_lt me.mem me.pc)).2.2.2.2 h
  rw [read_src_raw]
  simp only [h6]
  rfl

/-- The exit of `read_dst` on a head that announces more than 5 bytes. -/
theorem read_dst_bad (fuel : Nat) (me : bajo_t)
    (h : load me.mem me.pc 1 % 32 = 0) :
    read_dst fuel me =
      some (0, { me with err := BAJO_BAD_VARINT, pc := (me.pc + 1) % 4294967296,
                         trace := me.trace ++ [Event.read me.pc 1] }) := by
  have h6 := (size_byte_cases _ (load_one_lt me.mem me.pc)).2.2.2.2 h
  rw [read_dst_raw]
  simp only [h6]
  rfl

/-! ### Rejection of over-long operands -/

theorem Quiet.length_le {a b : bajo_t} (h : Quiet a b) : a.trace.length ≤ b.trace.length := by
  obtain ⟨-, evs, ht, -⟩ := h
  rw [ht, List.length_append]
  omega

theorem fetched_length (me : bajo_t) (n : Nat) :
    me.trace.length + 1 ≤ (fetched me n).trace.length := by
  simp only [fetched, List.length_append, List.length_cons]
  omega

theorem read_src_good_ne (fuel : Nat) (me : bajo_t) (size : Nat)
    (he : me.err ≠ BAJO_BAD_VARINT) (hb : load me.mem me.pc 1 % 32 ≠ 0) :
    read_src (fuel + 1) me size ≠
      some (0, { me with err := BAJO_BAD_VARINT, pc := (me.pc + 1) % 4294967296,
                         trace := me.trace ++ [Event.read me.pc 1] }) := by
  have hc := size_byte_cases _ (load_one_lt me.mem me.pc)
  have h5 := hc.1.2 hb
  rw [read_src_unfold fuel me size _ rfl h5]
  simp only []
  intro h
  split at h
  · simp only [Option.some.injEq, Prod.mk.injEq] at h
    have := congrArg bajo_t.err h.2
    exact he this
  · split at h
    · split at h
      · exact absurd h (by simp)
      · rename_i off me2 heq
        simp only [Option.some.injEq, Prod.mk.injEq] at h
        have hq := (read_src_quiet _ _ _ _ _ heq).length_le
        have hl := congrArg (fun s => s.trace.length) h.2
        have hf := fetched_length me (decode_varint_size (load me.mem me.pc 1))
        simp only [bajo_t.read, List.length_append, List.length_singleton] at hl hq
        omega
    · simp only [Option.some.injEq, Prod.mk.injEq] at h
      have hl := congrArg (fun s => s.trace.length) h.2
      have hf := fetched_length me (decode_varint_size (load me.mem me.pc 1))
      simp only [bajo_t.read, List.length_append, List.length_singleton] at hl
      omega

theorem read_dst_good_ne (fuel : Nat) (me : bajo_t)
    (he : me.err ≠ BAJO_BAD_VARINT) (hb : load me.mem me.pc 1 % 32 ≠ 0) :
    read_dst fuel me ≠
      some (0, { me with err := BAJO_BAD_VARINT, pc := (me.pc + 1) % 4294967296,
                         trace := me.trace ++ [Event.read me.pc 1] }) := by
  have hc := size_byte_cases _ (load_one_lt me.mem me.pc)
  have h5 := hc.1.2 hb
  rw [read_dst_unfold fuel me _ rfl h5]
  simp only []
  intro h
  split at h
  · split at h
    · exact absurd h (by simp)
    · rename_i off me2 heq
      simp only [Option.some.injEq, Prod.mk.injEq] at h
      have hq := (read_src_quiet _ _ _ _ _ heq).length_le
      have hl := congrArg (fun s => s.trace.length) h.2
      have hf := fetched_length me (decode_varint_size (load me.mem me.pc 1))
      simp only [bajo_t.read, List.length_append, List.length_singleton] at hl hq
      omega
  · simp only [Option.some.injEq, Prod.mk.injEq] at h
    have := congrArg bajo_t.err h.2
    exact he this

/-- Claim C6. Let `b` be the first byte of the operand at the stream position.
The five low bits of `b` are all zero exactly when the implied length
`ctz b + 1` exceeds 5. In that case `read_src` and `read_dst` set
`err = BAD_VARINT`, return 0, advance the position by one byte and make no
read beyond that of `b`; started with `err` other than BAD_VARINT they end in
that outcome for no other `b`. For every other `b` whose operand is a literal
or a non-indirect address (`read_src`), or a non-indirect address (`read_dst`),
they leave `err` unchanged and advance the position by `ctz b + 1` bytes. -/
theorem bad_varint_iff_low_bits_zero (fuel : Nat) (me : bajo_t) (size : Nat) :
    (load me.mem me.pc 1 % 32 = 0 ↔ 5 < ctz (load me.mem me.pc 1) + 1) ∧
    (load me.mem me.pc 1 % 32 = 0 →
      read_src (fuel + 1) me size =
        some (0, { me with err := BAJO_BAD_VARINT, pc := (me.pc + 1) % 4294967296,
                           trace := me.trace ++ [Event.read me.pc 1] }) ∧
      read_dst fuel me =
        some (0, { me with err := BAJO_BAD_VARINT, pc := (me.pc + 1) % 4294967296,
                           trace := me.trace ++ [Event.read me.pc 1] })) ∧
    (me.err ≠ BAJO_BAD_VARINT →
      (read_src (fuel + 1) me size =
        some (0, { me with err := BAJO_BAD_VARINT, pc := (me.pc + 1) % 4294967296,
                           trace := me.trace ++ [Event.read me.pc 1] }) ↔
        load me.mem me.pc 1 % 32 = 0) ∧
      (read_dst fuel me =
        some (0, { me with err := BAJO_BAD_VARINT, pc := (me.pc + 1) % 4294967296,
                           trace := me.trace ++ [Event.read me.pc 1] }) ↔
        load me.mem me.pc 1 % 32 = 0)) ∧
    (load me.mem me.pc 1 % 32 ≠ 0 →
      (¬ (load me.mem me.pc 1 >>> (ctz (load me.mem me.pc 1) + 1) &&& 0b1 ≠ 0 ∧
          load me.mem me.pc 1 >>> (ctz (load me.mem me.pc 1) + 1) &&& 0b10 ≠ 0) →
        ∃ v me', read_src (fuel + 1) me size = some (v, me') ∧ me'.err = me.err ∧
          me'.pc = (me.pc + (ctz (load me.mem me.pc 1) + 1)) % 4294967296) ∧
      (load me.mem me.pc 1 >>> (ctz (load me.mem me.pc 1) + 1) &&& 0b1 = 0 →
        ∃ v me', read_dst fuel me = some (v, me') ∧ me'.err = me.err ∧
          me'.pc = (me.pc + (ctz (load me.mem me.pc 1) + 1)) % 4294967296)) := by
  have hc := size_byte_cases _ (load_one_lt me.mem me.pc)
  refine ⟨hc.2.1, fun h => ⟨read_src_bad fuel me size h, read_dst_bad fuel me h⟩, ?_, ?_⟩
  · intro he
    constructor
    · constructor
      · intro h
        by_contra hb
        exact read_src_good_ne fuel me size he hb h
      · exact read_src_bad fuel me size
    · constructor
      · intro h
        by_contra hb
        exact read_dst_good_ne fuel me he hb h
      · exact read_dst_bad fuel me
  · intro hb
    have h5 := hc.1.2 hb
    have hn := hc.2.2.1 hb
    rw [← hn]
    constructor
    · intro hm
      rw [read_src_unfold fuel me size _ rfl h5]
      simp only []
      split
      · exact ⟨_, _, rfl, rfl, rfl⟩
      · rename_i h1
        rw [if_neg (fun h2 => hm ⟨h1, h2⟩)]
        exact ⟨_, _, rfl, rfl, rfl⟩
    · intro hm
      rw [read_dst_unfold fuel me _ rfl h5]
      simp only []
      rw [if_neg (by simpa using hm)]
      exact ⟨_, _, rfl, rfl, rfl⟩

/-! ### Literal operands -/

set_option maxRecDepth 100000 in
theorem flag_byte_cases : ∀ x, x < 256 →
    (x &&& 1 = 0 ↔ x % 2 = 0) ∧ (x &&& 2 = 0 ↔ x / 2 % 2 = 0) ∧ (x &&& 4 = 0 ↔ x / 4 % 2 = 0) := by
  decide

theorem shift_lt_256 (b n : Nat) (hb : b < 256) : b >>> n < 256 :=
  Nat.lt_of_le_of_lt (by rw [Nat.shiftRight_eq_div_pow]; exact Nat.div_le_self b _) hb

theorem flag0 (b n : Nat) (hb : b < 256) : b >>> n &&& 1 = 0 ↔ b / 2 ^ n % 2 = 0 := by
  rw [(flag_byte_cases _ (shift_lt_256 b n hb)).1, Nat.shiftRight_eq_div_pow]

theorem flag1 (b n : Nat) (hb : b < 256) : b >>> n &&& 2 = 0 ↔ b / 2 ^ (n + 1) % 2 = 0 := by
  rw [(flag_byte_cases _ (shift_lt_256 b n hb)).2.1, Nat.shiftRight_eq_div_pow,
    Nat.div_div_eq_div_mul, ← pow_succ]

theorem flag2 (b n : Nat) (hb : b < 256) : b >>> n &&& 4 = 0 ↔ b / 2 ^ (n + 2) % 2 = 0 := by
  rw [(flag_byte_cases _ (shift_lt_256 b n hb)).2.2, Nat.shiftRight_eq_div_pow,
    Nat.div_div_eq_div_mul, show (4 : Nat) = 2 ^ 2 from rfl, ← pow_add]

/-- The expression `(tail << (8 - flags - nbytes)) | (head >> flags)` of the
decoders is the payload above `flags` flag bits. -/
theorem val_eq_payload (flags b : Nat) (tl : List Nat) (hb : b < 256)
    (hf : tl.length + 1 + flags ≤ 8) :
    (le_value tl <<< (8 - flags - (tl.length + 1)) ||| b >>> (tl.length + 1) >>> flags) % 4294967296
      = payload_above flags b tl := by
  have hx : b / 2 ^ (tl.length + 1 + flags) < 2 ^ (8 - (tl.length + 1) - flags) := by
    apply Nat.div_lt_of_lt_mul
    rw [← pow_add]
    have : tl.length + 1 + flags + (8 - (tl.length + 1) - flags) = 8 := by omega
    rw [this]
    exact hb
  have hj : 8 - flags - (tl.length + 1) = 8 - (tl.length + 1) - flags := by omega
  rw [payload_above, Nat.shiftLeft_eq, Nat.shiftRight_eq_div_pow, Nat.shiftRight_eq_div_pow,
    Nat.div_div_eq_div_mul, ← pow_add, hj, Nat.mul_comm (le_value tl),
    ← Nat.mul_add_lt_is_or hx, Nat.add_comm]

theorem mask_width (v w : Nat) (hv : v < 4294967296) (hw : w = 1 ∨ w = 2 ∨ w = 4) :
    (if w < 4 then (if w = 1 then v &&& 0xFF else if w = 2 then v &&& 0xFFFF else v) else v)
      = v % 2 ^ (8 * w) := by
  rcases hw with rfl | rfl | rfl
  · simpa using Nat.and_pow_two_sub_one_eq_mod v 8
  · simpa using Nat.and_pow_two_sub_one_eq_mod v 16
  · simp
    omega

theorem bnot32_lt (v : Nat) : bnot32 v < 4294967296 := by
  unfold bnot32; omega

theorem payload_lt (flags b : Nat) (tl : List Nat) : payload_above flags b tl < 4294967296 := by
  unfold payload_above; omega

/-- The facts about the head of a well-formed operand `b :: tl` in memory. -/
theorem head_facts (me : bajo_t) (b : Nat) (tl : List Nat) (hb : b < 256)
    (hlen : tl.length ≤ 4) (hn : ctz b = tl.length) (hmem : Holds me.mem me.pc (b :: tl))
    (htl : ∀ x ∈ tl, x < 256) :
    load me.mem me.pc 1 = b ∧ decode_varint_size (load me.mem me.pc 1) = tl.length + 1 ∧
      load me.mem (me.pc + 1) (tl.length + 1 - 1) = le_value tl := by
  have h1 : load me.mem me.pc 1 = b := by
    rw [load_one, hmem.head]; omega
  have hc := size_byte_cases b hb
  have h32 : b % 32 ≠ 0 := fun h => by have := hc.2.1.1 h; omega
  refine ⟨h1, ?_, ?_⟩
  · rw [h1, hc.2.2.1 h32, hn]
  · rw [Nat.add_sub_cancel]
    exact load_holds me.mem tl (me.pc + 1) hmem.tail htl

theorem read_src_lit (fuel : Nat) (me : bajo_t) (b : Nat) (tl : List Nat) (w : Nat)
    (hb : b < 256) (htl : ∀ x ∈ tl, x < 256) (hlen : tl.length ≤ 4) (hn : ctz b = tl.length)
    (hmem : Holds me.mem me.pc (b :: tl)) (hmode : b / 2 ^ (tl.length + 1) % 2 = 0)
    (hw : w = 1 ∨ w = 2 ∨ w = 4) :
    read_src (fuel + 1) me w =
      some (toS32 ((if b / 2 ^ (tl.length + 2) % 2 = 0 then payload_above 2 b tl
                    else bnot32 (payload_above 2 b tl)) % 2 ^ (8 * w)),
            fetched me (tl.length + 1)) := by
  obtain ⟨h1, h2, h3⟩ := head_facts me b tl hb hlen hn hmem htl
  rw [read_src_unfold fuel me w (tl.length + 1) h2 (by omega)]
  simp only [h1, h3]
  rw [if_pos ((flag0 b _ hb).2 hmode), val_eq_payload 2 b tl hb (by omega)]
  by_cases hneg : b / 2 ^ (tl.length + 2) % 2 = 0
  · rw [if_pos hneg, if_neg (not_not.2 ((flag1 b _ hb).2 hneg)),
      mask_width _ w (payload_lt _ _ _) hw]
  · rw [if_neg hneg, if_pos (fun h => hneg ((flag1 b _ hb).1 h)),
      mask_width _ w (bnot32_lt _) hw]

/-- Claim C7. A well-formed source operand of `n = tl.length + 1` bytes
(`1 ≤ n ≤ 5`, `n` being the length `ctz b + 1` implied by its first byte `b`)
whose mode bit (bit 0 above the `n` length-tag bits) is 0 decodes, at access
width `w ∈ {1, 2, 4}`, to `P` masked to the low `8 * w` bits when the negate
bit (bit 1) is clear and to the complement of `P` masked to the low `8 * w`
bits when it is set, `P` being the payload above the two flag bits. The only
reads are those of the operand's own `n` bytes (the state left is `fetched`). -/
theorem read_src_literal_value (fuel : Nat) (me : bajo_t) (b : Nat) (tl : List Nat) (w : Nat)
    (hb : b < 256) (htl : ∀ x ∈ tl, x < 256) (hlen : tl.length ≤ 4) (hn : ctz b = tl.length)
    (hmem : Holds me.mem me.pc (b :: tl)) (hmode : b / 2 ^ (tl.length + 1) % 2 = 0)
    (hw : w = 1 ∨ w = 2 ∨ w = 4) :
    read_src (fuel + 1) me w =
      some (toS32 ((if b / 2 ^ (tl.length + 2) % 2 = 0 then payload_above 2 b tl
                    else bnot32 (payload_above 2 b tl)) % 2 ^ (8 * w)),
            fetched me (tl.length + 1)) :=
  read_src_lit fuel me b tl w hb htl hlen hn hmem hmode hw

theorem holds_sample (bs : List Nat) (pc : Nat) (e : Int) (h : bs.length ≤ 4294967296) :
    Holds (sample_vm bs pc e).mem 0 bs := by
  intro i hi
  have : i % 4294967296 = i := Nat.mod_eq_of_lt (by omega)
  simp [sample_vm, this]

/-- The witness of claim C7: the byte 0x19 decodes to 3 and the byte 0x05 to -1
at width 4. -/
theorem read_src_literal_value_witness :
    read_src 1 (sample_vm [0x19] 0 0) 4 = some (3, fetched (sample_vm [0x19] 0 0) 1) ∧
    read_src 1 (sample_vm [0x05] 0 0) 4 = some (-1, fetched (sample_vm [0x05] 0 0) 1) :=
  ⟨read_src_literal_value 0 (sample_vm [0x19] 0 0) 0x19 [] 4 (by decide) (by simp) (by decide)
      (by decide) (holds_sample _ 0 0 (by decide)) (by decide) (by decide),
   read_src_literal_value 0 (sample_vm [0x05] 0 0) 0x05 [] 4 (by decide) (by simp) (by decide)
      (by decide) (holds_sample _ 0 0 (by decide)) (by decide) (by decide)⟩

/-! ### Address operands -/

theorem read_dst_addr (fuel : Nat) (me : bajo_t) (b : Nat) (tl : List Nat)
    (hb : b < 256) (htl : ∀ x ∈ tl, x < 256) (hlen : tl.length ≤ 4) (hn : ctz b = tl.length)
    (hmem : Holds me.mem me.pc (b :: tl)) :
    read_dst fuel me =
      if b / 2 ^ (tl.length + 1) % 2 = 0 then
        some (toS32 (dst_base b tl), fetched me (tl.length + 1))
      else
        match read_src fuel ((fetched me (tl.length + 1)).read (dst_base b tl) 4) 4 with
        | none => none
        | some (off, me2) =>
          some (toS32 ((load me.mem (dst_base b tl) 4 + toU32 off) % 4294967296), me2) := by
  obtain ⟨h1, h2, h3⟩ := head_facts me b tl hb hlen hn hmem htl
  rw [read_dst_unfold fuel me (tl.length + 1) h2 (by omega)]
  simp only [h1, h3]
  rw [val_eq_payload 2 b tl hb (by omega)]
  have hbase : (if b >>> (tl.length + 1) &&& 2 = 0 then payload_above 2 b tl * 4 % 4294967296
      else payload_above 2 b tl) = dst_base b tl := by
    unfold dst_base
    by_cases h : b / 2 ^ (tl.length + 2) % 2 = 0
    · rw [if_pos h, if_pos ((flag1 b _ hb).2 h)]
    · rw [if_neg h, if_neg (fun h2 => h ((flag1 b _ hb).1 h2))]
  rw [hbase]
  by_cases hm : b / 2 ^ (tl.length + 1) % 2 = 0
  · rw [if_pos hm, if_neg (not_not.2 ((flag0 b _ hb).2 hm))]
  · rw [if_neg hm, if_pos (fun h2 => hm ((flag0 b _ hb).1 h2))]

/-- Claim C9. For a well-formed destination operand of `n = tl.length + 1`
bytes (`1 ≤ n ≤ 5`, first byte `b`), `read_dst` returns an address: with the
indirection flag (bit 0 above the length tag) clear, the payload above the two
flag bits, multiplied by 4 (mod 2^32) when the byte-aligned flag (bit 1) is
clear and unmultiplied when it is set (this is `dst_base`), the only reads
being those of the operand's own bytes; with the indirection flag set, the
32-bit word read at that base plus the value of one further width-4 source
operand decoded from the stream (mod 2^32). -/
theorem read_dst_address (fuel : Nat) (me : bajo_t) (b : Nat) (tl : List Nat)
    (hb : b < 256) (htl : ∀ x ∈ tl, x < 256) (hlen : tl.length ≤ 4) (hn : ctz b = tl.length)
    (hmem : Holds me.mem me.pc (b :: tl)) :
    read_dst fuel me =
      if b / 2 ^ (tl.length + 1) % 2 = 0 then
        some (toS32 (dst_base b tl), fetched me (tl.length + 1))
      else
        match read_src fuel ((fetched me (tl.length + 1)).read (dst_base b tl) 4) 4 with
        | none => none
        | some (off, me2) =>
          some (toS32 ((load me.mem (dst_base b tl) 4 + toU32 off) % 4294967296), me2) :=
  read_dst_addr fuel me b tl hb htl hlen hn hmem

/-- The witness of claim C9: the bytes 0x02 0x04 decode to the address 0x100. -/
theorem read_dst_address_witness :
    read_dst 0 (sample_vm [0x02, 0x04] 0 0) = some (0x100, fetched (sample_vm [0x02, 0x04] 0 0) 2) :=
  read_dst_address 0 (sample_vm [0x02, 0x04] 0 0) 0x02 [0x04] (by decide) (by simp) (by decide)
    (by decide) (holds_sample _ 0 0 (by decide))

theorem read_src_ref (fuel : Nat) (me : bajo_t) (b : Nat) (tl : List Nat) (w : Nat)
    (hb : b < 256) (htl : ∀ x ∈ tl, x < 256) (hlen : tl.length ≤ 4) (hn : ctz b = tl.length)
    (hmem : Holds me.mem me.pc (b :: tl)) (hmode : b / 2 ^ (tl.length + 1) % 2 = 1) :
    read_src (fuel + 1) me w =
      if b / 2 ^ (tl.length + 2) % 2 = 0 then
        some (toS32 (load me.mem (src_base b tl) w),
          (fetched me (tl.length + 1)).read (src_base b tl) w)
      else
        match read_src fuel ((fetched me (tl.length + 1)).read (src_base b tl) 4) 4 with
        | none => none
        | some (off, me2) =>
          some (toS32 (load me.mem ((load me.mem (src_base b tl) 4 + toU32 off) % 4294967296) w),
            me2.read ((load me.mem (src_base b tl) 4 + toU32 off) % 4294967296) w) := by
  obtain ⟨h1, h2, h3⟩ := head_facts me b tl hb hlen hn hmem htl
  rw [read_src_unfold fuel me w (tl.length + 1) h2 (by omega)]
  simp only [h1, h3]
  rw [if_neg (fun h => by have := (flag0 b _ hb).1 h; omega),
    val_eq_payload 3 b tl hb (by omega)]
  have hbase : (if b >>> (tl.length + 1) &&& 4 = 0 then payload_above 3 b tl * 4 % 4294967296
      else payload_above 3 b tl) = src_base b tl := by
    unfold src_base
    by_cases h : b / 2 ^ (tl.length + 3) % 2 = 0
    · rw [if_pos h, if_pos ((flag2 b _ hb).2 h)]
    · rw [if_neg h, if_neg (fun h2 => h ((flag2 b _ hb).1 h2))]
  rw [hbase]
  by_cases hi : b / 2 ^ (tl.length + 2) % 2 = 0
  · rw [if_pos hi, if_neg (not_not.2 ((flag1 b _ hb).2 hi))]
  · rw [if_neg hi, if_pos (fun h2 => hi ((flag1 b _ hb).1 h2))]
    cases hr : read_src fuel ((fetched me (tl.length + 1)).read (src_base b tl) 4) 4 with
    | none => rfl
    | some p =>
      obtain ⟨off, me2⟩ := p
      have hq := (read_src_quiet _ _ _ _ _ hr).1
      simp only [bajo_t.read, fetched] at hq
      simp only [hq]

/-- Claim C8, as amended. For a well-formed source operand of `tl.length + 1`
bytes in memory-reference mode (mode bit 0 above the length tag set), bit 1 is
the indirection flag and bit 2 is the byte-aligned flag: the base is the
payload above the three flag bits, multiplied by 4 (mod 2^32) when bit 2 is
clear and unmultiplied when it is set (`src_base`). With bit 1 clear `read_src`
returns `read(base, w)` and consumes no further operand; with bit 1 set it
reads the 32-bit word at the base, decodes one further width-4 source operand
from the stream and returns `read(word + operand, w)`. -/
theorem read_src_memory_reference (fuel : Nat) (me : bajo_t) (b : Nat) (tl : List Nat) (w : Nat)
    (hb : b < 256) (htl : ∀ x ∈ tl, x < 256) (hlen : tl.length ≤ 4) (hn : ctz b = tl.length)
    (hmem : Holds me.mem me.pc (b :: tl)) (hmode : b / 2 ^ (tl.length + 1) % 2 = 1) :
    read_src (fuel + 1) me w =
      if b / 2 ^ (tl.length + 2) % 2 = 0 then
        some (toS32 (load me.mem (src_base b tl) w),
          (fetched me (tl.length + 1)).read (src_base b tl) w)
      else
        match read_src fuel ((fetched me (tl.length + 1)).read (src_base b tl) 4) 4 with
        | none => none
        | some (off, me2) =>
          some (toS32 (load me.mem ((load me.mem (src_base b tl) 4 + toU32 off) % 4294967296) w),
            me2.read ((load me.mem (src_base b tl) 4 + toU32 off) % 4294967296) w) :=
  read_src_ref fuel me b tl w hb htl hlen hn hmem hmode

/-- The witness of claim C8 as amended: the operand 0x17 (mode 1, bit 1 set,
bit 2 clear, payload 1) is indirect through the word at address 4; with the
literal 0 as further operand and the word 8 at address 4 it yields the byte at
address 8. -/
theorem read_src_memory_reference_witness :
    (read_src 2 (sample_vm [0x17, 0x01, 0, 0, 8, 0, 0, 0, 0x2A] 0 0) 1).map
      (fun r => (r.1, r.2.pc, r.2.trace)) =
      some (42, 2, [Event.read 0 1, Event.read 4 4, Event.read 1 1, Event.read 8 1]) := by
  rw [read_src_memory_reference 1 (sample_vm [0x17, 0x01, 0, 0, 8, 0, 0, 0, 0x2A] 0 0) 0x17 [] 1
    (by decide) (by simp) (by decide) (by decide) (by unfold Holds; decide) (by decide)]
  decide

/-- The counterexample to claim C8: on the operand 0x17 (mode 1, bit 1 set,
bit 2 clear, payload 1) the claim's reading gives a direct fetch of the byte at
address 1 (value 1, one operand byte consumed), whereas `read_src` multiplies
the payload by 4, goes through the word at address 4, consumes the further
operand 0x01 and returns the byte at address 8 (value 42). -/
theorem read_src_flag_bits_counterexample :
    ctz 0x17 = 0 ∧ 0x17 / 2 ^ 1 % 2 = 1 ∧
    (claimed_read_src_ref 1 (sample_vm [0x17, 0x01, 0, 0, 8, 0, 0, 0, 0x2A] 0 0) 0x17 [] 1).map
      (fun r => (r.1, r.2.pc)) = some (1, 1) ∧
    (read_src 2 (sample_vm [0x17, 0x01, 0, 0, 8, 0, 0, 0, 0x2A] 0 0) 1).map
      (fun r => (r.1, r.2.pc)) = some (42, 2) := by
  decide

/-! ### The literal form covers the 32-bit range -/

theorem toU32_toS32 (n : Nat) : toU32 (toS32 n) = n % 4294967296 := by
  unfold toU32 toS32
  split <;> omega

theorem encode_lit_payload (v : Nat) (hv : v < 4294967296) :
    payload_above 2 (0x10 + 128 * (v % 2))
      [v / 2 % 256, v / 2 / 256 % 256, v / 2 / 65536 % 256, v / 2 / 16777216 % 256] = v := by
  simp only [payload_above, le_value, List.length_cons, List.length_nil]
  norm_num
  omega

theorem encode_lit_ctz (v : Nat) : ctz (0x10 + 128 * (v % 2)) = 4 := by
  rcases Nat.mod_two_eq_zero_or_one v with h | h <;> rw [h] <;> decide

theorem read_src_encode_lit (v : Nat) (hv : v < 4294967296) (fuel : Nat) (me : bajo_t) (w : Nat)
    (hw : w = 1 ∨ w = 2 ∨ w = 4) (hmem : Holds me.mem me.pc (encode_lit v)) :
    read_src (fuel + 1) me w = some (toS32 (v % 2 ^ (8 * w)), fetched me 5) := by
  have h := read_src_lit fuel me (0x10 + 128 * (v % 2))
    [v / 2 % 256, v / 2 / 256 % 256, v / 2 / 65536 % 256, v / 2 / 16777216 % 256] w
    (by omega)
    (by
      intro x hx
      simp only [List.mem_cons, List.mem_singleton, List.not_mem_nil, or_false] at hx
      rcases hx with rfl | rfl | rfl | rfl <;> omega)
    (by simp) (encode_lit_ctz v) hmem
    (by simp only [List.length_cons, List.length_nil]; omega) hw
  rw [h, encode_lit_payload v hv, if_pos (by simp only [List.length_cons, List.length_nil]; omega)]
  rfl

/-- Claim C10. The literal form of the source encoding covers the whole 32-bit
range: for every `v < 2^32` there is a string of at most 5 bytes such that
`read_src`, run on any memory that holds the string at the stream position,
returns `v` (as a 32-bit pattern) at access width 4, `v mod 2^16` at width 2
and `v mod 2^8` at width 1, leaves `err` as it was and advances the position by
exactly the length of the string. -/
theorem literal_covers_u32 (v : Nat) (hv : v < 4294967296) :
    ∃ bs : List Nat, bs.length ≤ 5 ∧ (∀ x ∈ bs, x < 256) ∧
      ∀ (fuel : Nat) (me : bajo_t), Holds me.mem me.pc bs →
        (∃ r me', read_src (fuel + 1) me 4 = some (r, me') ∧ toU32 r = v ∧
          me'.err = me.err ∧ me'.pc = (me.pc + bs.length) % 4294967296) ∧
        (∃ r me', read_src (fuel + 1) me 2 = some (r, me') ∧ toU32 r = v % 65536 ∧
          me'.err = me.err ∧ me'.pc = (me.pc + bs.length) % 4294967296) ∧
        (∃ r me', read_src (fuel + 1) me 1 = some (r, me') ∧ toU32 r = v % 256 ∧
          me'.err = me.err ∧ me'.pc = (me.pc + bs.length) % 4294967296) := by
  refine ⟨encode_lit v, by simp [encode_lit], ?_, ?_⟩
  · intro x hx
    simp only [encode_lit, List.mem_cons, List.mem_singleton, List.not_mem_nil, or_false] at hx
    rcases hx with rfl | rfl | rfl | rfl | rfl <;> omega
  · intro fuel me hmem
    refine ⟨⟨_, _, read_src_encode_lit v hv fuel me 4 (by simp) hmem, ?_, rfl, rfl⟩,
      ⟨_, _, read_src_encode_lit v hv fuel me 2 (by simp) hmem, ?_, rfl, rfl⟩,
      ⟨_, _, read_src_encode_lit v hv fuel me 1 (by simp) hmem, ?_, rfl, rfl⟩⟩
    · rw [toU32_toS32]; norm_num; omega
    · rw [toU32_toS32]; norm_num; omega
    · rw [toU32_toS32]; norm_num; omega

/-- The witness of claim C10, at the value 7. -/
theorem literal_covers_u32_witness :
    ∃ bs : List Nat, bs.length ≤ 5 ∧ (∀ x ∈ bs, x < 256) ∧
      ∀ (fuel : Nat) (me : bajo_t), Holds me.mem me.pc bs →
        (∃ r me', read_src (fuel + 1) me 4 = some (r, me') ∧ toU32 r = 7 ∧
          me'.err = me.err ∧ me'.pc = (me.pc + bs.length) % 4294967296) ∧
        (∃ r me', read_src (fuel + 1) me 2 = some (r, me') ∧ toU32 r = 7 % 65536 ∧
          me'.err = me.err ∧ me'.pc = (me.pc + bs.length) % 4294967296) ∧
        (∃ r me', read_src (fuel + 1) me 1 = some (r, me') ∧ toU32 r = 7 % 256 ∧
          me'.err = me.err ∧ me'.pc = (me.pc + bs.length) % 4294967296) :=
  literal_covers_u32 7 (by decide)

/-! ### The RMW bit without operands -/

set_option maxRecDepth 100000 in
theorem opcode_byte_cases : ∀ k, k < 128 →
    (k + 128) &&& 0x80 ≠ 0 ∧ (k + 128) &&& 0xFFFFFF7F = k ∧ k &&& 0x80 = 0 ∧
      k &&& 0xFFFFFF7F = k := by
  decide

theorem read_count_fixed (fuel : Nat) (me : bajo_t) (spec maxn : Nat) (h : spec ≤ 8) :
    read_count fuel me spec maxn = some (me, some (spec, 4)) := by
  unfold read_count
  rw [if_neg (by simp only [OPD_VAR]; omega), if_neg (by simp only [OPD_1B]; omega),
    if_neg (by simp only [OPD_1H]; omega)]

theorem opspec_no_target (op : opcode_t) (h : opspec op >>> 4 = 0) :
    opspec op &&& 0x0F ≤ 8 ∧ opspec op ≠ SPEC_UNDEF := by
  cases op <;> first
    | exact absurd h (by decide)
    | decide

/-- Claim C2, what the code does instead. For every opcode without targets
(`NOP`, `EXIT`, the jumps and branches, `SYS0x`) fetched with the RMW bit set,
`bajo_step` takes the exit `return (me->err == BAJO_BAD_OPERAND)`: it returns 0
(OK) and leaves `err = OK`, where the claim has BAD_OPERAND for both. Only the
opcode byte is read and nothing is written. -/
theorem rmw_without_target_returns_ok (cfg : Config) (fuel : Nat) (me : bajo_t) (k : Nat)
    (op : opcode_t) (hk : k < 128) (hmax : k ≤ cfg.MAX_OPCODE) (hop : cfg.opcodes k = some op)
    (ht : opspec op >>> 4 = 0) (hb : load me.mem me.pc 1 = k + 128) :
    bajo_step cfg fuel me =
      some (BAJO_OK, { me with err := BAJO_OK, pc := (me.pc + 1) % 4294967296,
                               trace := me.trace ++ [Event.read me.pc 1] }) := by
  obtain ⟨hr, hm, -, -⟩ := opcode_byte_cases k hk
  obtain ⟨hs8, hne⟩ := opspec_no_target op ht
  have hspec : opspecs cfg k = opspec op := by simp [opspecs, hop]
  simp only [bajo_step, hb, hm, hspec, ht]
  rw [if_neg (by omega), if_neg hne, read_count_fixed _ _ 0 _ (by omega)]
  simp only [read_tgts]
  rw [read_count_fixed _ _ _ _ hs8]
  simp [hr, bajo_t.read]

/-- The witness of the theorem for claim C2: the byte 0xCE (`NOP` with the RMW
bit) under the sample numbering. -/
theorem rmw_without_target_returns_ok_witness :
    bajo_step sample_cfg 0 (sample_vm [0xCE] 0 0) =
      some (BAJO_OK, { sample_vm [0xCE] 0 0 with err := BAJO_OK, pc := 1,
                                                  trace := [Event.read 0 1] }) :=
  rmw_without_target_returns_ok sample_cfg 0 (sample_vm [0xCE] 0 0) 0x4E .NOP (by decide)
    (by decide) (by decide) (by decide) (by decide)

/-! ### Single steps -/

theorem Holds.congr {mem : Nat → Nat} {a a' : Nat} {bs : List Nat}
    (h : Holds mem a bs) (ha : a % 4294967296 = a' % 4294967296) : Holds mem a' bs := by
  intro i hi
  rw [← h i hi]
  congr 1
  omega

theorem Holds.first {mem : Nat → Nat} {a b : Nat} {tl : List Nat} (h : Holds mem a (b :: tl)) :
    Holds mem a [b] := by
  intro i hi
  have hi0 : i = 0 := by simpa using hi
  subst hi0
  simpa using h 0 (by simp)

theorem Holds.load_head {mem : Nat → Nat} {a b : Nat} {tl : List Nat} (h : Holds mem a (b :: tl))
    (hb : b < 256) : load mem a 1 = b := by
  rw [load_one, h.head]; omega

theorem read_src_lit4 (fuel : Nat) (me : bajo_t) (b : Nat) (tl : List Nat)
    (hb : b < 256) (htl : ∀ x ∈ tl, x < 256) (hlen : tl.length ≤ 4) (hn : ctz b = tl.length)
    (hmem : Holds me.mem me.pc (b :: tl)) (hmode : b / 2 ^ (tl.length + 1) % 2 = 0) :
    read_src (fuel + 1) me 4 = some (lit_value b tl, fetched me (tl.length + 1)) := by
  rw [read_src_lit fuel me b tl 4 hb htl hlen hn hmem hmode (by simp), lit_value]
  congr 2
  have h1 := payload_lt 2 b tl
  have h2 := bnot32_lt (payload_above 2 b tl)
  split <;> (norm_num; unfold toS32; simp)

/-- The count ladder on a variable specifier whose count operand is a bad varint. -/
theorem read_count_var_bad (fuel : Nat) (me : bajo_t) (maxn : Nat)
    (h : load me.mem me.pc 1 % 32 = 0) :
    read_count (fuel + 1) me OPD_VAR maxn =
      some ({ me with err := BAJO_BAD_VARINT, pc := (me.pc + 1) % 4294967296,
                      trace := me.trace ++ [Event.read me.pc 1] }, some (0, 4)) := by
  unfold read_count
  rw [if_pos rfl, read_src_bad fuel me 4 h]
  simp [toU32]

/-- The count ladder on a variable specifier whose count operand is a literal. -/
theorem read_count_var_lit (fuel : Nat) (me : bajo_t) (maxn : Nat) (b : Nat) (tl : List Nat)
    (hb : b < 256) (htl : ∀ x ∈ tl, x < 256) (hlen : tl.length ≤ 4) (hn : ctz b = tl.length)
    (hmem : Holds me.mem me.pc (b :: tl)) (hmode : b / 2 ^ (tl.length + 1) % 2 = 0)
    (hle : toU32 (lit_value b tl) ≤ maxn) :
    read_count (fuel + 1) me OPD_VAR maxn =
      some (fetched me (tl.length + 1), some (toU32 (lit_value b tl), 4)) := by
  unfold read_count
  rw [if_pos rfl, read_src_lit4 fuel me b tl hb htl hlen hn hmem hmode]
  simp only []
  rw [if_neg (by omega)]

/-- A step on an opcode without operands and without the RMW bit whose executor
case does nothing: `NOP`. -/
theorem step_nop (cfg : Config) (fuel : Nat) (me : bajo_t) (k : Nat) (hk : k < 128)
    (hmax : k ≤ cfg.MAX_OPCODE) (hop : cfg.opcodes k = some .NOP)
    (hb : load me.mem me.pc 1 = k) :
    bajo_step cfg fuel me =
      some (BAJO_OK, { me with err := BAJO_OK, pc := (me.pc + 1) % 4294967296,
                               trace := me.trace ++ [Event.read me.pc 1] }) := by
  obtain ⟨-, -, hr, hm⟩ := opcode_byte_cases k hk
  have hspec : opspecs cfg k = opspec .NOP := by simp [opspecs, hop]
  simp only [bajo_step, hb, hm, hspec]
  rw [if_neg (by omega), if_neg (by decide), read_count_fixed _ _ _ _ (by decide)]
  simp only [read_tgts]
  rw [read_count_fixed _ _ _ _ (by decide)]
  simp [hr, bajo_t.read, read_srcs, dispatch, hop, write_tgts, opspec, SPEC]

/-- A step on `EXIT` with a literal source operand. -/
theorem step_exit (cfg : Config) (fuel : Nat) (me : bajo_t) (k b : Nat) (tl : List Nat)
    (hk : k < 128) (hmax : k ≤ cfg.MAX_OPCODE) (hop : cfg.opcodes k = some .EXIT)
    (hb : b < 256) (htl : ∀ x ∈ tl, x < 256) (hlen : tl.length ≤ 4) (hn : ctz b = tl.length)
    (hmode : b / 2 ^ (tl.length + 1) % 2 = 0)
    (hmem : Holds me.mem me.pc (k :: b :: tl)) :
    bajo_step cfg (fuel + 1) me =
      some (BAJO_EXIT,
        { fetched ({ me with err := BAJO_OK, pc := (me.pc + 1) % 4294967296,
                             trace := me.trace ++ [Event.read me.pc 1] } : bajo_t)
            (tl.length + 1) with err := BAJO_EXIT, exit_rc := lit_value b tl }) := by
  obtain ⟨-, -, hr, hm⟩ := opcode_byte_cases k hk
  have hspec : opspecs cfg k = opspec .EXIT := by simp [opspecs, hop]
  have hload : load me.mem me.pc 1 = k := hmem.load_head (by omega)
  have hsrc := read_src_lit4 fuel
    ({ me with err := BAJO_OK, pc := (me.pc + 1) % 4294967296,
               trace := me.trace ++ [Event.read me.pc 1] } : bajo_t) b tl hb htl hlen hn
    (hmem.tail.congr (by simp)) hmode
  simp only [bajo_step, hload, hm, hspec, bajo_t.read]
  rw [if_neg (by omega), if_neg (by decide), read_count_fixed _ _ _ _ (by decide)]
  simp only [read_tgts]
  rw [read_count_fixed _ _ _ _ (by decide)]
  have h1 : opspec opcode_t.EXIT &&& 15 = 1 := by decide
  simp only [h1, hr, read_srcs]
  simp only [ne_eq, not_true_eq_false, decide_False, Bool.false_eq_true, false_and, ↓reduceIte,
    Nat.sub_zero]
  rw [hsrc]
  simp [dispatch, hop, aset, fetched]

/-! ### The code returned by a step -/

/-- Claim C3, what the code does instead. On the bytes `SYS | 0x80`, `0x00`,
`0x01` (a variadic `SYS` with the RMW bit whose target count is a bad varint
and whose source count is the literal 0) `bajo_step` takes the exit
`return (me->err == BAJO_BAD_OPERAND)`: it returns 0 (OK) while the `err` field
holds BAD_VARINT. -/
theorem rmw_sys_bad_count_returns_ok (cfg : Config) (fuel : Nat) (me : bajo_t) (k : Nat)
    (hk : k < 128) (hmax : k ≤ cfg.MAX_OPCODE) (hop : cfg.opcodes k = some .SYS)
    (hmem : Holds me.mem me.pc [k + 128, 0x00, 0x01]) :
    ∃ me', bajo_step cfg (fuel + 1) me = some (BAJO_OK, me') ∧ me'.err = BAJO_BAD_VARINT := by
  obtain ⟨hr, hm, -, -⟩ := opcode_byte_cases k hk
  have hspec : opspecs cfg k = opspec .SYS := by simp [opspecs, hop]
  have hload : load me.mem me.pc 1 = k + 128 := hmem.load_head (by omega)
  have ht : opspec opcode_t.SYS >>> 4 = OPD_VAR := by decide
  have hs : opspec opcode_t.SYS &&& 15 = OPD_VAR := by decide
  have hc1 := read_count_var_bad fuel
    ({ me with err := BAJO_OK, pc := (me.pc + 1) % 4294967296,
               trace := me.trace ++ [Event.read me.pc 1] } : bajo_t) MAX_TGTS
    (by
      have : load me.mem ((me.pc + 1) % 4294967296) 1 = 0 :=
        (hmem.tail.congr (by simp)).load_head (by omega)
      show load me.mem ((me.pc + 1) % 4294967296) 1 % 32 = 0
      rw [this])
  have hc2 := read_count_var_lit fuel
    ({ me with err := BAJO_BAD_VARINT, pc := ((me.pc + 1) % 4294967296 + 1) % 4294967296,
               trace := me.trace ++ [Event.read me.pc 1] ++
                 [Event.read ((me.pc + 1) % 4294967296) 1] } : bajo_t) MAX_SRCS 0x01 []
    (by decide) (by simp) (by decide) (by decide)
    (hmem.tail.tail.congr (by simp)) (by decide) (by decide)
  simp only [bajo_step, hload, hm, hspec, bajo_t.read, ht, hs] at hc1 hc2 ⊢
  rw [if_neg (by omega), if_neg (by decide), hc1]
  simp only [read_tgts]
  rw [hc2]
  simp [hr, fetched]

/-- The witness of the theorem for claim C3, under the sample numbering
(`SYS` is 47, so the opcode byte is 175). -/
theorem rmw_sys_bad_count_returns_ok_witness :
    ∃ me', bajo_step sample_cfg 1 (sample_vm [175, 0x00, 0x01] 0 0) = some (BAJO_OK, me') ∧
      me'.err = BAJO_BAD_VARINT :=
  rmw_sys_bad_count_returns_ok sample_cfg 0 (sample_vm [175, 0x00, 0x01] 0 0) 47 (by decide)
    (by decide) (by decide) (holds_sample _ 0 0 (by decide))

/-! ### Running to `EXIT` -/

theorem holds_replicate_succ {mem : Nat → Nat} {a k n : Nat} {rest : List Nat}
    (h : Holds mem a (List.replicate (n + 1) k ++ rest)) :
    load mem a 1 = k % 256 ∧ mem (a % 4294967296) = k ∧
      Holds mem ((a + 1) % 4294967296) (List.replicate n k ++ rest) := by
  have h' : Holds mem a (k :: (List.replicate n k ++ rest)) := by
    simpa [List.replicate_succ] using h
  exact ⟨by rw [load_one, h'.head], h'.head, h'.tail.congr (by simp)⟩

theorem quiet_opcode (me : bajo_t) :
    Quiet me ({ me with err := BAJO_OK, pc := (me.pc + 1) % 4294967296,
                        trace := me.trace ++ [Event.read me.pc 1] } : bajo_t) :=
  ⟨rfl, [Event.read me.pc 1], rfl, by simp [Event.isWrite]⟩

theorem quiet_fetched (me : bajo_t) (n : Nat) : Quiet me (fetched me n) := by
  refine ⟨rfl, _, rfl, ?_⟩
  intro e he
  simp only [List.mem_cons] at he
  rcases he with rfl | he
  · rfl
  · split at he
    · simp only [List.mem_singleton] at he
      subst he
      rfl
    · simp at he

theorem run_nops_exit (cfg : Config) (fuel knop kexit b : Nat) (tl : List Nat)
    (hknop : knop < 128) (hnopmax : knop ≤ cfg.MAX_OPCODE) (hnop : cfg.opcodes knop = some .NOP)
    (hkexit : kexit < 128) (hexitmax : kexit ≤ cfg.MAX_OPCODE)
    (hexit : cfg.opcodes kexit = some .EXIT)
    (hb : b < 256) (htl : ∀ x ∈ tl, x < 256) (hlen : tl.length ≤ 4) (hn : ctz b = tl.length)
    (hmode : b / 2 ^ (tl.length + 1) % 2 = 0) :
    ∀ (n : Nat) (me : bajo_t),
      Holds me.mem me.pc (List.replicate n knop ++ kexit :: b :: tl) →
      bajo_run cfg (fuel + 1) n me = none ∧
      ∀ extra, ∃ me', bajo_run cfg (fuel + 1) (n + 1 + extra) me = some (BAJO_EXIT, me') ∧
        me'.err = BAJO_EXIT ∧ me'.exit_rc = lit_value b tl ∧
        me'.pc = (me.pc + n + 1 + (tl.length + 1)) % 4294967296 ∧ Quiet me me' := by
  intro n
  induction n with
  | zero =>
    intro me hmem
    refine ⟨rfl, fun extra => ?_⟩
    have hmem' : Holds me.mem me.pc (kexit :: b :: tl) := by simpa using hmem
    have hs := step_exit cfg fuel me kexit b tl hkexit hexitmax hexit hb htl hlen hn hmode hmem'
    have key : bajo_run cfg (fuel + 1) (0 + 1 + extra) me = some (BAJO_EXIT,
        { fetched ({ me with err := BAJO_OK, pc := (me.pc + 1) % 4294967296,
                             trace := me.trace ++ [Event.read me.pc 1] } : bajo_t)
            (tl.length + 1) with err := BAJO_EXIT, exit_rc := lit_value b tl }) := by
      rw [show 0 + 1 + extra = extra + 1 by omega]
      simp only [bajo_run, hs]
      rfl
    refine ⟨_, key, rfl, rfl, ?_, ?_⟩
    · simp only [fetched]
      omega
    · exact ((quiet_opcode me).trans (quiet_fetched _ _)).trans (quiet_fields rfl rfl)
  | succ n ih =>
    intro me hmem
    obtain ⟨hl, -, hrest⟩ := holds_replicate_succ hmem
    rw [Nat.mod_eq_of_lt (by omega)] at hl
    have hs := step_nop cfg (fuel + 1) me knop hknop hnopmax hnop hl
    obtain ⟨ih1, ih2⟩ := ih
      ({ me with err := BAJO_OK, pc := (me.pc + 1) % 4294967296,
                 trace := me.trace ++ [Event.read me.pc 1] } : bajo_t) hrest
    constructor
    · simp only [bajo_run, hs]
      exact ih1
    · intro extra
      obtain ⟨me', hrun, he, hrc, hpc, hq⟩ := ih2 extra
      refine ⟨me', ?_, he, hrc, ?_, ?_⟩
      · rw [show n + 1 + 1 + extra = (n + 1 + extra) + 1 by omega]
        simp only [bajo_run, hs]
        exact hrun
      · rw [hpc]
        show ((me.pc + 1) % 4294967296 + n + 1 + (tl.length + 1)) % 4294967296 = _
        omega
      · exact (quiet_opcode me).trans hq

/-- Claim C4. When the memory from `pc` on holds `n` `NOP` opcode bytes, then
the `EXIT` opcode byte, then a well-formed literal source operand `b :: tl`,
`bajo_run` after `bajo_init` terminates after exactly `n + 1` steps (a budget
of `n` steps is not enough, and any budget of at least `n + 1` steps gives the
same result): it returns EXIT (1) and leaves `err = EXIT` and `exit_rc` the
value of the literal, the position just after the operand, the memory as it
was and no write in the trace. -/
theorem run_nops_then_exit (cfg : Config) (fuel knop kexit b : Nat) (tl : List Nat)
    (n pc : Nat) (me : bajo_t)
    (hknop : knop < 128) (hnopmax : knop ≤ cfg.MAX_OPCODE) (hnop : cfg.opcodes knop = some .NOP)
    (hkexit : kexit < 128) (hexitmax : kexit ≤ cfg.MAX_OPCODE)
    (hexit : cfg.opcodes kexit = some .EXIT)
    (hb : b < 256) (htl : ∀ x ∈ tl, x < 256) (hlen : tl.length ≤ 4) (hn : ctz b = tl.length)
    (hmode : b / 2 ^ (tl.length + 1) % 2 = 0)
    (hmem : Holds me.mem pc (List.replicate n knop ++ kexit :: b :: tl)) :
    bajo_run cfg (fuel + 1) n (bajo_init me pc) = none ∧
    ∀ extra, ∃ me', bajo_run cfg (fuel + 1) (n + 1 + extra) (bajo_init me pc) =
        some (BAJO_EXIT, me') ∧
      me'.err = BAJO_EXIT ∧ me'.exit_rc = lit_value b tl ∧
      me'.pc = (pc + n + 1 + (tl.length + 1)) % 4294967296 ∧
      me'.mem = me.mem ∧
      ∃ evs, me'.trace = me.trace ++ evs ∧ ∀ e ∈ evs, Event.isWrite e = false :=
  run_nops_exit cfg fuel knop kexit b tl hknop hnopmax hnop hkexit hexitmax hexit hb htl hlen hn
    hmode n (bajo_init me pc) hmem

/-- The witness of claim C4: `NOP`, `EXIT 7` (bytes 0x4E, 65, 0x39 under the
sample numbering) runs in two steps and leaves `exit_rc = 7`. -/
theorem run_nops_then_exit_witness :
    bajo_run sample_cfg 1 1 (bajo_init (sample_vm [0x4E, 65, 0x39] 0 0) 0) = none ∧
    ∀ extra, ∃ me', bajo_run sample_cfg 1 (1 + 1 + extra)
        (bajo_init (sample_vm [0x4E, 65, 0x39] 0 0) 0) = some (BAJO_EXIT, me') ∧
      me'.err = BAJO_EXIT ∧ me'.exit_rc = 7 ∧
      me'.pc = (0 + 1 + 1 + (0 + 1)) % 4294967296 ∧
      me'.mem = (sample_vm [0x4E, 65, 0x39] 0 0).mem ∧
      ∃ evs, me'.trace = (sample_vm [0x4E, 65, 0x39] 0 0).trace ++ evs ∧
        ∀ e ∈ evs, Event.isWrite e = false :=
  run_nops_then_exit sample_cfg 0 0x4E 65 0x39 [] 1 0 (sample_vm [0x4E, 65, 0x39] 0 0)
    (by decide) (by decide) (by decide) (by decide) (by decide) (by decide) (by decide)
    (by simp) (by decide) (by decide) (by decide) (holds_sample _ 0 0 (by decide))

/-! ### A step clears `err` -/

/-- The counterexample to claim C5: a VM whose `err` field is EXIT, stepped on a
`NOP` (byte 0x4E) without `bajo_init` in between, returns OK and is left with
`err = OK`. -/
theorem step_from_exited_counterexample :
    (sample_vm [0x4E] 0 BAJO_EXIT).err ≠ BAJO_OK ∧
    (bajo_step sample_cfg 0 (sample_vm [0x4E] 0 BAJO_EXIT)).map (fun r => (r.1, r.2.err)) =
      some (BAJO_OK, BAJO_OK) := by
  decide

/-- The loop of `bajo_run` over a run of steps: when the steps from `st 0`
return OK `n` times, passing through the states `st 1`, ..., `st n`, and the
step from `st n` returns a code other than OK, a budget of at most `n` steps
is used up before the run stops, and every larger budget gives that code and the
state left by that step. -/
theorem run_stops_at_first_error (cfg : Config) (fuel : Nat) :
    ∀ (n : Nat) (st : Nat → bajo_t) (rc : Int) (me' : bajo_t),
      (∀ i, i < n → bajo_step cfg fuel (st i) = some (BAJO_OK, st (i + 1))) →
      bajo_step cfg fuel (st n) = some (rc, me') → rc ≠ BAJO_OK →
      (∀ budget, budget ≤ n → bajo_run cfg fuel budget (st 0) = none) ∧
      (∀ extra, bajo_run cfg fuel (n + 1 + extra) (st 0) = some (rc, me')) := by
  intro n
  induction n with
  | zero =>
    intro st rc me' _ hs hrc
    constructor
    · intro budget hb
      obtain rfl : budget = 0 := by omega
      rfl
    · intro extra
      rw [show 0 + 1 + extra = extra + 1 by omega]
      simp only [bajo_run, hs]
      rw [if_neg hrc]
  | succ n ih =>
    intro st rc me' hok hs hrc
    have h0 := hok 0 (by omega)
    obtain ⟨ih1, ih2⟩ := ih (fun i => st (i + 1)) rc me'
      (fun i hi => hok (i + 1) (by omega)) hs hrc
    constructor
    · intro budget hb
      cases budget with
      | zero => rfl
      | succ b =>
        simp only [bajo_run, h0, if_true]
        exact ih1 b (by omega)
    · intro extra
      rw [show n + 1 + 1 + extra = (n + 1 + extra) + 1 by omega]
      simp only [bajo_run, h0, if_true]
      exact ih2 extra

/-- Claim C5, as amended. `bajo_step` does not look at the incoming `err`: it
clears the field on entry, so a step from a state whose `err` is not OK returns
the same code and leaves the same state as the step from that state with
`err = OK`. The states with `err` other than OK are terminal for `bajo_run`
only: it goes on while the steps return OK and stops at the first step that
returns a code other than OK, returning that code and the state that step
left. In the statement `st 0 = me`, ..., `st n` are the states the steps go
through, the first `n` steps return OK and the step from `st n` returns
`rc`, which is not OK: a budget of `n` steps or fewer is used up by the steps
that return OK, and every larger budget returns `rc` with the state left by
the step from `st n`. -/
theorem step_ignores_incoming_err (cfg : Config) (fuel : Nat) (me : bajo_t) :
    bajo_step cfg fuel me = bajo_step cfg fuel { me with err := BAJO_OK } ∧
    ∀ (n : Nat) (st : Nat → bajo_t) (rc : Int) (me' : bajo_t), st 0 = me →
      (∀ i, i < n → bajo_step cfg fuel (st i) = some (BAJO_OK, st (i + 1))) →
      bajo_step cfg fuel (st n) = some (rc, me') → rc ≠ BAJO_OK →
      (∀ budget, budget ≤ n → bajo_run cfg fuel budget me = none) ∧
      (∀ extra, bajo_run cfg fuel (n + 1 + extra) me = some (rc, me')) := by
  refine ⟨rfl, ?_⟩
  intro n st rc me' h0 hok hs hrc
  subst h0
  exact run_stops_at_first_error cfg fuel n st rc me' hok hs hrc

/-- The witness of claim C5: a VM left with `err = EXIT`, run again on `NOP`,
`EXIT 7` (bytes 0x4E, 65, 0x39 under the sample numbering) without
`bajo_init`: the step on `NOP` returns OK, the run goes on, and it stops at the
step on `EXIT`, so that a budget of one step is used up and every budget of two
steps or more returns EXIT with `exit_rc = 7`. -/
theorem step_ignores_incoming_err_witness :
    bajo_run sample_cfg 1 1 (sample_vm [0x4E, 65, 0x39] 0 BAJO_EXIT) = none ∧
    ∀ extra, bajo_run sample_cfg 1 (1 + 1 + extra) (sample_vm [0x4E, 65, 0x39] 0 BAJO_EXIT) =
      some (BAJO_EXIT, { sample_vm [0x4E, 65, 0x39] 0 BAJO_EXIT with
        pc := 3, err := BAJO_EXIT, exit_rc := 7,
        trace := [Event.read 0 1, Event.read 1 1, Event.read 2 1] }) :=
  ⟨((step_ignores_incoming_err sample_cfg 1 (sample_vm [0x4E, 65, 0x39] 0 BAJO_EXIT)).2 1
      (fun i => if i = 0 then sample_vm [0x4E, 65, 0x39] 0 BAJO_EXIT
        else { sample_vm [0x4E, 65, 0x39] 0 BAJO_EXIT with
          pc := 1, err := BAJO_OK, trace := [Event.read 0 1] })
      BAJO_EXIT _ rfl (fun i hi => by obtain rfl : i = 0 := by omega
                                      rfl)
      rfl (by decide)).1 1 (by decide),
   ((step_ignores_incoming_err sample_cfg 1 (sample_vm [0x4E, 65, 0x39] 0 BAJO_EXIT)).2 1
      (fun i => if i = 0 then sample_vm [0x4E, 65, 0x39] 0 BAJO_EXIT
        else { sample_vm [0x4E, 65, 0x39] 0 BAJO_EXIT with
          pc := 1, err := BAJO_OK, trace := [Event.read 0 1] })
      BAJO_EXIT _ rfl (fun i hi => by obtain rfl : i = 0 := by omega
                                      rfl)
      rfl (by decide)).2⟩

/-! ### Away from the RMW exit the returned code is `err` -/

theorem read_count_none_err (fuel : Nat) (me : bajo_t) (spec maxn : Nat) (me' : bajo_t)
    (h : read_count fuel me spec maxn = some (me', none)) : me'.err = BAJO_BAD_OPERAND := by
  simp only [read_count] at h
  split at h
  · split at h
    · exact absurd h (by simp)
    · split at h
      · simp only [Option.some.injEq, Prod.mk.injEq, and_true] at h
        rw [← h]
      · simp at h
  · split at h
    · simp at h
    · split at h <;> simp at h

/-- Every exit of `bajo_step` other than the one of the RMW operand check
returns the value of the `err` field: when the opcode byte has the RMW bit
clear, the returned code is `err`. -/
theorem step_returns_err_without_rmw (cfg : Config) (fuel : Nat) (me me' : bajo_t) (rc : Int)
    (h : bajo_step cfg fuel me = some (rc, me')) (hr : load me.mem me.pc 1 &&& 0x80 = 0) :
    rc = me'.err := by
  simp only [bajo_step, hr] at h
  split at h
  · simp only [Option.some.injEq, Prod.mk.injEq] at h
    obtain ⟨rfl, rfl⟩ := h
    rfl
  split at h
  · simp only [Option.some.injEq, Prod.mk.injEq] at h
    obtain ⟨rfl, rfl⟩ := h
    rfl
  split at h
  · exact absurd h (by simp)
  · rename_i me1 hc1
    simp only [Option.some.injEq, Prod.mk.injEq] at h
    obtain ⟨rfl, rfl⟩ := h
    exact (read_count_none_err _ _ _ _ _ hc1).symm
  split at h
  · exact absurd h (by simp)
  split at h
  · exact absurd h (by simp)
  · rename_i me3 hc2
    simp only [Option.some.injEq, Prod.mk.injEq] at h
    obtain ⟨rfl, rfl⟩ := h
    exact (read_count_none_err _ _ _ _ _ hc2).symm
  split at h
  · rename_i hrmw
    simp at hrmw
  split at h
  · exact absurd h (by simp)
  split at h
  · simp only [Option.some.injEq, Prod.mk.injEq] at h
    obtain ⟨rfl, rfl⟩ := h
    rfl
  split at h
  · exact absurd h (by simp)
  split at h
  · simp only [Option.some.injEq, Prod.mk.injEq] at h
    obtain ⟨rfl, rfl⟩ := h
    rfl
  · simp only [Option.some.injEq, Prod.mk.injEq] at h
    obtain ⟨rfl, rfl⟩ := h
    rfl

/-! ### Literal and direct operands in the instruction stream -/

theorem Holds.append_left {mem : Nat → Nat} {a : Nat} {xs ys : List Nat}
    (h : Holds mem a (xs ++ ys)) : Holds mem a xs := by
  intro i hi
  have := h i (by rw [List.length_append]; omega)
  rw [this, List.getD_append _ _ _ _ hi]

theorem Holds.append_right {mem : Nat → Nat} {a : Nat} {xs ys : List Nat}
    (h : Holds mem a (xs ++ ys)) : Holds mem (a + xs.length) ys := by
  intro i hi
  have := h (xs.length + i) (by rw [List.length_append]; omega)
  rw [List.getD_append_right _ _ _ _ (by omega), Nat.add_sub_cancel_left] at this
  rw [← this]
  congr 1
  omega

theorem read_src_islit (fuel : Nat) (me : bajo_t) (b : Nat) (tl : List Nat) (h : IsLit b tl)
    (hmem : Holds me.mem me.pc (b :: tl)) :
    read_src (fuel + 1) me 4 = some (lit_value b tl, fetched me (tl.length + 1)) :=
  read_src_lit4 fuel me b tl h.1 h.2.1 h.2.2.1 h.2.2.2.1 hmem h.2.2.2.2

theorem dst_base_lt (b : Nat) (tl : List Nat) : dst_base b tl < 4294967296 := by
  unfold dst_base
  have := payload_lt 2 b tl
  split <;> omega

theorem read_dst_direct (fuel : Nat) (me : bajo_t) (b : Nat) (tl : List Nat) (h : IsDirect b tl)
    (hmem : Holds me.mem me.pc (b :: tl)) :
    read_dst fuel me = some (toS32 (dst_base b tl), fetched me (tl.length + 1)) := by
  rw [read_dst_addr fuel me b tl h.1 h.2.1 h.2.2.1 h.2.2.2.1 hmem, if_pos h.2.2.2.2]

/-! ### A step as decoding followed by execution -/

theorem bajo_step_eq (cfg : Config) (fuel : Nat) (me : bajo_t) :
    bajo_step cfg fuel me =
      match bajo_decode cfg fuel me with
      | none => none
      | some (.error r) => some r
      | some (.ok d) => bajo_finish cfg d := by
  simp only [bajo_step, bajo_decode, bajo_finish]
  split
  · rfl
  split
  · rfl
  split
  · rfl
  · rfl
  split
  · rfl
  split
  · rfl
  · rfl
  split
  · rfl
  split
  · rfl
  split
  · simp [*]
  split
  · simp [*]
  · simp [*]

/-! ### Operand counts -/

theorem opspec_fields (op : opcode_t) :
    (opspec op >>> 4 ≤ 8 ∨ opspec op >>> 4 = OPD_VAR ∨ opspec op >>> 4 = OPD_1B ∨
      opspec op >>> 4 = OPD_1H) ∧
    (opspec op &&& 0x0F ≤ 8 ∨ opspec op &&& 0x0F = OPD_VAR ∨ opspec op &&& 0x0F = OPD_1B ∨
      opspec op &&& 0x0F = OPD_1H) ∧ opspec op ≠ SPEC_UNDEF := by
  cases op <;> decide

theorem opspecs_defined (cfg : Config) (k : Nat) (h : opspecs cfg k ≠ SPEC_UNDEF) :
    ∃ op, cfg.opcodes k = some op ∧ opspecs cfg k = opspec op := by
  unfold opspecs at h ⊢
  cases hop : cfg.opcodes k with
  | none => rw [hop] at h; exact absurd rfl h
  | some op => exact ⟨op, rfl, rfl⟩

theorem read_count_le (fuel : Nat) (me : bajo_t) (spec maxn : Nat) (me' : bajo_t) (n size : Nat)
    (hs : spec ≤ maxn ∨ spec = OPD_VAR ∨ spec = OPD_1B ∨ spec = OPD_1H) (hm : 1 ≤ maxn)
    (h : read_count fuel me spec maxn = some (me', some (n, size))) : n ≤ maxn := by
  simp only [read_count] at h
  split at h
  · split at h
    · exact absurd h (by simp)
    · split at h
      · simp at h
      · simp only [Option.some.injEq, Prod.mk.injEq] at h
        omega
  · split at h
    · simp only [Option.some.injEq, Prod.mk.injEq] at h
      omega
    · split at h
      · simp only [Option.some.injEq, Prod.mk.injEq] at h
        omega
      · simp only [Option.some.injEq, Prod.mk.injEq] at h
        rcases hs with hs | hs | hs | hs
        · omega
        · contradiction
        · contradiction
        · contradiction

theorem read_count_over (fuel : Nat) (me : bajo_t) (maxn : Nat) (v : Int) (me2 : bajo_t)
    (h : read_src fuel me 4 = some (v, me2)) (hv : maxn < toU32 v) :
    read_count fuel me OPD_VAR maxn = some ({ me2 with err := BAJO_BAD_OPERAND }, none) := by
  unfold read_count
  rw [if_pos rfl, h]
  simp only []
  rw [if_pos hv]

theorem decode_counts_le (cfg : Config) (fuel : Nat) (me : bajo_t) (d : Decoded)
    (h : bajo_decode cfg fuel me = some (.ok d)) : d.ntgts ≤ MAX_TGTS ∧ d.nsrcs ≤ MAX_SRCS := by
  simp only [bajo_decode] at h
  split at h
  · simp at h
  split at h
  · simp at h
  rename_i hmax hspec
  obtain ⟨op, -, hop⟩ := opspecs_defined cfg _ hspec
  obtain ⟨hf1, hf2, -⟩ := opspec_fields op
  rw [hop] at h
  split at h
  · simp at h
  · simp at h
  rename_i me1 ntgts tsize hc1
  split at h
  · simp at h
  split at h
  · simp at h
  · simp at h
  rename_i me3 nsrcs ssize hc2
  split at h
  · simp at h
  split at h
  · simp at h
  simp only [Option.some.injEq, Except.ok.injEq] at h
  subst h
  exact ⟨read_count_le _ _ _ _ _ _ _ hf1 (by decide) hc1,
    read_count_le _ _ _ _ _ _ _ hf2 (by decide) hc2⟩

/-- Claim C11. (1) When the opcode has a variable target count and the count
operand decoded from the stream, taken as an unsigned 32-bit number, exceeds 8,
`bajo_step` returns BAD_OPERAND with `err = BAD_OPERAND`, nothing having been
written. (2) The same when the opcode has a variable source count and, the
targets decoded, the source count operand exceeds 8. (3) Whenever the decoding
half of a step arrives at the dispatcher (`bajo_decode` gives `ok d`), the
target count and the source count are at most 8. -/
theorem count_above_eight_is_bad_operand (cfg : Config) (fuel : Nat) (me : bajo_t) :
    (∀ (k : Nat) (op : opcode_t) (v : Int) (me2 : bajo_t),
      load me.mem me.pc 1 &&& 0xFFFFFF7F = k → k ≤ cfg.MAX_OPCODE → cfg.opcodes k = some op →
      opspec op >>> 4 = OPD_VAR →
      read_src fuel ({ me with err := BAJO_OK, pc := (me.pc + 1) % 4294967296,
                               trace := me.trace ++ [Event.read me.pc 1] } : bajo_t) 4
        = some (v, me2) →
      MAX_TGTS < toU32 v →
      bajo_step cfg fuel me = some (BAJO_BAD_OPERAND, { me2 with err := BAJO_BAD_OPERAND }) ∧
        Quiet me me2) ∧
    (∀ (k : Nat) (op : opcode_t) (ntgts tsize : Nat) (me2 me3 : bajo_t) (tgts : Nat → Nat)
        (v : Int) (me4 : bajo_t),
      load me.mem me.pc 1 &&& 0xFFFFFF7F = k → k ≤ cfg.MAX_OPCODE → cfg.opcodes k = some op →
      opspec op &&& 0x0F = OPD_VAR →
      read_count fuel ({ me with err := BAJO_OK, pc := (me.pc + 1) % 4294967296,
                                 trace := me.trace ++ [Event.read me.pc 1] } : bajo_t)
        (opspec op >>> 4) MAX_TGTS = some (me2, some (ntgts, tsize)) →
      read_tgts fuel ntgts 0 me2 (fun _ => 0) = some (me3, tgts) →
      read_src fuel me3 4 = some (v, me4) →
      MAX_SRCS < toU32 v →
      bajo_step cfg fuel me = some (BAJO_BAD_OPERAND, { me4 with err := BAJO_BAD_OPERAND }) ∧
        Quiet me me4) ∧
    (∀ d : Decoded, bajo_decode cfg fuel me = some (.ok d) →
      d.ntgts ≤ MAX_TGTS ∧ d.nsrcs ≤ MAX_SRCS) := by
  refine ⟨?_, ?_, decode_counts_le cfg fuel me⟩
  · intro k op v me2 hk hmax hop ht hsrc hv
    have hspec : opspecs cfg k = opspec op := by simp [opspecs, hop]
    have hne := (opspec_fields op).2.2
    constructor
    · simp only [bajo_step, hk, hspec, bajo_t.read, ht]
      rw [if_neg (by omega), if_neg hne, read_count_over _ _ _ _ _ hsrc hv]
    · exact (quiet_opcode me).trans (read_src_quiet _ _ _ _ _ hsrc)
  · intro k op ntgts tsize me2 me3 tgts v me4 hk hmax hop hs hc1 ht hsrc hv
    have hspec : opspecs cfg k = opspec op := by simp [opspecs, hop]
    have hne := (opspec_fields op).2.2
    constructor
    · simp only [bajo_step, hk, hspec, bajo_t.read, hs]
      rw [if_neg (by omega), if_neg hne, hc1]
      simp only []
      rw [ht]
      simp only []
      rw [read_count_over _ _ _ _ _ hsrc hv]
    · exact (((quiet_opcode me).trans (read_count_quiet _ _ _ _ _ _ hc1)).trans
        (read_tgts_quiet _ _ _ _ _ _ _ ht)).trans (read_src_quiet _ _ _ _ _ hsrc)

/-- The witness of claim C11: the variadic `SYS` (opcode 47 in the sample
numbering) followed by the literal 9 as target count. -/
theorem count_above_eight_is_bad_operand_witness :
    bajo_step sample_cfg 1 (sample_vm [47, 0x49] 0 0) =
      some (BAJO_BAD_OPERAND,
        { sample_vm [47, 0x49] 0 0 with
            pc := 2, err := BAJO_BAD_OPERAND, trace := [Event.read 0 1, Event.read 1 1] }) ∧
    Quiet (sample_vm [47, 0x49] 0 0)
      { sample_vm [47, 0x49] 0 0 with pc := 2, trace := [Event.read 0 1, Event.read 1 1] } :=
  (count_above_eight_is_bad_operand sample_cfg 1 (sample_vm [47, 0x49] 0 0)).1 47 .SYS 9
    { sample_vm [47, 0x49] 0 0 with pc := 2, trace := [Event.read 0 1, Event.read 1 1] }
    (by decide) (by decide) rfl (by decide) rfl (by decide)

/-- Instances of claim C11 under the sample numbering: the variadic `SYS`
(opcode 47) with target count 9, with target count -1 (the literal 0x05, which
is 4294967295 unsigned), and `MAX` (opcode 67) with a direct target and source
count 9, all return BAD_OPERAND, leave `err = BAD_OPERAND` and write nothing. -/
theorem count_above_eight_examples :
    (bajo_step sample_cfg 1 (sample_vm [47, 0x49] 0 0)).map
      (fun r => (r.1, r.2.err, r.2.trace)) =
      some (BAJO_BAD_OPERAND, BAJO_BAD_OPERAND, [Event.read 0 1, Event.read 1 1]) ∧
    (bajo_step sample_cfg 1 (sample_vm [47, 0x05] 0 0)).map
      (fun r => (r.1, r.2.err, r.2.trace)) =
      some (BAJO_BAD_OPERAND, BAJO_BAD_OPERAND, [Event.read 0 1, Event.read 1 1]) ∧
    (bajo_step sample_cfg 1 (sample_vm [67, 0x02, 0x04, 0x49] 0 0)).map
      (fun r => (r.1, r.2.err, r.2.trace)) =
      some (BAJO_BAD_OPERAND, BAJO_BAD_OPERAND,
        [Event.read 0 1, Event.read 1 1, Event.read 2 1, Event.read 3 1]) := by
  decide

/-! ### Division and remainder -/

theorem dispatch_div (cfg : Config) (me : bajo_t) (k : Nat) (t s : Nat → Int) (ns : Nat)
    (hop : cfg.opcodes k = some .DIV) :
    dispatch cfg me k t s ns =
      if cfg.ERR_ON_ZERO_DIVISION ∧ s 1 = 0 then some ({ me with err := BAJO_ZERO_DIVISION }, t)
      else if cfg.ERR_ON_INT_OVERFLOW ∧ s 0 = INT_MIN_ ∧ s 1 = -1 then
        some ({ me with err := BAJO_INTEGER_OVERFLOW }, t)
      else if s 1 = 0 ∨ (s 0 = INT_MIN_ ∧ s 1 = -1) then none
      else some (me, aset t 0 (wrap32 (Int.tdiv (s 0) (s 1)))) := by
  simp only [dispatch, hop]

theorem dispatch_div_u (cfg : Config) (me : bajo_t) (k : Nat) (t s : Nat → Int) (ns : Nat)
    (hop : cfg.opcodes k = some .DIV_U) :
    dispatch cfg me k t s ns =
      if cfg.ERR_ON_ZERO_DIVISION ∧ s 1 = 0 then some ({ me with err := BAJO_ZERO_DIVISION }, t)
      else if toU32 (s 1) = 0 then none
      else some (me, aset t 0 (toS32 (toU32 (s 0) / toU32 (s 1)))) := by
  simp only [dispatch, hop]

theorem dispatch_rem (cfg : Config) (me : bajo_t) (k : Nat) (t s : Nat → Int) (ns : Nat)
    (hop : cfg.opcodes k = some .REM) :
    dispatch cfg me k t s ns =
      if cfg.ERR_ON_ZERO_DIVISION ∧ s 1 = 0 then some ({ me with err := BAJO_ZERO_DIVISION }, t)
      else if s 0 = INT_MIN_ ∧ s 1 = -1 then some (me, aset t 0 0)
      else if s 1 = 0 then none
      else some (me, aset t 0 (wrap32 (Int.tmod (s 0) (s 1)))) := by
  simp only [dispatch, hop]

theorem dispatch_rem_u (cfg : Config) (me : bajo_t) (k : Nat) (t s : Nat → Int) (ns : Nat)
    (hop : cfg.opcodes k = some .REM_U) :
    dispatch cfg me k t s ns =
      if cfg.ERR_ON_ZERO_DIVISION ∧ s 1 = 0 then some ({ me with err := BAJO_ZERO_DIVISION }, t)
      else if toU32 (s 1) = 0 then none
      else some (me, aset t 0 (toS32 (toU32 (s 0) % toU32 (s 1)))) := by
  simp only [dispatch, hop]

theorem finish_some (cfg : Config) (d : Decoded) (r : bajo_t × (Nat → Int))
    (h0 : d.me.err = BAJO_OK)
    (hd : dispatch cfg d.me d.opcode cfg.results0 d.srcs d.nsrcs = some r)
    (h1 : r.1.err = BAJO_OK) :
    bajo_finish cfg d = some (BAJO_OK, write_tgts d.tgts r.2 d.tsize d.ntgts 0 r.1) ∧
      (write_tgts d.tgts r.2 d.tsize d.ntgts 0 r.1).err = BAJO_OK := by
  simp only [bajo_finish, hd]
  rw [if_neg (by simp [h0]), if_neg (by simp [h1])]
  simp only [write_tgts_err, h1, and_self]

theorem finish_none (cfg : Config) (d : Decoded) (h0 : d.me.err = BAJO_OK)
    (hd : dispatch cfg d.me d.opcode cfg.results0 d.srcs d.nsrcs = none) :
    bajo_finish cfg d = none := by
  simp only [bajo_finish, hd]
  rw [if_neg (by simp [h0])]

theorem finish_dispatch_err (cfg : Config) (d : Decoded) (r : bajo_t × (Nat → Int))
    (h0 : d.me.err = BAJO_OK)
    (hd : dispatch cfg d.me d.opcode cfg.results0 d.srcs d.nsrcs = some r)
    (h1 : r.1.err ≠ BAJO_OK) :
    bajo_finish cfg d = some (r.1.err, r.1) := by
  simp only [bajo_finish, hd]
  rw [if_neg (by simp [h0]), if_pos h1]

/-- The four division cases of `dispatch`, entered with `err = OK`: when the case
has no result, which error it raises, and that it leaves the state alone
otherwise. -/
theorem div_cases (cfg : Config) (me : bajo_t) (k : Nat) (op : opcode_t)
    (t s : Nat → Int) (ns : Nat) (hop : cfg.opcodes k = some op)
    (hdiv : op = .DIV ∨ op = .DIV_U ∨ op = .REM ∨ op = .REM_U) (herr : me.err = BAJO_OK) :
    (dispatch cfg me k t s ns = none ↔
      ¬ (cfg.ERR_ON_ZERO_DIVISION = true ∧ s 1 = 0) ∧
      ((op = .DIV ∧ ¬ (cfg.ERR_ON_INT_OVERFLOW = true ∧ s 0 = INT_MIN_ ∧ s 1 = -1) ∧
          (s 1 = 0 ∨ (s 0 = INT_MIN_ ∧ s 1 = -1))) ∨
        (op = .REM ∧ s 1 = 0) ∨
        ((op = .DIV_U ∨ op = .REM_U) ∧ toU32 (s 1) = 0))) ∧
    (cfg.ERR_ON_ZERO_DIVISION = true ∧ s 1 = 0 →
      dispatch cfg me k t s ns = some ({ me with err := BAJO_ZERO_DIVISION }, t)) ∧
    (op = .DIV ∧ cfg.ERR_ON_INT_OVERFLOW = true ∧ s 0 = INT_MIN_ ∧ s 1 = -1 ∧
        ¬ (cfg.ERR_ON_ZERO_DIVISION = true ∧ s 1 = 0) →
      dispatch cfg me k t s ns = some ({ me with err := BAJO_INTEGER_OVERFLOW }, t)) ∧
    (∀ r, dispatch cfg me k t s ns = some r →
      (r.1.err = BAJO_ZERO_DIVISION ↔ cfg.ERR_ON_ZERO_DIVISION = true ∧ s 1 = 0) ∧
      (r.1.err = BAJO_ZERO_DIVISION → r.2 = t) ∧
      (r.1.err = BAJO_INTEGER_OVERFLOW ↔
        op = .DIV ∧ cfg.ERR_ON_INT_OVERFLOW = true ∧ s 0 = INT_MIN_ ∧ s 1 = -1 ∧
          ¬ (cfg.ERR_ON_ZERO_DIVISION = true ∧ s 1 = 0)) ∧
      (r.1.err ≠ BAJO_ZERO_DIVISION → r.1.err ≠ BAJO_INTEGER_OVERFLOW → r.1 = me)) := by
  rcases hdiv with rfl | rfl | rfl | rfl
  · rw [dispatch_div cfg me k t s ns hop]
    split_ifs with hA hB hC
    · refine ⟨by simp [hA], fun _ => rfl, fun h => absurd hA h.2.2.2.2, ?_⟩
      intro r hr
      obtain rfl := Option.some.inj hr
      simp [hA]
    · refine ⟨by simp [hA, hB], fun h => absurd h hA, fun _ => rfl, ?_⟩
      intro r hr
      obtain rfl := Option.some.inj hr
      simp [hA, hB]
    · refine ⟨by simp [hA, hB, hC], fun h => absurd h hA,
        fun h => absurd ⟨h.2.1, h.2.2.1, h.2.2.2.1⟩ hB, ?_⟩
      intro r hr
      exact absurd hr (by simp)
    · refine ⟨by simp [hA, hB, hC], fun h => absurd h hA,
        fun h => absurd ⟨h.2.1, h.2.2.1, h.2.2.2.1⟩ hB, ?_⟩
      intro r hr
      obtain rfl := Option.some.inj hr
      simp [hA, hB, herr]
  · rw [dispatch_div_u cfg me k t s ns hop]
    split_ifs with hA hC
    · refine ⟨by simp [hA], fun _ => rfl, fun h => absurd h.1 (by decide), ?_⟩
      intro r hr
      obtain rfl := Option.some.inj hr
      simp [hA]
    · refine ⟨by simp [hA, hC], fun h => absurd h hA, fun h => absurd h.1 (by decide), ?_⟩
      intro r hr
      exact absurd hr (by simp)
    · refine ⟨by simp [hA, hC], fun h => absurd h hA, fun h => absurd h.1 (by decide), ?_⟩
      intro r hr
      obtain rfl := Option.some.inj hr
      simp [hA, herr]
  · rw [dispatch_rem cfg me k t s ns hop]
    split_ifs with hA hB hC
    · refine ⟨by simp [hA], fun _ => rfl, fun h => absurd h.1 (by decide), ?_⟩
      intro r hr
      obtain rfl := Option.some.inj hr
      simp [hA]
    · refine ⟨by simp [hA, hB], fun h => absurd h hA, fun h => absurd h.1 (by decide), ?_⟩
      intro r hr
      obtain rfl := Option.some.inj hr
      simp [hA, herr]
    · refine ⟨⟨fun _ => ⟨hA, Or.inr (Or.inl ⟨rfl, hC⟩)⟩, fun _ => rfl⟩, fun h => absurd h hA,
        fun h => absurd h.1 (by decide), ?_⟩
      intro r hr
      exact absurd hr (by simp)
    · refine ⟨by simp [hA, hC], fun h => absurd h hA, fun h => absurd h.1 (by decide), ?_⟩
      intro r hr
      obtain rfl := Option.some.inj hr
      simp [hA, herr]
  · rw [dispatch_rem_u cfg me k t s ns hop]
    split_ifs with hA hC
    · refine ⟨by simp [hA], fun _ => rfl, fun h => absurd h.1 (by decide), ?_⟩
      intro r hr
      obtain rfl := Option.some.inj hr
      simp [hA]
    · refine ⟨by simp [hA, hC], fun h => absurd h hA, fun h => absurd h.1 (by decide), ?_⟩
      intro r hr
      exact absurd hr (by simp)
    · refine ⟨by simp [hA, hC], fun h => absurd h hA, fun h => absurd h.1 (by decide), ?_⟩
      intro r hr
      obtain rfl := Option.some.inj hr
      simp [hA, herr]

theorem div_opspec (op : opcode_t)
    (hdiv : op = .DIV ∨ op = .DIV_U ∨ op = .REM ∨ op = .REM_U) :
    opspec op >>> 4 = 1 ∧ opspec op &&& 15 = 2 ∧ opspec op ≠ SPEC_UNDEF := by
  rcases hdiv with rfl | rfl | rfl | rfl <;> decide

/-- The decoding half of a step on `DIV`, `DIV_U`, `REM` or `REM_U` with a
direct target and two literal sources. -/
theorem decode_div (cfg : Config) (fuel : Nat) (me : bajo_t) (k : Nat) (op : opcode_t)
    (bt : Nat) (tlt : List Nat) (b0 : Nat) (tl0 : List Nat) (b1 : Nat) (tl1 : List Nat)
    (hk : k < 128) (hmax : k ≤ cfg.MAX_OPCODE) (hop : cfg.opcodes k = some op)
    (hdiv : op = .DIV ∨ op = .DIV_U ∨ op = .REM ∨ op = .REM_U)
    (ht : IsDirect bt tlt) (h0 : IsLit b0 tl0) (h1 : IsLit b1 tl1)
    (hmem : Holds me.mem me.pc (k :: bt :: tlt ++ (b0 :: tl0 ++ b1 :: tl1))) :
    bajo_decode cfg (fuel + 1) me = some (.ok
      { me := fetched (fetched (fetched (opcode_fetched me) (tlt.length + 1))
          (tl0.length + 1)) (tl1.length + 1),
        opcode := k, ntgts := 1, tsize := 4,
        tgts := fun j => if j = 0 then dst_base bt tlt else 0,
        nsrcs := 2, ssize := 4,
        srcs := aset (aset cfg.srcs0 0 (lit_value b0 tl0)) 1 (lit_value b1 tl1) }) := by
  obtain ⟨-, -, hr, hm⟩ := opcode_byte_cases k hk
  obtain ⟨hts, hss, hne⟩ := div_opspec op hdiv
  have hspec : opspecs cfg k = opspec op := by simp [opspecs, hop]
  have hload : load me.mem me.pc 1 = k := hmem.load_head (by omega)
  have hrest : Holds me.mem (me.pc + 1) ((bt :: tlt) ++ ((b0 :: tl0) ++ (b1 :: tl1))) :=
    hmem.tail
  have et := read_dst_direct (fuel + 1) (opcode_fetched me) bt tlt ht
    (hrest.append_left.congr (by simp [opcode_fetched]))
  have e0 := read_src_islit fuel (fetched (opcode_fetched me) (tlt.length + 1)) b0 tl0 h0
    (hrest.append_right.append_left.congr (by simp [fetched, opcode_fetched]))
  have e1 := read_src_islit fuel
    (fetched (fetched (opcode_fetched me) (tlt.length + 1)) (tl0.length + 1)) b1 tl1 h1
    (hrest.append_right.append_right.congr (by simp [fetched, opcode_fetched]))
  have hu : toU32 (toS32 (dst_base bt tlt)) = dst_base bt tlt := by
    rw [toU32_toS32, Nat.mod_eq_of_lt (dst_base_lt bt tlt)]
  simp only [opcode_fetched] at et e0 e1 ⊢
  simp only [bajo_decode, hload, hm, hspec, hts, hss]
  rw [if_neg (by omega), if_neg hne, read_count_fixed _ _ _ _ (by decide)]
  simp only [read_tgts, bajo_t.read] at et ⊢
  rw [et]
  simp only []
  rw [read_count_fixed _ _ _ _ (by decide)]
  simp only [hr, read_srcs, ne_eq, not_true_eq_false, decide_False, Bool.false_eq_true,
    false_and, ↓reduceIte, Nat.sub_zero, hu]
  rw [e0]
  simp only []
  rw [e1]

/-- The counterexample to claim C12: under the default knobs (both false) the
step on `DIV` of 10 by 0 (bytes 3, 0x01, 0x51, 0x01 under the sample numbering:
the word at address 0 as target, the literals 10 and 0 as sources) decodes its
operands without error and then executes `s[0] / s[1]` with a zero divisor,
which C leaves undefined: `dispatch` has no result, and the step has none
whatever the recursion budget, so it does not leave `err = OK`. -/
theorem div_by_zero_counterexample :
    sample_cfg.ERR_ON_ZERO_DIVISION = false ∧ sample_cfg.ERR_ON_INT_OVERFLOW = false ∧
    (∃ d, bajo_decode sample_cfg 1 (sample_vm [3, 0x01, 0x51, 0x01] 0 0) = some (.ok d) ∧
      sample_cfg.opcodes d.opcode = some .DIV ∧ d.srcs 0 = 10 ∧ d.srcs 1 = 0 ∧
      d.me.err = BAJO_OK ∧
      dispatch sample_cfg d.me d.opcode sample_cfg.results0 d.srcs d.nsrcs = none) ∧
    ∀ fuel, bajo_step sample_cfg fuel (sample_vm [3, 0x01, 0x51, 0x01] 0 0) = none := by
  have hdec : ∀ fuel, bajo_decode sample_cfg (fuel + 1) (sample_vm [3, 0x01, 0x51, 0x01] 0 0) =
      some (.ok _) := fun fuel =>
    decode_div sample_cfg fuel (sample_vm [3, 0x01, 0x51, 0x01] 0 0) 3 .DIV 0x01 [] 0x51 []
      0x01 [] (by decide) (by decide) (by decide) (Or.inl rfl) (by unfold IsDirect; decide)
      (by unfold IsLit; decide) (by unfold IsLit; decide) (holds_sample _ 0 0 (by decide))
  refine ⟨rfl, rfl, ⟨_, hdec 0, by decide, by decide, by decide, rfl, rfl⟩, ?_⟩
  intro fuel
  cases fuel with
  | zero => rfl
  | succ n =>
    rw [bajo_step_eq, hdec n]
    exact finish_none _ _ rfl rfl

/-- Claim C12, as amended. For `DIV`, `DIV_U`, `REM` and `REM_U` entered with
`err = OK`: (1) the case has no result exactly when it reaches the C operator
`/` or `%` on operands for which the operator is undefined, which the enabled
knobs have not caught: a zero divisor, and for `DIV` also `INT32_MIN / -1`;
(2) with ERR_ON_ZERO_DIVISION enabled and `s1 = 0` it sets
`err = ZERO_DIVISION` and leaves `t` alone; (3) `DIV` with ERR_ON_INT_OVERFLOW
enabled, `s0 = INT32_MIN`, `s1 = -1` (the zero-division case not firing) sets
`err = INTEGER_OVERFLOW`; (4) whenever the case has a result, `err` is
ZERO_DIVISION exactly in case (2), with `t` as it was, `err` is
INTEGER_OVERFLOW exactly in case (3), and otherwise the state is left as it
was; (5) with both knobs off the case never sets `err`: if it has a result the
state is as it was, and a step of one of these opcodes whose operands decode
without error returns OK with `err = OK` when the division is defined and has
no result when it is not; (6) a step whose operands decode without error
into case (2) returns ZERO_DIVISION, and into case (3) INTEGER_OVERFLOW, the
state being the one the decoding left, with `err` set: no write follows. -/
theorem div_errors_follow_knobs (cfg : Config) (me : bajo_t) (k : Nat) (op : opcode_t)
    (t s : Nat → Int) (ns : Nat) (hop : cfg.opcodes k = some op)
    (hdiv : op = .DIV ∨ op = .DIV_U ∨ op = .REM ∨ op = .REM_U) (herr : me.err = BAJO_OK) :
    (dispatch cfg me k t s ns = none ↔
      ¬ (cfg.ERR_ON_ZERO_DIVISION = true ∧ s 1 = 0) ∧
      ((op = .DIV ∧ ¬ (cfg.ERR_ON_INT_OVERFLOW = true ∧ s 0 = INT_MIN_ ∧ s 1 = -1) ∧
          (s 1 = 0 ∨ (s 0 = INT_MIN_ ∧ s 1 = -1))) ∨
        (op = .REM ∧ s 1 = 0) ∨
        ((op = .DIV_U ∨ op = .REM_U) ∧ toU32 (s 1) = 0))) ∧
    (cfg.ERR_ON_ZERO_DIVISION = true ∧ s 1 = 0 →
      dispatch cfg me k t s ns = some ({ me with err := BAJO_ZERO_DIVISION }, t)) ∧
    (op = .DIV ∧ cfg.ERR_ON_INT_OVERFLOW = true ∧ s 0 = INT_MIN_ ∧ s 1 = -1 ∧
        ¬ (cfg.ERR_ON_ZERO_DIVISION = true ∧ s 1 = 0) →
      dispatch cfg me k t s ns = some ({ me with err := BAJO_INTEGER_OVERFLOW }, t)) ∧
    (∀ r, dispatch cfg me k t s ns = some r →
      (r.1.err = BAJO_ZERO_DIVISION ↔ cfg.ERR_ON_ZERO_DIVISION = true ∧ s 1 = 0) ∧
      (r.1.err = BAJO_ZERO_DIVISION → r.2 = t) ∧
      (r.1.err = BAJO_INTEGER_OVERFLOW ↔
        op = .DIV ∧ cfg.ERR_ON_INT_OVERFLOW = true ∧ s 0 = INT_MIN_ ∧ s 1 = -1 ∧
          ¬ (cfg.ERR_ON_ZERO_DIVISION = true ∧ s 1 = 0)) ∧
      (r.1.err ≠ BAJO_ZERO_DIVISION → r.1.err ≠ BAJO_INTEGER_OVERFLOW → r.1 = me)) ∧
    (cfg.ERR_ON_ZERO_DIVISION = false → cfg.ERR_ON_INT_OVERFLOW = false →
      (∀ r, dispatch cfg me k t s ns = some r → r.1 = me) ∧
      ∀ (fuel : Nat) (me0 : bajo_t) (d : Decoded), bajo_decode cfg fuel me0 = some (.ok d) →
        d.opcode = k → d.me.err = BAJO_OK →
        (dispatch cfg d.me k cfg.results0 d.srcs d.nsrcs = none →
          bajo_step cfg fuel me0 = none) ∧
        (dispatch cfg d.me k cfg.results0 d.srcs d.nsrcs ≠ none →
          ∃ me', bajo_step cfg fuel me0 = some (BAJO_OK, me') ∧ me'.err = BAJO_OK)) ∧
    (∀ (fuel : Nat) (me0 : bajo_t) (d : Decoded), bajo_decode cfg fuel me0 = some (.ok d) →
      d.opcode = k → d.me.err = BAJO_OK →
      (cfg.ERR_ON_ZERO_DIVISION = true ∧ d.srcs 1 = 0 →
        bajo_step cfg fuel me0 =
          some (BAJO_ZERO_DIVISION, { d.me with err := BAJO_ZERO_DIVISION })) ∧
      (op = .DIV ∧ cfg.ERR_ON_INT_OVERFLOW = true ∧ d.srcs 0 = INT_MIN_ ∧ d.srcs 1 = -1 ∧
          ¬ (cfg.ERR_ON_ZERO_DIVISION = true ∧ d.srcs 1 = 0) →
        bajo_step cfg fuel me0 =
          some (BAJO_INTEGER_OVERFLOW, { d.me with err := BAJO_INTEGER_OVERFLOW }))) := by
  obtain ⟨c1, c2, c3, c4⟩ := div_cases cfg me k op t s ns hop hdiv herr
  refine ⟨c1, c2, c3, c4, ?_, ?_⟩
  swap
  · intro fuel me0 d hd hk hde
    subst hk
    obtain ⟨-, e2, e3, -⟩ :=
      div_cases cfg d.me d.opcode op cfg.results0 d.srcs d.nsrcs hop hdiv hde
    constructor
    · intro h
      rw [bajo_step_eq, hd]
      exact finish_dispatch_err cfg d _ hde (e2 h) (by simp)
    · intro h
      rw [bajo_step_eq, hd]
      exact finish_dispatch_err cfg d _ hde (e3 h) (by simp)
  intro hz ho
  have key : ∀ (me : bajo_t) (t s : Nat → Int) (ns : Nat), me.err = BAJO_OK →
      ∀ r, dispatch cfg me k t s ns = some r → r.1 = me := by
    intro me t s ns he r hr
    obtain ⟨h1, -, h3, h4⟩ := (div_cases cfg me k op t s ns hop hdiv he).2.2.2 r hr
    refine h4 (fun h => ?_) (fun h => ?_)
    · have := (h1.1 h).1
      rw [hz] at this
      exact absurd this (by decide)
    · have := (h3.1 h).2.1
      rw [ho] at this
      exact absurd this (by decide)
  refine ⟨key me t s ns herr, ?_⟩
  intro fuel me0 d hd hk hde
  subst hk
  constructor
  · intro hn
    rw [bajo_step_eq, hd]
    exact finish_none cfg d hde hn
  · intro hn
    cases hr : dispatch cfg d.me d.opcode cfg.results0 d.srcs d.nsrcs with
    | none => exact absurd hr hn
    | some r =>
      have h1 : r.1.err = BAJO_OK := by rw [key d.me _ _ _ hde r hr]; exact hde
      obtain ⟨hf1, hf2⟩ := finish_some cfg d r hde hr h1
      exact ⟨_, by rw [bajo_step_eq, hd]; exact hf1, hf2⟩

/-- The witness of claim C12: `DIV` (opcode 3) of 10 by 2 into the word at
address 0, bytes 3, 0x01, 0x51, 0x11, under the default knobs: the division is
defined and the step returns OK with `err = OK`. -/
theorem div_errors_follow_knobs_witness :
    ∃ me', bajo_step sample_cfg 1 (sample_vm [3, 0x01, 0x51, 0x11] 0 0) = some (BAJO_OK, me') ∧
      me'.err = BAJO_OK :=
  (((div_errors_follow_knobs sample_cfg (sample_vm [3, 0x01, 0x51, 0x11] 0 0) 3 .DIV
      (fun _ => 0) (fun i => [10, 2].getD i 0) 2 (by decide) (Or.inl rfl) rfl).2.2.2.2.1 rfl rfl).2
      1 (sample_vm [3, 0x01, 0x51, 0x11] 0 0)
      { me := { sample_vm [3, 0x01, 0x51, 0x11] 0 0 with
                  pc := 4, trace := [Event.read 0 1, Event.read 1 1, Event.read 2 1,
                                     Event.read 3 1] },
        opcode := 3, ntgts := 1, tsize := 4, tgts := fun j => if j = 0 then 0 else 0,
        nsrcs := 2, ssize := 4, srcs := aset (aset (fun _ => 0) 0 10) 1 2 }
      rfl rfl rfl).2 (by simp [dispatch, sample_cfg, sample_opcodes, table_order, aset])

/-- Claim C13. Under every setting of the two knobs, `REM` with
`s0 = INT32_MIN` and `s1 = -1` produces `t0 = 0` and leaves the state, `err`
included, as it was: the case has a result, which is the state as it was and
the array `t` with 0 in slot 0. -/
theorem rem_int_min_by_minus_one (cfg : Config) (me : bajo_t) (k : Nat) (t s : Nat → Int)
    (ns : Nat) (hop : cfg.opcodes k = some .REM) (h0 : s 0 = INT_MIN_) (h1 : s 1 = -1) :
    dispatch cfg me k t s ns = some (me, aset t 0 0) ∧
      ∀ r, dispatch cfg me k t s ns = some r → r.2 0 = 0 ∧ r.1.err = me.err := by
  have h : dispatch cfg me k t s ns = some (me, aset t 0 0) := by
    rw [dispatch_rem cfg me k t s ns hop, if_neg (by simp [h1]), if_pos ⟨h0, h1⟩]
  rw [h]
  refine ⟨rfl, ?_⟩
  intro r hr
  obtain rfl := Option.some.inj hr
  exact ⟨by simp [aset], rfl⟩

/-- The witness of claim C13, with both knobs enabled. -/
theorem rem_int_min_by_minus_one_witness :
    dispatch { sample_cfg with ERR_ON_ZERO_DIVISION := true, ERR_ON_INT_OVERFLOW := true }
        (sample_vm [] 0 0) 5 (fun _ => 7) (fun i => [-2147483648, -1].getD i 0) 2 =
      some (sample_vm [] 0 0, aset (fun _ => 7) 0 0) :=
  (rem_int_min_by_minus_one
    { sample_cfg with ERR_ON_ZERO_DIVISION := true, ERR_ON_INT_OVERFLOW := true }
    (sample_vm [] 0 0) 5 (fun _ => 7) (fun i => [-2147483648, -1].getD i 0) 2
    (by decide) (by decide) (by decide)).1

/-! ### Shifts and long multiplication -/

theorem toU32_cast (x : Int) : ((toU32 x : Nat) : Int) = x % 4294967296 := by
  unfold toU32; omega

theorem toU32_lt (x : Int) : toU32 x < 4294967296 := by
  unfold toU32; omega

theorem toU32_of_nonneg (x : Int) (h0 : 0 ≤ x) (h1 : x < 4294967296) : toU32 x = x.toNat := by
  unfold toU32; omega

theorem toS32_congr (a b : Nat) (h : a % 4294967296 = b % 4294967296) : toS32 a = toS32 b := by
  unfold toS32; rw [h]

theorem toS32_toU32 (x : Int) (h0 : -2147483648 ≤ x) (h1 : x < 2147483648) :
    toS32 (toU32 x) = x := by
  unfold toS32 toU32; split <;> omega

theorem toU32_mul (a b : Int) :
    (toU32 a * toU32 b) % 4294967296 = toU32 (a * b) % 4294967296 := by
  have h : (((toU32 a * toU32 b) % 4294967296 : Nat) : Int) =
      ((toU32 (a * b) % 4294967296 : Nat) : Int) := by
    push_cast
    rw [toU32_cast, toU32_cast, toU32_cast, ← Int.mul_emod, Int.emod_emod_of_dvd _ (dvd_refl _)]
  exact_mod_cast h

theorem shr31 (x : Int) : x >>> (31 : Int) = x / 2147483648 := by
  have h : x >>> (31 : Int) = x >>> (31 : Nat) := by cases x <;> rfl
  rw [h, Int.shiftRight_eq_div_pow]
  norm_num

theorem dispatch_l_shift (cfg : Config) (me : bajo_t) (k : Nat) (t s : Nat → Int) (ns : Nat)
    (hop : cfg.opcodes k = some .L_SHIFT) :
    dispatch cfg me k t s ns =
      if toU32 (s 1) ≥ 32 then some (me, aset t 0 0)
      else some (me, aset t 0 (toS32 (toU32 (s 0) <<< toU32 (s 1)))) := by
  simp only [dispatch, hop]

theorem dispatch_r_shift_u (cfg : Config) (me : bajo_t) (k : Nat) (t s : Nat → Int) (ns : Nat)
    (hop : cfg.opcodes k = some .R_SHIFT_U) :
    dispatch cfg me k t s ns =
      if toU32 (s 1) ≥ 32 then some (me, aset t 0 0)
      else some (me, aset t 0 (toS32 (toU32 (s 0) >>> toU32 (s 1)))) := by
  simp only [dispatch, hop]

theorem dispatch_r_shift (cfg : Config) (me : bajo_t) (k : Nat) (t s : Nat → Int) (ns : Nat)
    (hop : cfg.opcodes k = some .R_SHIFT) :
    dispatch cfg me k t s ns =
      if toU32 (s 1) ≥ 32 then some (me, aset t 0 (s 0 >>> 31))
      else some (me, aset t 0 (s 0 >>> toU32 (s 1))) := by
  simp only [dispatch, hop]

/-- Claim C14. For 32-bit `s0` and `s1`: when `s1` taken as unsigned is at
least 32 (which every negative `s1` is), `L_SHIFT` and `R_SHIFT_U` produce
`t0 = 0` and `R_SHIFT` produces 0 for `s0 ≥ 0` and -1 for `s0 < 0`; when
`0 ≤ s1 < 32` they produce `s0 * 2^s1` wrapped to 32 bits, the floor of
`unsigned(s0) / 2^s1` and the floor of `s0 / 2^s1`. The state is left as it
was. -/
theorem shift_results (cfg : Config) (me : bajo_t) (k : Nat) (t s : Nat → Int) (ns : Nat)
    (h0 : -2147483648 ≤ s 0 ∧ s 0 < 2147483648) (h1 : -2147483648 ≤ s 1 ∧ s 1 < 2147483648) :
    (s 1 < 0 → 32 ≤ toU32 (s 1)) ∧
    (cfg.opcodes k = some .L_SHIFT →
      (32 ≤ toU32 (s 1) → dispatch cfg me k t s ns = some (me, aset t 0 0)) ∧
      (0 ≤ s 1 → s 1 < 32 →
        dispatch cfg me k t s ns = some (me, aset t 0 (wrap32 (s 0 * 2 ^ (s 1).toNat))))) ∧
    (cfg.opcodes k = some .R_SHIFT_U →
      (32 ≤ toU32 (s 1) → dispatch cfg me k t s ns = some (me, aset t 0 0)) ∧
      (0 ≤ s 1 → s 1 < 32 →
        dispatch cfg me k t s ns = some (me, aset t 0 (toS32 (toU32 (s 0) / 2 ^ (s 1).toNat))))) ∧
    (cfg.opcodes k = some .R_SHIFT →
      (32 ≤ toU32 (s 1) → 0 ≤ s 0 → dispatch cfg me k t s ns = some (me, aset t 0 0)) ∧
      (32 ≤ toU32 (s 1) → s 0 < 0 → dispatch cfg me k t s ns = some (me, aset t 0 (-1))) ∧
      (0 ≤ s 1 → s 1 < 32 →
        dispatch cfg me k t s ns = some (me, aset t 0 (Int.fdiv (s 0) (2 ^ (s 1).toNat))))) := by
  have hsmall : 0 ≤ s 1 → s 1 < 32 → toU32 (s 1) = (s 1).toNat ∧ ¬ toU32 (s 1) ≥ 32 := by
    intro ha hb
    have := toU32_of_nonneg (s 1) ha (by omega)
    exact ⟨this, by omega⟩
  refine ⟨?_, ?_, ?_, ?_⟩
  · intro hneg
    unfold toU32
    omega
  · intro hop
    rw [dispatch_l_shift cfg me k t s ns hop]
    refine ⟨fun h => by rw [if_pos h], fun ha hb => ?_⟩
    obtain ⟨he, hn⟩ := hsmall ha hb
    rw [if_neg hn, he, wrap32, Nat.shiftLeft_eq]
    suffices hkey : toS32 (toU32 (s 0) * 2 ^ (s 1).toNat) =
        toS32 (toU32 (s 0 * 2 ^ (s 1).toNat)) by rw [hkey]
    apply toS32_congr
    have hlt : 2 ^ (s 1).toNat < 4294967296 := by
      have : (s 1).toNat < 32 := by omega
      calc 2 ^ (s 1).toNat < 2 ^ 32 := Nat.pow_lt_pow_right (by decide) this
        _ = 4294967296 := by norm_num
    have hcast : ((2 : Int) ^ (s 1).toNat) = ((2 ^ (s 1).toNat : Nat) : Int) := by
      push_cast; rfl
    rw [hcast]
    generalize 2 ^ (s 1).toNat = p at hlt ⊢
    have hp : toU32 (p : Int) = p := by unfold toU32; omega
    rw [← toU32_mul, hp]
  · intro hop
    rw [dispatch_r_shift_u cfg me k t s ns hop]
    refine ⟨fun h => by rw [if_pos h], fun ha hb => ?_⟩
    obtain ⟨he, hn⟩ := hsmall ha hb
    rw [if_neg hn, he, Nat.shiftRight_eq_div_pow]
  · intro hop
    rw [dispatch_r_shift cfg me k t s ns hop]
    refine ⟨fun h hs => ?_, fun h hs => ?_, fun ha hb => ?_⟩
    · rw [if_pos h, shr31]
      have : s 0 / 2147483648 = 0 := by omega
      rw [this]
    · rw [if_pos h, shr31]
      have : s 0 / 2147483648 = -1 := by omega
      rw [this]
    · obtain ⟨he, hn⟩ := hsmall ha hb
      rw [if_neg hn, he, Int.shiftRight_eq_div_pow, Int.fdiv_eq_ediv _ (by positivity)]
      push_cast
      rfl

/-- The witness of claim C14: -8 shifted by 1 and by 33, under the sample
numbering (`L_SHIFT` 17, `R_SHIFT` 18, `R_SHIFT_U` 19). -/
theorem shift_results_witness :
    dispatch sample_cfg (sample_vm [] 0 0) 17 (fun _ => 0) (fun i => [-8, 1].getD i 0) 2 =
      some (sample_vm [] 0 0, aset (fun _ => 0) 0 (wrap32 (-8 * 2 ^ (1 : Int).toNat))) ∧
    dispatch sample_cfg (sample_vm [] 0 0) 18 (fun _ => 0) (fun i => [-8, 33].getD i 0) 2 =
      some (sample_vm [] 0 0, aset (fun _ => 0) 0 (-1)) :=
  ⟨((shift_results sample_cfg (sample_vm [] 0 0) 17 (fun _ => 0) (fun i => [-8, 1].getD i 0) 2
      (by decide) (by decide)).2.1 (by decide)).2 (by decide) (by decide),
   ((shift_results sample_cfg (sample_vm [] 0 0) 18 (fun _ => 0) (fun i => [-8, 33].getD i 0) 2
      (by decide) (by decide)).2.2.2 (by decide)).2.1 (by decide) (by decide)⟩

theorem dispatch_long_mul (cfg : Config) (me : bajo_t) (k : Nat) (t s : Nat → Int) (ns : Nat)
    (hop : cfg.opcodes k = some .LONG_MUL) :
    dispatch cfg me k t s ns =
      some (me, aset (aset t 0 (wrap32 (s 0 * s 1))) 1 (wrap32 (s 0 * s 1 / 4294967296))) := by
  simp only [dispatch, hop]

theorem dispatch_long_mul_u (cfg : Config) (me : bajo_t) (k : Nat) (t s : Nat → Int) (ns : Nat)
    (hop : cfg.opcodes k = some .LONG_MUL_U) :
    dispatch cfg me k t s ns =
      some (me, aset (aset t 0 (toS32 (toU32 (s 0) * toU32 (s 1)))) 1
        (toS32 (toU32 (s 0) * toU32 (s 1) / 4294967296))) := by
  simp only [dispatch, hop]

theorem dispatch_mul (cfg : Config) (me : bajo_t) (k : Nat) (t s : Nat → Int) (ns : Nat)
    (hop : cfg.opcodes k = some .MUL) :
    dispatch cfg me k t s ns = some (me, aset t 0 (wrap32 (s 0 * s 1))) := by
  simp only [dispatch, hop]

/-- Claim C15. For 32-bit `s0` and `s1`, `LONG_MUL` produces `t0`, `t1` with
`signed(t1) * 2^32 + unsigned(t0)` the exact product of the signed values, and
`LONG_MUL_U` produces `t0`, `t1` with `unsigned(t1) * 2^32 + unsigned(t0)` the
exact product of the unsigned values; in both `t0` is the result that `MUL`
(under any opcode number `km`) produces on the same sources. In the statement
`r` is the result of the long multiplication and `rm` that of `MUL`. -/
theorem long_mul_exact (cfg : Config) (me : bajo_t) (k km : Nat) (t s : Nat → Int) (ns : Nat)
    (h0 : -2147483648 ≤ s 0 ∧ s 0 < 2147483648) (h1 : -2147483648 ≤ s 1 ∧ s 1 < 2147483648)
    (hmul : cfg.opcodes km = some .MUL) :
    (cfg.opcodes k = some .LONG_MUL →
      ∃ r rm, dispatch cfg me k t s ns = some r ∧ dispatch cfg me km t s ns = some rm ∧
        r.2 1 * 4294967296 + (toU32 (r.2 0) : Int) = s 0 * s 1 ∧
        r.2 0 = rm.2 0) ∧
    (cfg.opcodes k = some .LONG_MUL_U →
      ∃ r rm, dispatch cfg me k t s ns = some r ∧ dispatch cfg me km t s ns = some rm ∧
        toU32 (r.2 1) * 4294967296 + toU32 (r.2 0) = toU32 (s 0) * toU32 (s 1) ∧
        r.2 0 = rm.2 0) := by
  constructor
  · intro hop
    refine ⟨_, _, dispatch_long_mul cfg me k t s ns hop, dispatch_mul cfg me km t s ns hmul, ?_⟩
    simp only [aset, if_true, if_false, one_ne_zero, zero_ne_one, and_true]
    have hb1 : s 0 * s 1 ≤ 4611686018427387904 := by nlinarith [h0.1, h0.2, h1.1, h1.2]
    have hb2 : -4611686018427387904 ≤ s 0 * s 1 := by nlinarith [h0.1, h0.2, h1.1, h1.2]
    generalize s 0 * s 1 = p at hb1 hb2 ⊢
    rw [toU32_cast]
    unfold wrap32 toS32 toU32
    split <;> split <;> omega
  · intro hop
    refine ⟨_, _, dispatch_long_mul_u cfg me k t s ns hop, dispatch_mul cfg me km t s ns hmul, ?_⟩
    simp only [aset, if_true, if_false, one_ne_zero, zero_ne_one]
    constructor
    · have ha := toU32_lt (s 0)
      have hb := toU32_lt (s 1)
      have hp : toU32 (s 0) * toU32 (s 1) < 18446744073709551616 := by nlinarith
      generalize toU32 (s 0) * toU32 (s 1) = p at hp ⊢
      rw [toU32_toS32, toU32_toS32]
      omega
    · rw [wrap32]
      exact toS32_congr _ _ (by rw [toU32_mul, Nat.mod_eq_of_lt (toU32_lt _)])

/-- The witness of claim C15: -3 times 5, under the sample numbering (`MUL` 2,
`LONG_MUL` 7). -/
theorem long_mul_exact_witness :
    ∃ r rm,
      dispatch sample_cfg (sample_vm [] 0 0) 7 (fun _ => 0) (fun i => [-3, 5].getD i 0) 2
        = some r ∧
      dispatch sample_cfg (sample_vm [] 0 0) 2 (fun _ => 0) (fun i => [-3, 5].getD i 0) 2
        = some rm ∧
      r.2 1 * 4294967296 + (toU32 (r.2 0) : Int) = (-3) * 5 ∧ r.2 0 = rm.2 0 :=
  (long_mul_exact sample_cfg (sample_vm [] 0 0) 7 2 (fun _ => 0) (fun i => [-3, 5].getD i 0) 2
    (by decide) (by decide) (by decide)).1 (by decide)

/-! ### `MAX` and `MIN` -/

theorem max_loop_spec (s : Nat → Int) : ∀ (k i : Nat) (v : Int),
    (∃ j, j < i ∧ v = s j) → (∀ j, j < i → s j ≤ v) →
    (∃ j, j < i + k ∧ max_loop s k i v = s j) ∧ ∀ j, j < i + k → s j ≤ max_loop s k i v := by
  intro k
  induction k with
  | zero => intro i v h1 h2; exact ⟨by simpa [max_loop, eq_comm] using h1, by simpa [max_loop] using h2⟩
  | succ k ih =>
    intro i v h1 h2
    simp only [max_loop]
    have := ih (i + 1) (if s i > v then s i else v)
      (by
        split
        · exact ⟨i, by omega, rfl⟩
        · obtain ⟨j, hj, hv⟩ := h1
          exact ⟨j, by omega, hv⟩)
      (by
        intro j hj
        rcases Nat.lt_succ_iff_lt_or_eq.1 hj with h | h
        · have := h2 j h
          split <;> omega
        · subst h
          split <;> omega)
    rw [show i + (k + 1) = i + 1 + k by omega]
    exact this

theorem min_loop_spec (s : Nat → Int) : ∀ (k i : Nat) (v : Int),
    (∃ j, j < i ∧ v = s j) → (∀ j, j < i → v ≤ s j) →
    (∃ j, j < i + k ∧ min_loop s k i v = s j) ∧ ∀ j, j < i + k → min_loop s k i v ≤ s j := by
  intro k
  induction k with
  | zero => intro i v h1 h2; exact ⟨by simpa [min_loop, eq_comm] using h1, by simpa [min_loop] using h2⟩
  | succ k ih =>
    intro i v h1 h2
    simp only [min_loop]
    have := ih (i + 1) (if s i < v then s i else v)
      (by
        split
        · exact ⟨i, by omega, rfl⟩
        · obtain ⟨j, hj, hv⟩ := h1
          exact ⟨j, by omega, hv⟩)
      (by
        intro j hj
        rcases Nat.lt_succ_iff_lt_or_eq.1 hj with h | h
        · have := h2 j h
          split <;> omega
        · subst h
          split <;> omega)
    rw [show i + (k + 1) = i + 1 + k by omega]
    exact this

theorem dispatch_max (cfg : Config) (me : bajo_t) (k : Nat) (t s : Nat → Int) (ns : Nat)
    (hop : cfg.opcodes k = some .MAX) :
    dispatch cfg me k t s ns =
      if ns < 1 then some ({ me with err := BAJO_BAD_OPERAND }, t)
      else some (me, aset t 0 (max_loop s (ns - 1) 1 (s 0))) := by
  simp only [dispatch, hop]

theorem dispatch_min (cfg : Config) (me : bajo_t) (k : Nat) (t s : Nat → Int) (ns : Nat)
    (hop : cfg.opcodes k = some .MIN) :
    dispatch cfg me k t s ns =
      if ns < 1 then some ({ me with err := BAJO_BAD_OPERAND }, t)
      else some (me, aset t 0 (min_loop s (ns - 1) 1 (s 0))) := by
  simp only [dispatch, hop]

/-- Claim C16. For a source list of length `ns ≥ 1` (so for `1 ≤ ns ≤ 8`),
`MAX` produces a `t0` that is one of the sources and is at least every source,
and `MIN` a `t0` that is one of the sources and is at most every source, the
state being left as it was (`r` is the result of `dispatch`). With `ns = 0`
both set `err = BAD_OPERAND` and leave `t` alone, and the step that decoded
this instruction returns BAD_OPERAND without a write. -/
theorem max_min_reduce (cfg : Config) (me : bajo_t) (k : Nat) (op : opcode_t)
    (t s : Nat → Int) (ns : Nat) (hop : cfg.opcodes k = some op) (hmm : op = .MAX ∨ op = .MIN) :
    (1 ≤ ns →
      ∃ r, dispatch cfg me k t s ns = some r ∧
      r.1 = me ∧
      (∀ j, j ≠ 0 → r.2 j = t j) ∧
      (∃ j, j < ns ∧ r.2 0 = s j) ∧
      (op = .MAX → ∀ j, j < ns → s j ≤ r.2 0) ∧
      (op = .MIN → ∀ j, j < ns → r.2 0 ≤ s j)) ∧
    (ns = 0 →
      dispatch cfg me k t s ns = some ({ me with err := BAJO_BAD_OPERAND }, t) ∧
      ∀ d : Decoded, d.opcode = k → d.nsrcs = 0 → d.me.err = BAJO_OK →
        bajo_finish cfg d = some (BAJO_BAD_OPERAND, { d.me with err := BAJO_BAD_OPERAND })) := by
  have hzero : ∀ (me : bajo_t) (t s : Nat → Int),
      dispatch cfg me k t s 0 = some ({ me with err := BAJO_BAD_OPERAND }, t) := by
    intro me t s
    rcases hmm with rfl | rfl
    · rw [dispatch_max cfg me k t s 0 hop, if_pos (by omega)]
    · rw [dispatch_min cfg me k t s 0 hop, if_pos (by omega)]
  constructor
  · intro hns
    rcases hmm with rfl | rfl
    · rw [dispatch_max cfg me k t s ns hop, if_neg (by omega)]
      have := max_loop_spec s (ns - 1) 1 (s 0) ⟨0, by omega, rfl⟩
        (by intro j hj; have : j = 0 := by omega
            subst this; exact le_refl _)
      rw [show 1 + (ns - 1) = ns by omega] at this
      refine ⟨_, rfl, rfl, ?_, ?_, ?_, ?_⟩
      · intro j hj; simp [aset, hj]
      · simpa [aset] using this.1
      · intro _; simpa [aset] using this.2
      · intro h; exact absurd h (by decide)
    · rw [dispatch_min cfg me k t s ns hop, if_neg (by omega)]
      have := min_loop_spec s (ns - 1) 1 (s 0) ⟨0, by omega, rfl⟩
        (by intro j hj; have : j = 0 := by omega
            subst this; exact le_refl _)
      rw [show 1 + (ns - 1) = ns by omega] at this
      refine ⟨_, rfl, rfl, ?_, ?_, ?_, ?_⟩
      · intro j hj; simp [aset, hj]
      · simpa [aset] using this.1
      · intro h; exact absurd h (by decide)
      · intro _; simpa [aset] using this.2
  · intro hns
    subst hns
    refine ⟨hzero me t s, ?_⟩
    intro d hk hn he
    subst hk
    have hd := hzero d.me cfg.results0 d.srcs
    rw [← hn] at hd
    rw [finish_dispatch_err cfg d _ he hd (by simp)]

/-- The witness of claim C16: the sources -1, 5, 2, 5 give `MAX` = 5 (`MAX` is
67 under the sample numbering). -/
theorem max_min_reduce_witness :
    ∃ r, dispatch sample_cfg (sample_vm [] 0 0) 67 (fun _ => 0)
        (fun i => [-1, 5, 2, 5].getD i 0) 4 = some r ∧
      (∃ j, j < 4 ∧ r.2 0 = (fun i => [-1, 5, 2, 5].getD i 0) j) ∧
      (∀ j, j < 4 → (fun i => [-1, 5, 2, 5].getD i 0) j ≤ r.2 0) ∧
      r.2 0 = 5 := by
  obtain ⟨r, hr, -, -, h3, h4, -⟩ := (max_min_reduce sample_cfg (sample_vm [] 0 0) 67 .MAX
    (fun _ => 0) (fun i => [-1, 5, 2, 5].getD i 0) 4 (by decide) (Or.inl rfl)).1 (by decide)
  refine ⟨r, hr, h3, h4 rfl, ?_⟩
  have h : dispatch sample_cfg (sample_vm [] 0 0) 67 (fun _ => 0)
      (fun i => [-1, 5, 2, 5].getD i 0) 4 = some (sample_vm [] 0 0, aset (fun _ => 0) 0 5) := rfl
  rw [h] at hr
  obtain rfl := Option.some.inj hr
  rfl

/-! ### The opspec table and the cases of the executor -/

theorem and_loop_congr (s s' : Nat → Int) : ∀ (k i : Nat) (r : Int),
    (∀ j, i ≤ j → j < i + k → s j = s' j) → and_loop s k i r = and_loop s' k i r := by
  intro k
  induction k with
  | zero => intro i r _; rfl
  | succ k ih =>
    intro i r h
    simp only [and_loop]
    rw [h i (le_refl _) (by omega), ih (i + 1) (s' i) (fun j h1 h2 => h j (by omega) (by omega))]

theorem or_loop_congr (s s' : Nat → Int) : ∀ (k i : Nat) (r : Int),
    (∀ j, i ≤ j → j < i + k → s j = s' j) → or_loop s k i r = or_loop s' k i r := by
  intro k
  induction k with
  | zero => intro i r _; rfl
  | succ k ih =>
    intro i r h
    simp only [or_loop]
    rw [h i (le_refl _) (by omega), ih (i + 1) (s' i) (fun j h1 h2 => h j (by omega) (by omega))]

theorem max_loop_congr (s s' : Nat → Int) : ∀ (k i : Nat) (v : Int),
    (∀ j, i ≤ j → j < i + k → s j = s' j) → max_loop s k i v = max_loop s' k i v := by
  intro k
  induction k with
  | zero => intro i v _; rfl
  | succ k ih =>
    intro i v h
    simp only [max_loop]
    rw [h i (le_refl _) (by omega), ih (i + 1) _ (fun j h1 h2 => h j (by omega) (by omega))]

theorem min_loop_congr (s s' : Nat → Int) : ∀ (k i : Nat) (v : Int),
    (∀ j, i ≤ j → j < i + k → s j = s' j) → min_loop s k i v = min_loop s' k i v := by
  intro k
  induction k with
  | zero => intro i v _; rfl
  | succ k ih =>
    intro i v h
    simp only [min_loop]
    rw [h i (le_refl _) (by omega), ih (i + 1) _ (fun j h1 h2 => h j (by omega) (by omega))]

theorem sys_call_congr (me : bajo_t) (t s s' : Nat → Int) (ns : Nat) (hns : 1 ≤ ns)
    (h : ∀ i, i < ns → s i = s' i) : sys_call me t s ns = sys_call me t s' ns := by
  have hargs : (List.range (ns - 1)).map (fun i => s (i + 1)) =
      (List.range (ns - 1)).map (fun i => s' (i + 1)) := by
    apply List.map_congr_left
    intro i hi
    exact h (i + 1) (by have := List.mem_range.1 hi; omega)
  simp only [sys_call, hargs, h 0 (by omega)]

theorem sys_call_err (me : bajo_t) (t s : Nat → Int) (ns : Nat) :
    (sys_call me t s ns).1.err =
      ((me.call me.mem (s 0) ((List.range (ns - 1)).map (fun i => s (i + 1)))).err).getD me.err := by
  simp only [sys_call]
  split <;> simp [*]

theorem sys_call_slot (me : bajo_t) (t s : Nat → Int) (ns j : Nat) :
    (sys_call me t s ns).2 j = t j ∨
      j < (me.call me.mem (s 0) ((List.range (ns - 1)).map (fun i => s (i + 1)))).res.length := by
  simp only [sys_call]
  by_cases h : j < (me.call me.mem (s 0) ((List.range (ns - 1)).map (fun i => s (i + 1)))).res.length
  · exact Or.inr h
  · exact Or.inl (by simp [h])

theorem dispatch_sys (cfg : Config) (me : bajo_t) (k : Nat) (op : opcode_t) (t s : Nat → Int)
    (ns : Nat) (hop : cfg.opcodes k = some op) (hsys : is_sys op = true) :
    dispatch cfg me k t s ns =
      if op = .SYS ∧ ns < 1 then some ({ me with err := BAJO_BAD_OPERAND }, t)
      else some (sys_call me t s ns) := by
  cases op <;> first
    | exact absurd hsys (by decide)
    | simp [dispatch, hop]

theorem dispatch_none (cfg : Config) (me : bajo_t) (k : Nat) (op : opcode_t) (t s : Nat → Int)
    (ns : Nat) (hop : cfg.opcodes k = some op) (h : dispatch cfg me k t s ns = none) :
    op = .DIV ∨ op = .DIV_U ∨ op = .REM ∨ op = .REM_U := by
  cases op <;> first
    | decide
    | (simp only [dispatch, hop] at h
       (repeat' split at h) <;> contradiction)

theorem dispatch_bug (cfg : Config) (me : bajo_t) (k : Nat) (op : opcode_t) (t s : Nat → Int)
    (ns : Nat) (r : bajo_t × (Nat → Int)) (hop : cfg.opcodes k = some op)
    (hr : dispatch cfg me k t s ns = some r) (h : r.1.err = BAJO_BUG) :
    me.err = BAJO_BUG ∨ (is_sys op = true ∧
      (me.call me.mem (s 0) ((List.range (ns - 1)).map (fun i => s (i + 1)))).err
        = some BAJO_BUG) := by
  by_cases hsys : is_sys op = true
  · rw [dispatch_sys cfg me k op t s ns hop hsys] at hr
    split at hr
    · obtain rfl := Option.some.inj hr
      simp at h
    · obtain rfl := Option.some.inj hr
      rw [sys_call_err] at h
      cases hc : (me.call me.mem (s 0) ((List.range (ns - 1)).map (fun i => s (i + 1)))).err with
      | none => rw [hc] at h; exact Or.inl h
      | some e => rw [hc] at h; exact Or.inr ⟨hsys, by simpa using h⟩
  · left
    cases op <;> first
      | exact absurd rfl hsys
      | (simp only [dispatch, hop] at hr
         (repeat' split at hr) <;> first
          | contradiction
          | (obtain rfl := Option.some.inj hr
             first
              | exact h
              | (simp at h)))

theorem dispatch_slots (cfg : Config) (me : bajo_t) (k : Nat) (op : opcode_t) (t s : Nat → Int)
    (ns j : Nat) (r : bajo_t × (Nat → Int)) (hop : cfg.opcodes k = some op)
    (hsys : is_sys op = false) (hj : spec_count (opspec op >>> 4) ≤ j)
    (hr : dispatch cfg me k t s ns = some r) : r.2 j = t j := by
  cases op <;> first
    | exact absurd hsys (by decide)
    | (simp only [dispatch, hop] at hr
       (repeat' split at hr) <;> first
        | contradiction
        | (obtain rfl := Option.some.inj hr
           first
            | rfl
            | (have hj2 : 2 ≤ j := Nat.le_trans (by decide) hj
               simp [aset, show j ≠ 0 by omega, show j ≠ 1 by omega])
            | (have hj1 : 1 ≤ j := Nat.le_trans (by decide) hj
               simp [aset, show j ≠ 0 by omega])))

theorem dispatch_congr (cfg : Config) (me : bajo_t) (k : Nat) (op : opcode_t)
    (t s s' : Nat → Int) (ns : Nat) (hop : cfg.opcodes k = some op)
    (hfix : opspec op &&& 0x0F ≠ OPD_VAR → ns = spec_count (opspec op &&& 0x0F))
    (hs : ∀ i, i < ns → s i = s' i) :
    dispatch cfg me k t s ns = dispatch cfg me k t s' ns := by
  by_cases hsys : is_sys op = true
  · rw [dispatch_sys cfg me k op t s ns hop hsys, dispatch_sys cfg me k op t s' ns hop hsys]
    by_cases h1 : 1 ≤ ns
    · rw [if_neg (by omega), if_neg (by omega), sys_call_congr me t s s' ns h1 hs]
    · have hv : op = .SYS := by
        by_contra hne
        have hn : ns = spec_count (opspec op &&& 0x0F) := hfix (by
          revert hsys hne
          cases op <;> decide)
        have : 1 ≤ spec_count (opspec op &&& 0x0F) := by
          revert hsys
          cases op <;> decide
        omega
      rw [if_pos ⟨hv, by omega⟩, if_pos ⟨hv, by omega⟩]
  · cases op <;> first
      | exact absurd rfl hsys
      | (simp only [dispatch, hop]
         done)
      | (simp only [dispatch, hop]
         by_cases h0 : ns = 0
         · rw [if_pos (by omega), if_pos (by omega)]
         · rw [if_neg (by omega), if_neg (by omega)]
           first
            | rw [and_loop_congr s s' ns 0 0 (fun j _ h => hs j (by omega))]
            | rw [or_loop_congr s s' ns 0 0 (fun j _ h => hs j (by omega))]
            | rw [max_loop_congr s s' (ns - 1) 1 (s 0) (fun j _ h => hs j (by omega)),
                hs 0 (by omega)]
            | rw [min_loop_congr s s' (ns - 1) 1 (s 0) (fun j _ h => hs j (by omega)),
                hs 0 (by omega)])
      | (have hn := hfix (by decide)
         have e0 : s 0 = s' 0 := hs 0 (by rw [hn]; decide)
         have e1 : s 1 = s' 1 := hs 1 (by rw [hn]; decide)
         have e2 : s 2 = s' 2 := hs 2 (by rw [hn]; decide)
         have e3 : s 3 = s' 3 := hs 3 (by rw [hn]; decide)
         simp only [dispatch, hop, e0, e1, e2, e3])
      | (have hn := hfix (by decide)
         have e0 : s 0 = s' 0 := hs 0 (by rw [hn]; decide)
         have e1 : s 1 = s' 1 := hs 1 (by rw [hn]; decide)
         have e2 : s 2 = s' 2 := hs 2 (by rw [hn]; decide)
         simp only [dispatch, hop, e0, e1, e2])
      | (have hn := hfix (by decide)
         have e0 : s 0 = s' 0 := hs 0 (by rw [hn]; decide)
         have e1 : s 1 = s' 1 := hs 1 (by rw [hn]; decide)
         simp only [dispatch, hop, e0, e1])
      | (have hn := hfix (by decide)
         have e0 : s 0 = s' 0 := hs 0 (by rw [hn]; decide)
         simp only [dispatch, hop, e0])

/-- Claim C20. For every opcode number whose `opspecs` entry is not SPEC_UNDEF:
both 4-bit fields of the entry lie in {0..8, 9, 10, 11}; `dispatch` has a case
for the opcode (the numbering names an opcode of the `switch`), so that `err`
is BUG after `dispatch` only if it was BUG before or the host call of a `SYS`
case set it, and `dispatch` is without a result only in the four division
cases; the result of the case depends on the sources only through the slots
below the source count (the count of the entry when it is fixed, the decoded
count when it is variable); and the case leaves alone every slot of `t` at or
above the target count of the entry, except that in a `SYS` case the host
writes the slots it chooses. -/
theorem opspec_entries_have_cases (cfg : Config) (k : Nat) (h : opspecs cfg k ≠ SPEC_UNDEF) :
    ∃ op, cfg.opcodes k = some op ∧ opspecs cfg k = opspec op ∧
      (opspec op >>> 4 ≤ 8 ∨ opspec op >>> 4 = OPD_VAR ∨ opspec op >>> 4 = OPD_1B ∨
        opspec op >>> 4 = OPD_1H) ∧
      (opspec op &&& 0x0F ≤ 8 ∨ opspec op &&& 0x0F = OPD_VAR ∨ opspec op &&& 0x0F = OPD_1B ∨
        opspec op &&& 0x0F = OPD_1H) ∧
      (∀ (me : bajo_t) (t s : Nat → Int) (ns : Nat) (r : bajo_t × (Nat → Int)),
        dispatch cfg me k t s ns = some r → r.1.err = BAJO_BUG →
        me.err = BAJO_BUG ∨ (is_sys op = true ∧
          (me.call me.mem (s 0) ((List.range (ns - 1)).map (fun i => s (i + 1)))).err
            = some BAJO_BUG)) ∧
      (∀ (me : bajo_t) (t s : Nat → Int) (ns : Nat),
        dispatch cfg me k t s ns = none →
        op = .DIV ∨ op = .DIV_U ∨ op = .REM ∨ op = .REM_U) ∧
      (∀ (me : bajo_t) (t s s' : Nat → Int) (ns : Nat),
        (opspec op &&& 0x0F ≠ OPD_VAR → ns = spec_count (opspec op &&& 0x0F)) →
        (∀ i, i < ns → s i = s' i) →
        dispatch cfg me k t s ns = dispatch cfg me k t s' ns) ∧
      (∀ (me : bajo_t) (t s : Nat → Int) (ns j : Nat) (r : bajo_t × (Nat → Int)),
        dispatch cfg me k t s ns = some r →
        (is_sys op = false → spec_count (opspec op >>> 4) ≤ j → r.2 j = t j) ∧
        (is_sys op = true →
          r.2 j = t j ∨
          j < (me.call me.mem (s 0) ((List.range (ns - 1)).map (fun i => s (i + 1)))).res.length))
      := by
  obtain ⟨op, hop, hspec⟩ := opspecs_defined cfg k h
  obtain ⟨hf1, hf2, -⟩ := opspec_fields op
  refine ⟨op, hop, hspec, hf1, hf2, ?_, ?_, ?_, ?_⟩
  · intro me t s ns r hr hb
    exact dispatch_bug cfg me k op t s ns r hop hr hb
  · intro me t s ns hn
    exact dispatch_none cfg me k op t s ns hop hn
  · intro me t s s' ns hfix hs
    exact dispatch_congr cfg me k op t s s' ns hop hfix hs
  · intro me t s ns j r hr
    constructor
    · intro hsys hj
      exact dispatch_slots cfg me k op t s ns j r hop hsys hj hr
    · intro hsys
      rw [dispatch_sys cfg me k op t s ns hop hsys] at hr
      split at hr
      · obtain rfl := Option.some.inj hr
        exact Or.inl rfl
      · obtain rfl := Option.some.inj hr
        exact sys_call_slot me t s ns j

/-- The witness of claim C20: the entry of `ADD` (opcode 0 under the sample
numbering). -/
theorem opspec_entries_have_cases_witness :
    ∃ op, sample_cfg.opcodes 0 = some op ∧ opspecs sample_cfg 0 = opspec op ∧
      (opspec op >>> 4 ≤ 8 ∨ opspec op >>> 4 = OPD_VAR ∨ opspec op >>> 4 = OPD_1B ∨
        opspec op >>> 4 = OPD_1H) ∧
      (opspec op &&& 0x0F ≤ 8 ∨ opspec op &&& 0x0F = OPD_VAR ∨ opspec op &&& 0x0F = OPD_1B ∨
        opspec op &&& 0x0F = OPD_1H) ∧
      (∀ (me : bajo_t) (t s : Nat → Int) (ns : Nat) (r : bajo_t × (Nat → Int)),
        dispatch sample_cfg me 0 t s ns = some r → r.1.err = BAJO_BUG →
        me.err = BAJO_BUG ∨ (is_sys op = true ∧
          (me.call me.mem (s 0) ((List.range (ns - 1)).map (fun i => s (i + 1)))).err
            = some BAJO_BUG)) ∧
      (∀ (me : bajo_t) (t s : Nat → Int) (ns : Nat),
        dispatch sample_cfg me 0 t s ns = none →
        op = .DIV ∨ op = .DIV_U ∨ op = .REM ∨ op = .REM_U) ∧
      (∀ (me : bajo_t) (t s s' : Nat → Int) (ns : Nat),
        (opspec op &&& 0x0F ≠ OPD_VAR → ns = spec_count (opspec op &&& 0x0F)) →
        (∀ i, i < ns → s i = s' i) →
        dispatch sample_cfg me 0 t s ns = dispatch sample_cfg me 0 t s' ns) ∧
      (∀ (me : bajo_t) (t s : Nat → Int) (ns j : Nat) (r : bajo_t × (Nat → Int)),
        dispatch sample_cfg me 0 t s ns = some r →
        (is_sys op = false → spec_count (opspec op >>> 4) ≤ j → r.2 j = t j) ∧
        (is_sys op = true →
          r.2 j = t j ∨
          j < (me.call me.mem (s 0) ((List.range (ns - 1)).map (fun i => s (i + 1)))).res.length))
      :=
  opspec_entries_have_cases sample_cfg 0 (by decide)

/-! ### Conditional branches -/

theorem dispatch_br (cfg : Config) (me : bajo_t) (k : Nat) (op : opcode_t) (t s : Nat → Int)
    (ns : Nat) (hop : cfg.opcodes k = some op)
    (hbr : op = .BR_EQ ∨ op = .BR_NE ∨ op = .BR_GT ∨ op = .BR_GE ∨ op = .BR_GT_U ∨
      op = .BR_GE_U) :
    dispatch cfg me k t s ns =
      some (if br_cond op (s 0) (s 1) = true then
          { me with pc := (me.pc + toU32 (s 2)) % 4294967296 }
        else me, t) := by
  rcases hbr with rfl | rfl | rfl | rfl | rfl | rfl <;>
    (simp only [dispatch, hop, br_cond, decide_eq_true_eq]
     split <;> rfl)

theorem br_opspec (op : opcode_t)
    (hbr : op = .BR_EQ ∨ op = .BR_NE ∨ op = .BR_GT ∨ op = .BR_GE ∨ op = .BR_GT_U ∨
      op = .BR_GE_U) : opspec op >>> 4 = 0 ∧ opspec op &&& 15 = 3 ∧ opspec op ≠ SPEC_UNDEF := by
  rcases hbr with rfl | rfl | rfl | rfl | rfl | rfl <;> decide

/-- The decoding half of a step on a conditional branch with three literal
sources. -/
theorem decode_branch (cfg : Config) (fuel : Nat) (me : bajo_t) (k : Nat) (op : opcode_t)
    (b0 : Nat) (tl0 : List Nat) (b1 : Nat) (tl1 : List Nat) (b2 : Nat) (tl2 : List Nat)
    (hk : k < 128) (hmax : k ≤ cfg.MAX_OPCODE) (hop : cfg.opcodes k = some op)
    (hbr : op = .BR_EQ ∨ op = .BR_NE ∨ op = .BR_GT ∨ op = .BR_GE ∨ op = .BR_GT_U ∨
      op = .BR_GE_U)
    (h0 : IsLit b0 tl0) (h1 : IsLit b1 tl1) (h2 : IsLit b2 tl2)
    (hmem : Holds me.mem me.pc (k :: b0 :: tl0 ++ (b1 :: tl1 ++ b2 :: tl2))) :
    bajo_decode cfg (fuel + 1) me = some (.ok
      { me := fetched (fetched (fetched
          (opcode_fetched me)
          (tl0.length + 1)) (tl1.length + 1)) (tl2.length + 1),
        opcode := k, ntgts := 0, tsize := 4, tgts := fun _ => 0, nsrcs := 3, ssize := 4,
        srcs := aset (aset (aset cfg.srcs0 0 (lit_value b0 tl0)) 1 (lit_value b1 tl1)) 2
          (lit_value b2 tl2) }) := by
  obtain ⟨-, -, hr, hm⟩ := opcode_byte_cases k hk
  obtain ⟨ht, hs, hne⟩ := br_opspec op hbr
  have hspec : opspecs cfg k = opspec op := by simp [opspecs, hop]
  have hload : load me.mem me.pc 1 = k := hmem.load_head (by omega)
  have hrest : Holds me.mem (me.pc + 1) ((b0 :: tl0) ++ ((b1 :: tl1) ++ (b2 :: tl2))) :=
    hmem.tail
  have e0 := read_src_islit fuel
    (opcode_fetched me) b0 tl0 h0
    (hrest.append_left.congr (by simp [opcode_fetched]))
  have e1 := read_src_islit fuel
    (fetched (opcode_fetched me) (tl0.length + 1)) b1 tl1 h1
    (hrest.append_right.append_left.congr (by simp [fetched, opcode_fetched]))
  have e2 := read_src_islit fuel
    (fetched (fetched (opcode_fetched me) (tl0.length + 1))
      (tl1.length + 1)) b2 tl2 h2
    (hrest.append_right.append_right.congr (by simp [fetched, opcode_fetched]))
  simp only [opcode_fetched] at e0 e1 e2 ⊢
  simp only [bajo_decode, hload, hm, hspec, bajo_t.read, ht, hs]
  rw [if_neg (by omega), if_neg hne, read_count_fixed _ _ _ _ (by decide)]
  simp only [read_tgts]
  rw [read_count_fixed _ _ _ _ (by decide)]
  simp only [hr, read_srcs, ne_eq, not_true_eq_false, decide_False, Bool.false_eq_true,
    false_and, ↓reduceIte, Nat.sub_zero]
  rw [e0]
  simp only []
  rw [e1]
  simp only []
  rw [e2]

/-- Claim C17. For each of `BR_EQ`, `BR_NE`, `BR_GT`, `BR_GE`, `BR_GT_U`,
`BR_GE_U` with three literal sources `s0`, `s1`, `s2` and initial program
counter `p`, `bajo_step` returns OK, leaves `err = OK`, writes nothing, and
leaves `pc = p + L + s2 (mod 2^32)` when the condition holds on `s0`, `s1` and
`pc = p + L (mod 2^32)` otherwise, `L` being the encoded length of the
instruction. -/
theorem branch_step (cfg : Config) (fuel : Nat) (me : bajo_t) (k : Nat) (op : opcode_t)
    (b0 : Nat) (tl0 : List Nat) (b1 : Nat) (tl1 : List Nat) (b2 : Nat) (tl2 : List Nat)
    (hk : k < 128) (hmax : k ≤ cfg.MAX_OPCODE) (hop : cfg.opcodes k = some op)
    (hbr : op = .BR_EQ ∨ op = .BR_NE ∨ op = .BR_GT ∨ op = .BR_GE ∨ op = .BR_GT_U ∨
      op = .BR_GE_U)
    (h0 : IsLit b0 tl0) (h1 : IsLit b1 tl1) (h2 : IsLit b2 tl2)
    (hmem : Holds me.mem me.pc (k :: b0 :: tl0 ++ (b1 :: tl1 ++ b2 :: tl2))) :
    ∃ me', bajo_step cfg (fuel + 1) me = some (BAJO_OK, me') ∧ me'.err = BAJO_OK ∧
      Quiet me me' ∧
      (br_cond op (lit_value b0 tl0) (lit_value b1 tl1) = true →
        (me'.pc : Int) =
          ((me.pc : Int) + (1 + (tl0.length + 1) + (tl1.length + 1) + (tl2.length + 1) : Nat)
            + lit_value b2 tl2) % 4294967296) ∧
      (br_cond op (lit_value b0 tl0) (lit_value b1 tl1) = false →
        me'.pc = (me.pc + (1 + (tl0.length + 1) + (tl1.length + 1) + (tl2.length + 1)))
          % 4294967296) := by
  have hd := decode_branch cfg fuel me k op b0 tl0 b1 tl1 b2 tl2 hk hmax hop hbr h0 h1 h2 hmem
  rw [bajo_step_eq, hd]
  simp only [bajo_finish, fetched_err]
  rw [if_neg (by simp [opcode_fetched]), dispatch_br cfg _ k op _ _ _ hop hbr]
  simp only [aset, if_true, if_false, OfNat.ofNat_ne_zero, OfNat.zero_ne_ofNat, one_ne_zero,
    zero_ne_one, OfNat.ofNat_ne_one, OfNat.one_ne_ofNat, Nat.succ_ne_self]
  have hq : Quiet me (fetched (fetched (fetched
      (opcode_fetched me)
      (tl0.length + 1)) (tl1.length + 1)) (tl2.length + 1)) :=
    ((((quiet_opcode me : Quiet me (opcode_fetched me)).trans (quiet_fetched _ _)).trans
      (quiet_fetched _ _)).trans (quiet_fetched _ _))
  cases hc : br_cond op (lit_value b0 tl0) (lit_value b1 tl1) with
  | true =>
    simp only [if_true, write_tgts]
    refine ⟨_, rfl, rfl, hq.trans (quiet_fields rfl rfl), ?_, ?_⟩
    · intro _
      simp only [fetched, opcode_fetched]
      have := toU32_cast (lit_value b2 tl2)
      omega
    · intro h; simp at h
  | false =>
    simp only [Bool.false_eq_true, if_false, write_tgts]
    refine ⟨_, rfl, rfl, hq, ?_, ?_⟩
    · intro h; simp at h
    · intro _
      simp only [fetched, opcode_fetched]
      omega

/-- The witness of claim C17: `BR_EQ 5, 5, +4` at `pc = 0` (bytes 30, 0x29, 0x29,
0x21 under the sample numbering, so `L = 4`) ends with `pc = L + 4`. -/
theorem branch_step_witness :
    ∃ me', bajo_step sample_cfg 1 (sample_vm [30, 0x29, 0x29, 0x21] 0 0) = some (BAJO_OK, me') ∧
      me'.err = BAJO_OK ∧ Quiet (sample_vm [30, 0x29, 0x29, 0x21] 0 0) me' ∧
      (br_cond .BR_EQ (lit_value 0x29 []) (lit_value 0x29 []) = true →
        (me'.pc : Int) = ((0 : Int) + (1 + (0 + 1) + (0 + 1) + (0 + 1) : Nat)
            + lit_value 0x21 []) % 4294967296) ∧
      (br_cond .BR_EQ (lit_value 0x29 []) (lit_value 0x29 []) = false →
        me'.pc = (0 + (1 + (0 + 1) + (0 + 1) + (0 + 1))) % 4294967296) :=
  branch_step sample_cfg 0 (sample_vm [30, 0x29, 0x29, 0x21] 0 0) 30 .BR_EQ 0x29 [] 0x29 []
    0x21 [] (by decide) (by decide) (by decide) (Or.inl rfl)
    (by unfold IsLit; decide) (by unfold IsLit; decide) (by unfold IsLit; decide)
    (holds_sample _ 0 0 (by decide))

/-- The scenario of claim C17 evaluated: the step on `BR_EQ 5, 5, +4` at
`pc = 0` returns OK and leaves `pc = 8`, having only read the four bytes of the
instruction. -/
theorem branch_taken_example :
    (bajo_step sample_cfg 1 (sample_vm [30, 0x29, 0x29, 0x21] 0 0)).map
      (fun r => (r.1, r.2.pc, r.2.err, r.2.trace)) =
      some (BAJO_OK, 8, BAJO_OK,
        [Event.read 0 1, Event.read 1 1, Event.read 2 1, Event.read 3 1]) := by
  decide

/-! ### Read-modify-write -/

theorem store_other : ∀ (len : Nat) (mem : Nat → Nat) (a v addr : Nat),
    (∀ i, i < len → addr ≠ (a + i) % 4294967296) → store mem a v len addr = mem addr := by
  intro len
  induction len with
  | zero => intro mem a v addr _; rfl
  | succ l ih =>
    intro mem a v addr h
    simp only [store]
    rw [ih _ (a + 1) (v / 256) addr (fun i hi => by
      have := h (i + 1) (by omega)
      rw [show a + 1 + i = a + (i + 1) by omega]
      exact this)]
    have := h 0 (by omega)
    simp only [Nat.add_zero] at this
    rw [if_neg this]

theorem load_store_word (mem : Nat → Nat) (a v : Nat) :
    load (store mem a v 4) a 4 = v % 4294967296 := by
  have e0 : store mem a v 4 (a % 4294967296) = v % 256 := by
    simp only [store]
    split_ifs <;> first | rfl | omega
  have e1 : store mem a v 4 ((a + 1) % 4294967296) = v / 256 % 256 := by
    simp only [store]
    split_ifs <;> first | rfl | omega
  have e2 : store mem a v 4 ((a + 1 + 1) % 4294967296) = v / 256 / 256 % 256 := by
    simp only [store]
    split_ifs <;> first | rfl | omega
  have e3 : store mem a v 4 ((a + 1 + 1 + 1) % 4294967296) = v / 256 / 256 / 256 % 256 := by
    simp only [store]
    split_ifs <;> rfl
  simp only [load, e0, e1, e2, e3]
  omega

theorem add_opspec : opspec .ADD >>> 4 = 1 ∧ opspec .ADD &&& 15 = 2 ∧ opspec .ADD ≠ SPEC_UNDEF := by
  decide

/-- The decoding half of a step on `ADD` with the RMW bit, a direct target and
one literal source. -/
theorem decode_rmw_add (cfg : Config) (fuel : Nat) (me : bajo_t) (k : Nat)
    (bt : Nat) (tlt : List Nat) (b0 : Nat) (tl0 : List Nat)
    (hk : k < 128) (hmax : k ≤ cfg.MAX_OPCODE) (hop : cfg.opcodes k = some .ADD)
    (ht : IsDirect bt tlt) (h0 : IsLit b0 tl0)
    (hmem : Holds me.mem me.pc ((k + 128) :: bt :: tlt ++ b0 :: tl0)) :
    bajo_decode cfg (fuel + 1) me = some (.ok
      { me := fetched ((fetched (opcode_fetched me) (tlt.length + 1)).read (dst_base bt tlt) 4)
          (tl0.length + 1),
        opcode := k, ntgts := 1, tsize := 4,
        tgts := fun j => if j = 0 then dst_base bt tlt else 0,
        nsrcs := 2, ssize := 4,
        srcs := aset (aset cfg.srcs0 0 (toS32 (load me.mem (dst_base bt tlt) 4))) 1
          (lit_value b0 tl0) }) := by
  obtain ⟨hr, hm, -, -⟩ := opcode_byte_cases k hk
  obtain ⟨hts, hss, hne⟩ := add_opspec
  have hspec : opspecs cfg k = opspec .ADD := by simp [opspecs, hop]
  have hload : load me.mem me.pc 1 = k + 128 := hmem.load_head (by omega)
  have hrest : Holds me.mem (me.pc + 1) ((bt :: tlt) ++ (b0 :: tl0)) := hmem.tail
  have et := read_dst_direct (fuel + 1) (opcode_fetched me) bt tlt ht
    (hrest.append_left.congr (by simp [opcode_fetched]))
  have e0 := read_src_islit fuel
    ((fetched (opcode_fetched me) (tlt.length + 1)).read (dst_base bt tlt) 4) b0 tl0 h0
    (hrest.append_right.congr (by simp [fetched, opcode_fetched, bajo_t.read]))
  have hu : toU32 (toS32 (dst_base bt tlt)) = dst_base bt tlt := by
    rw [toU32_toS32, Nat.mod_eq_of_lt (dst_base_lt bt tlt)]
  simp only [opcode_fetched] at et e0 ⊢
  simp only [bajo_decode, hload, hm, hspec, hts, hss]
  rw [if_neg (by omega), if_neg hne, read_count_fixed _ _ _ _ (by decide)]
  simp only [read_tgts, bajo_t.read] at et ⊢
  rw [et]
  simp only []
  rw [read_count_fixed _ _ _ _ (by decide)]
  simp only [hr, read_srcs, ne_eq, not_false_eq_true, decide_True, true_and, ↓reduceIte,
    OfNat.ofNat_ne_zero, one_ne_zero, or_self, hu, Nat.add_one_sub_one, fetched_mem,
    bajo_t.read] at e0 ⊢
  rw [e0]

/-- Claim C18. One `bajo_step` of `ADD` with the RMW bit set, a direct target
operand naming the address `a = dst_base bt tlt` and one literal source `k`
returns OK and leaves `read(a, 4) = x + k (mod 2^32)`, `x` being the word at
`a` before the step: source 0 is fetched from the target's address (the read
`read(a, 4)` in the trace, between the bytes of the target operand and those of
the source operand), one source operand is consumed from the stream, and every
byte of memory outside the word at `a` is unchanged. -/
theorem rmw_add_step (cfg : Config) (fuel : Nat) (me : bajo_t) (k : Nat)
    (bt : Nat) (tlt : List Nat) (b0 : Nat) (tl0 : List Nat)
    (hk : k < 128) (hmax : k ≤ cfg.MAX_OPCODE) (hop : cfg.opcodes k = some .ADD)
    (ht : IsDirect bt tlt) (h0 : IsLit b0 tl0)
    (hmem : Holds me.mem me.pc ((k + 128) :: bt :: tlt ++ b0 :: tl0)) :
    ∃ me', bajo_step cfg (fuel + 1) me = some (BAJO_OK, me') ∧ me'.err = BAJO_OK ∧
      load me'.mem (dst_base bt tlt) 4 =
        (load me.mem (dst_base bt tlt) 4 + toU32 (lit_value b0 tl0)) % 4294967296 ∧
      (∀ addr, (∀ i, i < 4 → addr ≠ (dst_base bt tlt + i) % 4294967296) →
        me'.mem addr = me.mem addr) ∧
      me'.pc = (me.pc + (1 + (tlt.length + 1) + (tl0.length + 1))) % 4294967296 ∧
      me'.trace =
        (fetched ((fetched (opcode_fetched me) (tlt.length + 1)).read (dst_base bt tlt) 4)
          (tl0.length + 1)).trace ++
        [Event.write (dst_base bt tlt)
          ((load me.mem (dst_base bt tlt) 4 + toU32 (lit_value b0 tl0)) % 4294967296) 4] := by
  have hd := decode_rmw_add cfg fuel me k bt tlt b0 tl0 hk hmax hop ht h0 hmem
  have hx := load_lt me.mem 4 (dst_base bt tlt)
  have hv : toU32 (wrap32 (toS32 (load me.mem (dst_base bt tlt) 4) + lit_value b0 tl0)) =
      (load me.mem (dst_base bt tlt) 4 + toU32 (lit_value b0 tl0)) % 4294967296 := by
    norm_num at hx
    generalize load me.mem (dst_base bt tlt) 4 = x at hx ⊢
    generalize lit_value b0 tl0 = c
    unfold wrap32 toS32 toU32
    split <;> split <;> omega
  rw [bajo_step_eq, hd]
  simp only [bajo_finish, fetched_err]
  rw [if_neg (by simp [opcode_fetched, bajo_t.read, fetched])]
  simp only [dispatch, hop, aset, if_true, if_false, one_ne_zero, zero_ne_one, write_tgts,
    bajo_t.write, hv]
  rw [if_neg (by simp [opcode_fetched, bajo_t.read, fetched])]
  refine ⟨_, rfl, ?_, ?_, ?_, ?_, ?_⟩
  · simp [opcode_fetched, bajo_t.read, fetched]
  · simp only [fetched_mem, bajo_t.read, opcode_fetched]
    rw [load_store_word, Nat.mod_mod]
  · intro addr ha
    simp only [fetched_mem, bajo_t.read, opcode_fetched]
    exact store_other 4 me.mem _ _ addr ha
  · simp only [fetched, bajo_t.read, opcode_fetched]
    omega
  · rfl

/-- The witness of claim C18: the word 41 at 0x300 and the literal 1 give 42
(`ADD` is opcode 0 under the sample numbering; the bytes are 0x80, 0x02, 0x0C,
0x09). -/
theorem rmw_add_step_witness :
    ∃ me', bajo_step sample_cfg 1
        { sample_vm [] 0 0 with
          mem := fun a => if a = 0x300 then 41 else [0x80, 0x02, 0x0C, 0x09].getD a 0 }
        = some (BAJO_OK, me') ∧ me'.err = BAJO_OK ∧
      load me'.mem (dst_base 0x02 [0x0C]) 4 =
        (load (fun a => if a = 0x300 then 41 else [0x80, 0x02, 0x0C, 0x09].getD a 0)
          (dst_base 0x02 [0x0C]) 4 + toU32 (lit_value 0x09 [])) % 4294967296 ∧
      dst_base 0x02 [0x0C] = 0x300 ∧
      (load (fun a => if a = 0x300 then 41 else [0x80, 0x02, 0x0C, 0x09].getD a 0)
          (dst_base 0x02 [0x0C]) 4 + toU32 (lit_value 0x09 [])) % 4294967296 = 42 := by
  obtain ⟨me', h1, h2, h3, -⟩ := rmw_add_step sample_cfg 0
    { sample_vm [] 0 0 with
      mem := fun a => if a = 0x300 then 41 else [0x80, 0x02, 0x0C, 0x09].getD a 0 }
    0 0x02 [0x0C] 0x09 [] (by decide) (by decide) (by decide)
    (by unfold IsDirect; decide) (by unfold IsLit; decide) (by unfold Holds; decide)
  exact ⟨me', h1, h2, h3, by decide, by decide⟩

/-! ### The order of the host callbacks -/

theorem var_src_opspec (op : opcode_t)
    (h : op = .AND ∨ op = .OR ∨ op = .MAX ∨ op = .MIN) :
    opspec op >>> 4 = 1 ∧ opspec op &&& 15 = OPD_VAR ∧ opspec op ≠ SPEC_UNDEF := by
  rcases h with rfl | rfl | rfl | rfl <;> decide

/-- Claim C19, what the code does instead. On `AND`, `OR`, `MAX` or `MIN`
fetched with the RMW bit set, with a direct target operand and a source count
operand that is a literal of value 0, `bajo_step` decodes the target (address
`dst_base bt tlt`) and then takes the exit
`return (me->err == BAJO_BAD_OPERAND)`: it returns OK, and the callbacks of the
step are the reads of the instruction bytes only, with no write for the decoded
target. -/
theorem rmw_zero_sources_skips_write (cfg : Config) (fuel : Nat) (me : bajo_t) (k : Nat)
    (op : opcode_t) (bt : Nat) (tlt : List Nat) (b0 : Nat) (tl0 : List Nat)
    (hk : k < 128) (hmax : k ≤ cfg.MAX_OPCODE) (hop : cfg.opcodes k = some op)
    (hvar : op = .AND ∨ op = .OR ∨ op = .MAX ∨ op = .MIN)
    (ht : IsDirect bt tlt) (h0 : IsLit b0 tl0) (hz : lit_value b0 tl0 = 0)
    (hmem : Holds me.mem me.pc ((k + 128) :: bt :: tlt ++ b0 :: tl0)) :
    read_tgts (fuel + 1) 1 0 (opcode_fetched me) (fun _ => 0) =
      some (fetched (opcode_fetched me) (tlt.length + 1),
        fun j => if j = 0 then dst_base bt tlt else 0) ∧
    bajo_step cfg (fuel + 1) me =
      some (BAJO_OK, fetched (fetched (opcode_fetched me) (tlt.length + 1)) (tl0.length + 1)) ∧
    Quiet me (fetched (fetched (opcode_fetched me) (tlt.length + 1)) (tl0.length + 1)) := by
  obtain ⟨hr, hm, -, -⟩ := opcode_byte_cases k hk
  obtain ⟨hts, hss, hne⟩ := var_src_opspec op hvar
  have hspec : opspecs cfg k = opspec op := by simp [opspecs, hop]
  have hload : load me.mem me.pc 1 = k + 128 := hmem.load_head (by omega)
  have hrest : Holds me.mem (me.pc + 1) ((bt :: tlt) ++ (b0 :: tl0)) := hmem.tail
  have et := read_dst_direct (fuel + 1) (opcode_fetched me) bt tlt ht
    (hrest.append_left.congr (by simp [opcode_fetched]))
  have hu : toU32 (toS32 (dst_base bt tlt)) = dst_base bt tlt := by
    rw [toU32_toS32, Nat.mod_eq_of_lt (dst_base_lt bt tlt)]
  have htg : read_tgts (fuel + 1) 1 0 (opcode_fetched me) (fun _ => 0) =
      some (fetched (opcode_fetched me) (tlt.length + 1),
        fun j => if j = 0 then dst_base bt tlt else 0) := by
    simp only [read_tgts, et, hu]
  have ec := read_count_var_lit fuel (fetched (opcode_fetched me) (tlt.length + 1)) MAX_SRCS
    b0 tl0 h0.1 h0.2.1 h0.2.2.1 h0.2.2.2.1
    (hrest.append_right.congr (by simp [fetched, opcode_fetched])) h0.2.2.2.2
    (by rw [hz]; decide)
  refine ⟨htg, ?_, ((quiet_opcode me : Quiet me (opcode_fetched me)).trans
    (quiet_fetched _ _)).trans (quiet_fetched _ _)⟩
  simp only [opcode_fetched] at htg ec ⊢
  simp only [bajo_step, hload, hm, hspec, hts, hss, bajo_t.read]
  rw [if_neg (by omega), if_neg hne, read_count_fixed _ _ _ _ (by decide)]
  simp only []
  rw [htg]
  simp only []
  rw [ec]
  simp [hr, hz, toU32, fetched]

/-- The witness of the theorem for claim C19: `MAX` with the RMW bit (byte 195
under the sample numbering), the target 0x100 (bytes 0x02, 0x04) and the source
count 0 (byte 0x01). -/
theorem rmw_zero_sources_skips_write_witness :
    (bajo_step sample_cfg 1 (sample_vm [195, 0x02, 0x04, 0x01] 0 0)).map
      (fun r => (r.1, r.2.err, r.2.trace)) =
      some (BAJO_OK, BAJO_OK,
        [Event.read 0 1, Event.read 1 1, Event.read 2 1, Event.read 3 1]) := by
  rw [(rmw_zero_sources_skips_write sample_cfg 0 (sample_vm [195, 0x02, 0x04, 0x01] 0 0) 67
    .MAX 0x02 [0x04] 0x01 [] (by decide) (by decide) (by decide) (Or.inr (Or.inr (Or.inl rfl)))
    (by unfold IsDirect; decide) (by unfold IsLit; decide) (by decide)
    (holds_sample _ 0 0 (by decide))).2.1]
  decide

/-! ### The order of the callbacks in a step that goes through the executor -/

theorem Reads.none (me : bajo_t) : Reads me me := ⟨[], by simp, by intro e he; simp at he⟩

theorem Reads.append {a b c : bajo_t} (h1 : Reads a b) (h2 : Reads b c) : Reads a c := by
  obtain ⟨e1, t1, w1⟩ := h1
  obtain ⟨e2, t2, w2⟩ := h2
  refine ⟨e1 ++ e2, by rw [t2, t1, List.append_assoc], ?_⟩
  intro e he
  rcases List.mem_append.1 he with h | h
  · exact w1 e h
  · exact w2 e h

theorem reads_read (me : bajo_t) (a l : Nat) : Reads me (me.read a l) :=
  ⟨[Event.read a l], rfl, by intro e he; simp at he; exact ⟨a, l, he⟩⟩

theorem reads_fields {me me' : bajo_t} (ht : me'.trace = me.trace) : Reads me me' :=
  ⟨[], by simp [ht], by intro e he; simp at he⟩

theorem reads_fetched (me : bajo_t) (n : Nat) : Reads me (fetched me n) := by
  refine ⟨_, rfl, ?_⟩
  intro e he
  simp only [List.mem_cons] at he
  rcases he with rfl | he
  · exact ⟨_, _, rfl⟩
  · split at he
    · simp only [List.mem_singleton] at he
      exact ⟨_, _, he⟩
    · simp at he

theorem reads_opcode (me : bajo_t) : Reads me (opcode_fetched me) :=
  ⟨[Event.read me.pc 1], rfl, by intro e he; simp at he; exact ⟨_, _, he⟩⟩

theorem read_src_reads : ∀ (fuel : Nat) (me : bajo_t) (size : Nat) (v : Int) (me' : bajo_t),
    read_src fuel me size = some (v, me') → Reads me me' := by
  intro fuel
  induction fuel with
  | zero => intro me size v me' h; simp [read_src] at h
  | succ n ih =>
    intro me size v me' h
    by_cases hb : load me.mem me.pc 1 % 32 = 0
    · rw [read_src_bad n me size hb] at h
      simp only [Option.some.injEq, Prod.mk.injEq] at h
      obtain ⟨-, rfl⟩ := h
      exact ⟨[Event.read me.pc 1], rfl, by intro e he; simp at he; exact ⟨_, _, he⟩⟩
    · have h5 := (size_byte_cases _ (load_one_lt me.mem me.pc)).1.2 hb
      rw [read_src_unfold n me size _ rfl h5] at h
      simp only [] at h
      split at h
      · simp only [Option.some.injEq, Prod.mk.injEq] at h
        obtain ⟨-, rfl⟩ := h
        exact reads_fetched _ _
      · split at h
        · split at h
          · exact absurd h (by simp)
          · rename_i off me2 heq
            simp only [Option.some.injEq, Prod.mk.injEq] at h
            obtain ⟨-, rfl⟩ := h
            exact (((reads_fetched _ _).append (reads_read _ _ _)).append (ih _ _ _ _ heq)).append
              (reads_read _ _ _)
        · simp only [Option.some.injEq, Prod.mk.injEq] at h
          obtain ⟨-, rfl⟩ := h
          exact (reads_fetched _ _).append (reads_read _ _ _)

theorem read_dst_reads (fuel : Nat) (me : bajo_t) (v : Int) (me' : bajo_t)
    (h : read_dst fuel me = some (v, me')) : Reads me me' := by
  by_cases hb : load me.mem me.pc 1 % 32 = 0
  · rw [read_dst_bad fuel me hb] at h
    simp only [Option.some.injEq, Prod.mk.injEq] at h
    obtain ⟨-, rfl⟩ := h
    exact ⟨[Event.read me.pc 1], rfl, by intro e he; simp at he; exact ⟨_, _, he⟩⟩
  · have h5 := (size_byte_cases _ (load_one_lt me.mem me.pc)).1.2 hb
    rw [read_dst_unfold fuel me _ rfl h5] at h
    simp only [] at h
    split at h
    · split at h
      · exact absurd h (by simp)
      · rename_i off me2 heq
        simp only [Option.some.injEq, Prod.mk.injEq] at h
        obtain ⟨-, rfl⟩ := h
        exact ((reads_fetched _ _).append (reads_read _ _ _)).append (read_src_reads _ _ _ _ _ heq)
    · simp only [Option.some.injEq, Prod.mk.injEq] at h
      obtain ⟨-, rfl⟩ := h
      exact reads_fetched _ _

theorem read_count_reads (fuel : Nat) (me : bajo_t) (spec maxn : Nat) (me' : bajo_t)
    (r : Option (Nat × Nat)) (h : read_count fuel me spec maxn = some (me', r)) :
    Reads me me' := by
  simp only [read_count] at h
  split at h
  · split at h
    · exact absurd h (by simp)
    · rename_i v me2 heq
      have hq := read_src_reads _ _ _ _ _ heq
      split at h
      · simp only [Option.some.injEq, Prod.mk.injEq] at h
        obtain ⟨rfl, -⟩ := h
        exact hq.append (reads_fields rfl)
      · simp only [Option.some.injEq, Prod.mk.injEq] at h
        obtain ⟨rfl, -⟩ := h
        exact hq
  · split at h
    · simp only [Option.some.injEq, Prod.mk.injEq] at h
      obtain ⟨rfl, -⟩ := h
      exact Reads.none _
    · split at h
      · simp only [Option.some.injEq, Prod.mk.injEq] at h
        obtain ⟨rfl, -⟩ := h
        exact Reads.none _
      · simp only [Option.some.injEq, Prod.mk.injEq] at h
        obtain ⟨rfl, -⟩ := h
        exact Reads.none _

theorem read_count_size (fuel : Nat) (me : bajo_t) (spec maxn : Nat) (me' : bajo_t)
    (n size : Nat) (h : read_count fuel me spec maxn = some (me', some (n, size))) :
    (spec ≠ OPD_VAR → me' = me) := by
  intro hs
  simp only [read_count] at h
  rw [if_neg hs] at h
  split at h
  · simp only [Option.some.injEq, Prod.mk.injEq] at h
    exact h.1.symm
  · split at h
    · simp only [Option.some.injEq, Prod.mk.injEq] at h
      exact h.1.symm
    · simp only [Option.some.injEq, Prod.mk.injEq] at h
      exact h.1.symm

/-- The loop over the targets decodes them in increasing index, each decoding
appending its own reads. -/
theorem read_tgts_groups (fuel : Nat) : ∀ (k i : Nat) (me : bajo_t) (tgts : Nat → Nat)
    (me' : bajo_t) (tgts' : Nat → Nat),
    read_tgts fuel k i me tgts = some (me', tgts') →
    ∃ tg : List (List Event), tg.length = k ∧ DecodesTgts fuel tgts' i me tg me' ∧
      (∀ g ∈ tg, AllReads g) ∧ me'.trace = me.trace ++ tg.flatten ∧
      ∀ j, j < i → tgts' j = tgts j := by
  intro k
  induction k with
  | zero =>
    intro i me tgts me' tgts' h
    simp only [read_tgts, Option.some.injEq, Prod.mk.injEq] at h
    obtain ⟨rfl, rfl⟩ := h
    exact ⟨[], rfl, rfl, by intro g hg; simp at hg, by simp, fun _ _ => rfl⟩
  | succ k ih =>
    intro i me tgts me' tgts' h
    simp only [read_tgts] at h
    split at h
    · exact absurd h (by simp)
    · rename_i v m1 heq
      obtain ⟨g, hg, hr⟩ := read_dst_reads _ _ _ _ heq
      obtain ⟨tg, hlen, hdec, hall, htr, hkeep⟩ := ih _ _ _ _ _ h
      refine ⟨g :: tg, by simp [hlen], ⟨v, m1, heq, hg, ?_, hdec⟩, ?_, ?_, ?_⟩
      · rw [hkeep i (by omega)]
        simp
      · intro g' hg'
        rcases List.mem_cons.1 hg' with rfl | h'
        · exact hr
        · exact hall g' h'
      · rw [htr, hg, List.flatten_cons, List.append_assoc]
      · intro j hj
        rw [hkeep j (by omega)]
        simp [show j ≠ i by omega]

/-- The loop over the sources decodes them in increasing index, each decoding
appending its own reads. -/
theorem read_srcs_groups (fuel ssize : Nat) : ∀ (k i : Nat) (me : bajo_t) (srcs : Nat → Int)
    (me' : bajo_t) (srcs' : Nat → Int),
    read_srcs fuel ssize k i me srcs = some (me', srcs') →
    ∃ sg : List (List Event), sg.length = k ∧ DecodesSrcs fuel ssize srcs' i me sg me' ∧
      (∀ g ∈ sg, AllReads g) ∧ me'.trace = me.trace ++ sg.flatten ∧
      ∀ j, j < i → srcs' j = srcs j := by
  intro k
  induction k with
  | zero =>
    intro i me srcs me' srcs' h
    simp only [read_srcs, Option.some.injEq, Prod.mk.injEq] at h
    obtain ⟨rfl, rfl⟩ := h
    exact ⟨[], rfl, rfl, by intro g hg; simp at hg, by simp, fun _ _ => rfl⟩
  | succ k ih =>
    intro i me srcs me' srcs' h
    simp only [read_srcs] at h
    split at h
    · exact absurd h (by simp)
    · rename_i v m1 heq
      obtain ⟨g, hg, hr⟩ := read_src_reads _ _ _ _ _ heq
      obtain ⟨sg, hlen, hdec, hall, htr, hkeep⟩ := ih _ _ _ _ _ h
      refine ⟨g :: sg, by simp [hlen], ⟨v, m1, heq, hg, ?_, hdec⟩, ?_, ?_, ?_⟩
      · rw [hkeep i (by omega)]
        simp [aset]
      · intro g' hg'
        rcases List.mem_cons.1 hg' with rfl | h'
        · exact hr
        · exact hall g' h'
      · rw [htr, hg, List.flatten_cons, List.append_assoc]
      · intro j hj
        rw [hkeep j (by omega)]
        simp [aset, show j ≠ i by omega]

theorem write_tgts_trace (tgts : Nat → Nat) (results : Nat → Int) (tsize : Nat) :
    ∀ (k i : Nat) (me : bajo_t),
      (write_tgts tgts results tsize k i me).trace =
        me.trace ++ (List.range k).map
          (fun j => Event.write (tgts (i + j)) (toU32 (results (i + j))) tsize) := by
  intro k
  induction k with
  | zero => intro i me; simp [write_tgts]
  | succ k ih =>
    intro i me
    simp only [write_tgts]
    rw [ih (i + 1), List.range_succ_eq_map, List.map_cons, List.map_map]
    simp only [bajo_t.write, List.append_assoc, List.singleton_append, Nat.add_zero]
    congr 2
    apply List.map_congr_left
    intro j _
    simp only [Function.comp_apply]
    rw [show i + 1 + j = i + (j + 1) by omega]

theorem dispatch_trace (cfg : Config) (me : bajo_t) (k : Nat) (op : opcode_t) (t s : Nat → Int)
    (ns : Nat) (r : bajo_t × (Nat → Int)) (hop : cfg.opcodes k = some op)
    (hr : dispatch cfg me k t s ns = some r) (herr : r.1.err = BAJO_OK) :
    (is_sys op = true → r.1.trace =
      me.trace ++ [Event.call (s 0) ((List.range (ns - 1)).map (fun i => s (i + 1)))]) ∧
    (is_sys op = false → r.1.trace = me.trace) := by
  constructor
  · intro hsys
    rw [dispatch_sys cfg me k op t s ns hop hsys] at hr
    split at hr
    · obtain rfl := Option.some.inj hr
      simp at herr
    · obtain rfl := Option.some.inj hr
      simp only [sys_call]
      split <;> rfl
  · intro hsys
    cases op <;> first
      | exact absurd hsys (by decide)
      | (simp only [dispatch, hop] at hr
         (repeat' split at hr) <;> first
          | contradiction
          | (obtain rfl := Option.some.inj hr
             rfl))

theorem finish_ok_inv (cfg : Config) (d : Decoded) (me' : bajo_t)
    (h : bajo_finish cfg d = some (BAJO_OK, me')) :
    d.me.err = BAJO_OK ∧
    ∃ r, dispatch cfg d.me d.opcode cfg.results0 d.srcs d.nsrcs = some r ∧
      r.1.err = BAJO_OK ∧ me' = write_tgts d.tgts r.2 d.tsize d.ntgts 0 r.1 := by
  simp only [bajo_finish] at h
  split at h
  · rename_i h0
    simp only [Option.some.injEq, Prod.mk.injEq] at h
    exact absurd h.1 h0
  · rename_i h0
    split at h
    · exact absurd h (by simp)
    · rename_i r hr
      split at h
      · rename_i h1
        simp only [Option.some.injEq, Prod.mk.injEq] at h
        exact absurd h.1 h1
      · rename_i h1
        simp only [Option.some.injEq, Prod.mk.injEq] at h
        exact ⟨not_not.1 h0, r, hr, not_not.1 h1, h.2.symm⟩

/-- The order of the host callbacks in a step that goes through the executor
and returns OK (every step that returns OK except through the exit of the RMW
operand check): after the read of the opcode byte come the reads `tc` of the
target count operand, then the reads of the targets in increasing index
(`tg`, one group per target), then the reads `sc` of the source count operand,
then, with the RMW bit, the read of the first target's address (`rm`), then the
reads of the remaining sources in increasing index (`sg`, one group per
source), then the host call `cl` (one call for a `SYS` opcode, none
otherwise), and last one write per target, in increasing index, at the decoded
addresses, of the results `r.2` of `dispatch`. -/
theorem step_ok_event_order (cfg : Config) (fuel : Nat) (me : bajo_t) (d : Decoded)
    (me' : bajo_t) (hd : bajo_decode cfg fuel me = some (.ok d))
    (hs : bajo_step cfg fuel me = some (BAJO_OK, me')) :
    ∃ (tc sc rm cl : List Event) (tg sg : List (List Event)) (m1 m2 m3 : bajo_t)
      (op : opcode_t) (r : bajo_t × (Nat → Int)),
      cfg.opcodes d.opcode = some op ∧
      dispatch cfg d.me d.opcode cfg.results0 d.srcs d.nsrcs = some r ∧
      m1.trace = (opcode_fetched me).trace ++ tc ∧ AllReads tc ∧
      DecodesTgts fuel d.tgts 0 m1 tg m2 ∧ tg.length = d.ntgts ∧ (∀ g ∈ tg, AllReads g) ∧
      m3.trace = m2.trace ++ sc ++ rm ∧ AllReads sc ∧
      (load me.mem me.pc 1 &&& 0x80 ≠ 0 → rm = [Event.read (d.tgts 0) d.ssize]) ∧
      (load me.mem me.pc 1 &&& 0x80 = 0 → rm = []) ∧
      DecodesSrcs fuel d.ssize d.srcs rm.length m3 sg d.me ∧
      rm.length + sg.length = d.nsrcs ∧ (∀ g ∈ sg, AllReads g) ∧
      (is_sys op = true → cl = [Event.call (d.srcs 0)
        ((List.range (d.nsrcs - 1)).map (fun i => d.srcs (i + 1)))]) ∧
      (is_sys op = false → cl = []) ∧
      me'.trace = me.trace ++ [Event.read me.pc 1] ++ tc ++ tg.flatten ++ sc ++ rm ++
        sg.flatten ++ cl ++
        (List.range d.ntgts).map (fun i => Event.write (d.tgts i)
          (toU32 (r.2 i)) d.tsize) := by
  rw [bajo_step_eq, hd] at hs
  simp only [] at hs
  obtain ⟨he0, r, hdr, he1, hme'⟩ := finish_ok_inv cfg d me' hs
  simp only [bajo_decode] at hd
  split at hd
  · simp at hd
  split at hd
  · simp at hd
  rename_i hmax hspec
  obtain ⟨op, hop, -⟩ := opspecs_defined cfg _ hspec
  split at hd
  · simp at hd
  · simp at hd
  rename_i m1 ntgts tsize hc1
  split at hd
  · simp at hd
  rename_i m2 tgts ht
  split at hd
  · simp at hd
  · simp at hd
  rename_i m3 nsrcs ssize hc2
  split at hd
  · simp at hd
  rename_i hrmw
  split at hd
  · simp at hd
  rename_i m5 srcs hsr
  simp only [Option.some.injEq, Except.ok.injEq] at hd
  subst hd
  simp only at he0 he1 hme' hop hdr ⊢
  obtain ⟨tc, htc, hrtc⟩ := read_count_reads _ _ _ _ _ _ hc1
  obtain ⟨tg, htglen, htgdec, htgall, htgtr, -⟩ := read_tgts_groups _ _ _ _ _ _ _ ht
  obtain ⟨sc, hsc, hrsc⟩ := read_count_reads _ _ _ _ _ _ hc2
  obtain ⟨sg, hsglen, hsgdec, hsgall, hsgtr, hkeep⟩ := read_srcs_groups _ _ _ _ _ _ _ _ hsr
  obtain ⟨hcl1, hcl2⟩ := dispatch_trace cfg m5 _ op cfg.results0 srcs nsrcs r hop hdr he1
  have hwr := write_tgts_trace tgts r.2 tsize ntgts 0 r.1
  simp only [Nat.zero_add] at hwr
  by_cases hr : load me.mem me.pc 1 &&& 0x80 ≠ 0
  · have hn : 1 ≤ nsrcs := by
      by_contra hcon
      exact hrmw ⟨by simpa using hr, Or.inl (by omega)⟩
    simp only [hr, ne_eq, not_false_eq_true, decide_True, if_true] at hsr hsgdec hsgtr hkeep hsglen
    refine ⟨tc, sc, [Event.read (tgts 0) ssize],
      (if is_sys op = true then [Event.call (srcs 0)
        ((List.range (nsrcs - 1)).map (fun i => srcs (i + 1)))] else []),
      tg, sg, m1, m2, m3.read (tgts 0) ssize, op, r, hop, hdr, htc, hrtc, htgdec, htglen, htgall,
      ?_, hrsc, fun _ => rfl, fun h => absurd h hr, hsgdec, ?_, hsgall, ?_, ?_, ?_⟩
    · simp only [bajo_t.read, hsc, List.append_assoc]
    · simp only [List.length_singleton]; omega
    · intro h; rw [if_pos h]
    · intro h; rw [if_neg (by simp [h])]
    · rw [hme', hwr]
      cases hsys : is_sys op with
      | true =>
        rw [hcl1 hsys, hsgtr]
        simp only [bajo_t.read, hsc, htgtr, htc, opcode_fetched, List.append_assoc, if_true]
      | false =>
        rw [hcl2 hsys, hsgtr]
        simp only [bajo_t.read, hsc, htgtr, htc, opcode_fetched, List.append_assoc,
          Bool.false_eq_true, if_false, List.nil_append]
  · have hr0 : load me.mem me.pc 1 &&& 0x80 = 0 := not_not.1 hr
    simp only [hr0, ne_eq, not_true_eq_false, decide_False, Bool.false_eq_true, if_false,
      Nat.sub_zero] at hsr hsgdec hsgtr hkeep hsglen
    refine ⟨tc, sc, [],
      (if is_sys op = true then [Event.call (srcs 0)
        ((List.range (nsrcs - 1)).map (fun i => srcs (i + 1)))] else []),
      tg, sg, m1, m2, m3, op, r, hop, hdr, htc, hrtc, htgdec, htglen, htgall,
      ?_, hrsc, fun h => absurd hr0 h, fun _ => rfl, hsgdec, ?_, hsgall, ?_, ?_, ?_⟩
    · simp only [hsc, List.append_nil]
    · simp only [List.length_nil, Nat.zero_add]
      exact hsglen
    · intro h; rw [if_pos h]
    · intro h; rw [if_neg (by simp [h])]
    · rw [hme', hwr]
      cases hsys : is_sys op with
      | true =>
        rw [hcl1 hsys, hsgtr]
        simp only [bajo_t.read, hsc, htgtr, htc, opcode_fetched, List.append_assoc, if_true,
          List.append_nil, List.nil_append]
      | false =>
        rw [hcl2 hsys, hsgtr]
        simp only [bajo_t.read, hsc, htgtr, htc, opcode_fetched, List.append_assoc,
          Bool.false_eq_true, if_false, List.nil_append, List.append_nil]

end Bajo
